import Mathlib

/-!
# Pool registry and path search of the arbitrage bot

A shallow embedding of `src/clients/client.go` and `src/clients/helpers.go`:

* the pool registry `UniswapClient.Pools` (a Go map) and the two operations that
  write reserves, `SetReserves` and `ResolveLogs`;
* the five path searches and `FindPaths`;
* the profit sweep `calculateOutcomeForPath`, the submission gate
  `SendTransaction` and the handler of a rejected submission;
* the bootstrap scan (`GetV2Pools`, `GetV3Pools`, `InitializePools`) and the
  block handler of `Run` up to the assignment of the watermark.

Conventions of the embedding.

* `common.Address` (20 bytes) is represented by its numeric value.
* `*big.Int` is `Int`; amounts that the ABI declares unsigned are `Nat`.
  `uint64` values are `Nat`, with the arithmetic and conversions of the source
  written out modulo 2^64.
* A call that panics, exits the process or does not end has the result `none`.
* A Go map is an association list; `mapGet` is the lookup `m[k]` and `mapSet` the
  assignment `m[k] = v`.  Ranging over a map visits the entries in list order
  (Go leaves the order unspecified; nothing proved below depends on it).
* Calls to the execution contract are parameters (`getReserves`,
  `multiGetReserves`): `none` is an error return.
* Goroutines that only compute a list and send it on a channel are function
  calls; the receiver collects the lists in the order the goroutines were
  started.
* A path string `"a->b->c"` is represented by the tuple of its addresses
  (`Address.String` is injective and the separator does not occur in it), so
  equality of path strings is equality of tuples.
-/

namespace common

/-- A 20-byte account address, by its numeric value. -/
abbrev Address := Nat

end common

namespace clients

/-! ## Constants (client.go:26-37) -/

def WETHAddress : common.Address := 0xC02aaA39b223FE8D0A0e5C4F27eAD9083C756Cc2

def AddressZero : common.Address := 0

def PoolFactoryV2 : common.Address := 0x5C69bEe701ef814a2B6a3EDD4B1652CB9cc5aA6f

def PoolFactoryV3 : common.Address := 0x1F98431c8aD98523631AE4a59f267346ea31F984

/-- The `factoryAddressMap` built by `NewUniswapClient` (client.go:167-170):
membership test `_, ok := c.factoryAddressMap[a]`. -/
def factoryAddressMap (a : common.Address) : Bool :=
  a == PoolFactoryV2 || a == PoolFactoryV3

/-- The constant `wethReserveLimit` of `SetReserves` and `ResolveLogs`, 10^19. -/
def wethReserveLimit : Int := 10000000000000000000

/-! ## Go maps as association lists -/

/-- The lookup `v, ok := m[k]`. -/
def mapGet {β : Type} (m : List (common.Address × β)) (k : common.Address) : Option β :=
  match m with
  | [] => none
  | (k', v) :: rest => if k' = k then some v else mapGet rest k

/-- The assignment `m[k] = v`: overwrite the entry of `k`, or add one. -/
def mapSet {β : Type} (m : List (common.Address × β)) (k : common.Address) (v : β) :
    List (common.Address × β) :=
  match m with
  | [] => [(k, v)]
  | (k', v') :: rest => if k' = k then (k, v) :: rest else (k', v') :: mapSet rest k v

/-! ## Data model (client.go:44-53) -/

/-- The struct `Pool`.  The field `Type` of the source is `PoolType` here. -/
structure Pool where
  Token0 : common.Address
  Token1 : common.Address
  Address : common.Address
  Reserve0 : Int
  Reserve1 : Int
  Fee : Option Int
  PoolType : String
  Enabled : Bool
deriving DecidableEq, Repr

/-- The registry `UniswapClient.Pools : map[common.Address]Pool`. -/
abbrev PoolMap := List (common.Address × Pool)

/-- The Go zero value of `Pool`, what `c.Pools[k]` yields for a missing key. -/
def zeroPool : Pool :=
  { Token0 := 0, Token1 := 0, Address := 0, Reserve0 := 0, Reserve1 := 0,
    Fee := none, PoolType := "", Enabled := false }

/-- The struct `contracts.UniswapBotV2ReserveParams`. -/
structure ReserveParams where
  Token0 : common.Address
  Token1 : common.Address
  Pool : common.Address
deriving DecidableEq, Repr

/-! ## Logs and the event decoder -/

/-- Modelled from the spec: the decoded content of a raw log.  The decoder
(`UnpackLog` of the ABI binding library) is not part of the repository; section
4.2 of the specification describes it as a pure function from a raw log to a
tagged variant or *unrecognized*.  Amount types follow the ABI string in
`contracts/IEvents.go`: `Swap` carries `int256`, the others unsigned integers. -/
inductive Event where
  | Swap (amount0 amount1 : Int)
  | Mint (amount0 amount1 : Nat)
  | Burn (amount0 amount1 : Nat)
  | CollectProtocol (amount0 amount1 : Nat)
  | Sync (reserve0 reserve1 : Nat)
  | PairCreated (token0 token1 pair : common.Address)
  | PoolCreated (token0 token1 : common.Address) (fee : Nat) (pool : common.Address)
  | Unrecognized
deriving DecidableEq, Repr

/-- The fields of `types.Log` that `ResolveLogs` reads: the emitting address, the
log index, and the topics and data (through the decoder). -/
structure Log where
  Address : common.Address
  Index : Nat
  event : Event
deriving DecidableEq, Repr

/-- `IEventsFilterer.ParseSwap` (IEvents.go:1137): `none` is the error return. -/
def ParseSwap (log : Log) : Option (Int × Int) :=
  match log.event with
  | .Swap a0 a1 => some (a0, a1)
  | _ => none

/-- `IEventsFilterer.ParseMint` (IEvents.go:660). -/
def ParseMint (log : Log) : Option (Nat × Nat) :=
  match log.event with
  | .Mint a0 a1 => some (a0, a1)
  | _ => none

/-- `IEventsFilterer.ParseBurn` (IEvents.go:339). -/
def ParseBurn (log : Log) : Option (Nat × Nat) :=
  match log.event with
  | .Burn a0 a1 => some (a0, a1)
  | _ => none

/-- `IEventsFilterer.ParseCollectProtocol` (IEvents.go:494). -/
def ParseCollectProtocol (log : Log) : Option (Nat × Nat) :=
  match log.event with
  | .CollectProtocol a0 a1 => some (a0, a1)
  | _ => none

/-- `IEventsFilterer.ParseSync` (IEvents.go:1272). -/
def ParseSync (log : Log) : Option (Nat × Nat) :=
  match log.event with
  | .Sync r0 r1 => some (r0, r1)
  | _ => none

/-- `IEventsFilterer.ParsePairCreated` (IEvents.go:815): token0, token1, pair. -/
def ParsePairCreated (log : Log) : Option (common.Address × common.Address × common.Address) :=
  match log.event with
  | .PairCreated t0 t1 pair => some (t0, t1, pair)
  | _ => none

/-- `IEventsFilterer.ParsePoolCreated` (IEvents.go:979): token0, token1, fee, pool. -/
def ParsePoolCreated (log : Log) :
    Option (common.Address × common.Address × Nat × common.Address) :=
  match log.event with
  | .PoolCreated t0 t1 fee pool => some (t0, t1, fee, pool)
  | _ => none

/-! ## The enable guards -/

/-- The three guards after a contract read (client.go:271-279, 294-302, 397-405,
430-438): the positivity guard tests `Cmp(zero) == 0`. -/
def disableOnRead (pool : Pool) : Pool :=
  let pool := if pool.Reserve0 = 0 ∨ pool.Reserve1 = 0 then { pool with Enabled := false } else pool
  let pool := if pool.Token0 = WETHAddress ∧ pool.Reserve0 < wethReserveLimit then
    { pool with Enabled := false } else pool
  let pool := if pool.Token1 = WETHAddress ∧ pool.Reserve1 < wethReserveLimit then
    { pool with Enabled := false } else pool
  pool

/-- The three guards after a pool log (client.go:459-467, 481-489, 503-511,
525-533, 547-555): the positivity guard tests `Cmp(zero) != 1`. -/
def disableOnLog (pool : Pool) : Pool :=
  let pool := if ¬ (0 < pool.Reserve0) ∨ ¬ (0 < pool.Reserve1) then
    { pool with Enabled := false } else pool
  let pool := if pool.Token0 = WETHAddress ∧ pool.Reserve0 < wethReserveLimit then
    { pool with Enabled := false } else pool
  let pool := if pool.Token1 = WETHAddress ∧ pool.Reserve1 < wethReserveLimit then
    { pool with Enabled := false } else pool
  pool

/-! ## ResolveLogs (client.go:359-570) -/

/-- The mutable state of the loop of `ResolveLogs`: the registry `c.Pools` and the
locals `logMap` and `processedPools`. -/
structure ResolveState where
  Pools : PoolMap
  logMap : List (common.Address × Nat)
  processedPools : List (common.Address × Pool)
deriving DecidableEq, Repr

/-- The tail shared by the five pool-event blocks (e.g. client.go:468-472):
`c.Pools[addr] = pool`, and `processedPools[addr] = pool` unless already present. -/
def storeProcessed (st : ResolveState) (addr : common.Address) (pool : Pool) : ResolveState :=
  { st with
    Pools := mapSet st.Pools addr pool
    processedPools :=
      match mapGet st.processedPools addr with
      | some _ => st.processedPools
      | none => mapSet st.processedPools addr pool }

/-- Block client.go:453-474. -/
def swapBlock (st : ResolveState) (blockLog : Log) : ResolveState :=
  match ParseSwap blockLog with
  | none => st
  | some (amount0, amount1) =>
    match mapGet st.Pools blockLog.Address with
    | none => st
    | some pool =>
      let pool := { pool with Reserve0 := pool.Reserve0 + amount0
                              Reserve1 := pool.Reserve1 + amount1 }
      storeProcessed st blockLog.Address (disableOnLog pool)

/-- Block client.go:475-496. -/
def mintBlock (st : ResolveState) (blockLog : Log) : ResolveState :=
  match ParseMint blockLog with
  | none => st
  | some (amount0, amount1) =>
    match mapGet st.Pools blockLog.Address with
    | none => st
    | some pool =>
      let pool := { pool with Reserve0 := pool.Reserve0 + (amount0 : Int)
                              Reserve1 := pool.Reserve1 + (amount1 : Int) }
      storeProcessed st blockLog.Address (disableOnLog pool)

/-- Block client.go:497-518. -/
def burnBlock (st : ResolveState) (blockLog : Log) : ResolveState :=
  match ParseBurn blockLog with
  | none => st
  | some (amount0, amount1) =>
    match mapGet st.Pools blockLog.Address with
    | none => st
    | some pool =>
      let pool := { pool with Reserve0 := pool.Reserve0 - (amount0 : Int)
                              Reserve1 := pool.Reserve1 - (amount1 : Int) }
      storeProcessed st blockLog.Address (disableOnLog pool)

/-- Block client.go:519-540. -/
def collectProtocolBlock (st : ResolveState) (blockLog : Log) : ResolveState :=
  match ParseCollectProtocol blockLog with
  | none => st
  | some (amount0, amount1) =>
    match mapGet st.Pools blockLog.Address with
    | none => st
    | some pool =>
      let pool := { pool with Reserve0 := pool.Reserve0 - (amount0 : Int)
                              Reserve1 := pool.Reserve1 - (amount1 : Int) }
      storeProcessed st blockLog.Address (disableOnLog pool)

/-- Block client.go:541-562. -/
def syncBlock (st : ResolveState) (blockLog : Log) : ResolveState :=
  match ParseSync blockLog with
  | none => st
  | some (reserve0, reserve1) =>
    match mapGet st.Pools blockLog.Address with
    | none => st
    | some pool =>
      let pool := { pool with Reserve0 := (reserve0 : Int), Reserve1 := (reserve1 : Int) }
      storeProcessed st blockLog.Address (disableOnLog pool)

/-- The five event blocks in source order (client.go:453-562), for a log that
passed the index filter. -/
def applyPoolLog (st : ResolveState) (blockLog : Log) : ResolveState :=
  let st := swapBlock st blockLog
  let st := mintBlock st blockLog
  let st := burnBlock st blockLog
  let st := collectProtocolBlock st blockLog
  syncBlock st blockLog

/-- The `PairCreated` block (client.go:409-441).  An error of `GetReserves`
executes `continue`, which here leaves the registry as it is. -/
def pairCreatedBlock (getReserves : ReserveParams → Option (Nat × Nat))
    (Pools : PoolMap) (blockLog : Log) : PoolMap :=
  match ParsePairCreated blockLog with
  | none => Pools
  | some (token0, token1, pair) =>
    let pool : Pool :=
      { Address := pair, Token0 := token0, Token1 := token1, Reserve0 := 0, Reserve1 := 0,
        Fee := none, PoolType := "v2", Enabled := true }
    match getReserves { Token0 := pool.Token0, Token1 := pool.Token1, Pool := pool.Address } with
    | none => Pools
    | some (r0, r1) =>
      match mapGet Pools pair with
      | some _ => Pools
      | none =>
        let pool := { pool with Reserve0 := (r0 : Int), Reserve1 := (r1 : Int) }
        mapSet Pools pair (disableOnRead pool)

/-- The factory branch (client.go:375-441): the `PoolCreated` block followed by
the `PairCreated` block; an error of `GetReserves` in the first one executes
`continue` and skips the second. -/
def applyFactoryLog (getReserves : ReserveParams → Option (Nat × Nat))
    (Pools : PoolMap) (blockLog : Log) : PoolMap :=
  match ParsePoolCreated blockLog with
  | none => pairCreatedBlock getReserves Pools blockLog
  | some (token0, token1, fee, poolAddr) =>
    let pool : Pool :=
      { Address := poolAddr, Token0 := token0, Token1 := token1, Reserve0 := 0, Reserve1 := 0,
        Fee := some (fee : Int), PoolType := "v3", Enabled := true }
    match getReserves { Token0 := pool.Token0, Token1 := pool.Token1, Pool := pool.Address } with
    | none => Pools
    | some (r0, r1) =>
      let Pools :=
        match mapGet Pools poolAddr with
        | some _ => Pools
        | none =>
          let pool := { pool with Reserve0 := (r0 : Int), Reserve1 := (r1 : Int) }
          mapSet Pools poolAddr (disableOnRead pool)
      pairCreatedBlock getReserves Pools blockLog

/-- One iteration of the loop of `ResolveLogs` (client.go:372-564). -/
def resolveLog (getReserves : ReserveParams → Option (Nat × Nat))
    (st : ResolveState) (blockLog : Log) : ResolveState :=
  if factoryAddressMap blockLog.Address then
    { st with Pools := applyFactoryLog getReserves st.Pools blockLog }
  else
    match mapGet st.logMap blockLog.Address with
    | none =>
      applyPoolLog { st with logMap := mapSet st.logMap blockLog.Address blockLog.Index } blockLog
    | some oldIndex =>
      if blockLog.Index > oldIndex then
        applyPoolLog { st with logMap := mapSet st.logMap blockLog.Address blockLog.Index } blockLog
      else st

/-- The loop of `ResolveLogs` started in an arbitrary loop state. -/
def resolveFrom (getReserves : ReserveParams → Option (Nat × Nat))
    (st : ResolveState) (logs : List Log) : ResolveState :=
  logs.foldl (resolveLog getReserves) st

/-- The state in which `ResolveLogs` enters its loop: empty `logMap` and
`processedPools` (client.go:369-370). -/
def resolveInit (Pools : PoolMap) : ResolveState :=
  { Pools := Pools, logMap := [], processedPools := [] }

/-- The loop state at the end of `ResolveLogs`. -/
def resolveAll (getReserves : ReserveParams → Option (Nat × Nat))
    (Pools : PoolMap) (logs : List Log) : ResolveState :=
  resolveFrom getReserves (resolveInit Pools) logs

/-- `UniswapClient.ResolveLogs`: the returned slice `processedPoolsArr` and the
registry `c.Pools` as the call leaves it. -/
def ResolveLogs (getReserves : ReserveParams → Option (Nat × Nat))
    (Pools : PoolMap) (logs : List Log) : List Pool × PoolMap :=
  let st := resolveAll getReserves Pools logs
  (st.processedPools.map Prod.snd, st.Pools)

/-! ## SetReserves (client.go:225-308) -/

/-- How a run of `SetReserves` ends: both loops completed, `multiGetReserves`
returned an error (client.go:262-264), or the result slice was shorter than the
batch (index out of range at client.go:268). -/
inductive CallStatus where
  | done
  | rpcError
  | indexPanic
deriving DecidableEq, Repr

/-- The parameter record built from a pool (client.go:235-239, 242-246). -/
def reserveParamsOf (pool : Pool) : ReserveParams :=
  { Token0 := pool.Token0, Token1 := pool.Token1, Pool := pool.Address }

/-- The index sequence of the batching loops
`for i := 0; i < len(xs); i += batchSize` with the slice taken at each `i`
(client.go:253-260 and 956-962): `xs[i:i+batchSize]` when
`i+batchSize < len(xs)`, else `xs[i:]`. -/
def batchLoop {α : Type} (batchSize : Nat) (xs : List α) : Nat → Nat → List (List α)
  | 0, _ => []
  | fuel + 1, i =>
    if i < xs.length then
      (if i + batchSize < xs.length then (xs.drop i).take batchSize else xs.drop i)
        :: batchLoop batchSize xs fuel (i + batchSize)
    else []

/-- The slices of the batching loop; `len(xs)` iterations always suffice for a
positive batch size. -/
def batches {α : Type} (batchSize : Nat) (xs : List α) : List (List α) :=
  batchLoop batchSize xs xs.length 0

/-- The body of the inner loop over one batch (client.go:267-280), given the
element `reserves = res[j]` of the result. -/
def setOldPool (Pools : PoolMap) (oldParam : ReserveParams) (reserves : Nat × Nat) : PoolMap :=
  let pool := (mapGet Pools oldParam.Pool).getD zeroPool
  let pool := { pool with Reserve1 := (reserves.2 : Int), Reserve0 := (reserves.1 : Int) }
  mapSet Pools oldParam.Pool (disableOnRead pool)

/-- The inner loop over one batch (client.go:266-281), from position `j` of the
result slice `res`.  The flag is `false` when `res[j]` is out of range. -/
def setOldBatch (res : List (Nat × Nat)) : PoolMap → List ReserveParams → Nat → PoolMap × Bool
  | Pools, [], _ => (Pools, true)
  | Pools, oldParam :: rest, j =>
    match res.get? j with
    | none => (Pools, false)
    | some reserves => setOldBatch res (setOldPool Pools oldParam reserves) rest (j + 1)

/-- The loop over the batches of existing pools (client.go:253-282). -/
def setOldReserves (multiGetReserves : List ReserveParams → Option (List (Nat × Nat))) :
    PoolMap → List (List ReserveParams) → PoolMap × CallStatus
  | Pools, [] => (Pools, .done)
  | Pools, paramSlice :: rest =>
    match multiGetReserves paramSlice with
    | none => (Pools, .rpcError)
    | some res =>
      match setOldBatch res Pools paramSlice 0 with
      | (Pools, false) => (Pools, .indexPanic)
      | (Pools, true) => setOldReserves multiGetReserves Pools rest

/-- One iteration of the loop over the new pools (client.go:284-304): an error of
`getReserves` executes `continue`. -/
def setNewPool (getReserves : ReserveParams → Option (Nat × Nat))
    (Pools : PoolMap) (pool : Pool) : PoolMap :=
  match getReserves (reserveParamsOf pool) with
  | none => Pools
  | some (r0, r1) =>
    let pool := { pool with Reserve0 := (r0 : Int), Reserve1 := (r1 : Int) }
    mapSet Pools pool.Address (disableOnRead pool)

/-- `UniswapClient.SetReserves`: the registry as the call leaves it and how the
call ended.  Writing the state file is outside the model. -/
def SetReserves (multiGetReserves : List ReserveParams → Option (List (Nat × Nat)))
    (getReserves : ReserveParams → Option (Nat × Nat))
    (Pools : PoolMap) (newPools : List Pool) : PoolMap × CallStatus :=
  let oldReserveParams := Pools.map (fun kv => reserveParamsOf kv.2)
  match setOldReserves multiGetReserves Pools (batches 2000 oldReserveParams) with
  | (Pools, .done) => (newPools.foldl (setNewPool getReserves) Pools, .done)
  | (Pools, status) => (Pools, status)

/-! ## Path search (client.go:572-837) -/

/-- A path string `"a->b"` or `"a->b->c"`, as the tuple of its addresses. -/
abbrev Path := List common.Address

/-- The local `token1` of the searches that start at a WETH pool
(client.go:579-585): a value, zero-initialised, assigned by two `if`s. -/
def otherTokenVal (pool1 : Pool) : common.Address :=
  let token1 := AddressZero
  let token1 := if pool1.Token0 = WETHAddress then pool1.Token1 else token1
  let token1 := if pool1.Token1 = WETHAddress then pool1.Token0 else token1
  token1

/-- The local `token1` of the searches that start at an affected pool
(client.go:612-618): a pointer, `nil` unless the pool contains WETH. -/
def otherTokenPtr (pool1 : Pool) : Option common.Address :=
  let token1 : Option common.Address := none
  let token1 := if pool1.Token0 = WETHAddress then some pool1.Token1 else token1
  let token1 := if pool1.Token1 = WETHAddress then some pool1.Token0 else token1
  token1

/-- The local `token2` of the triangular searches (client.go:660-666): the token
of `pool2` opposite to `token1`, `nil` when `pool2` does not contain `token1`. -/
def nextToken (pool2 : Pool) (token1 : common.Address) : Option common.Address :=
  let token2 : Option common.Address := none
  let token2 := if pool2.Token0 = token1 then some pool2.Token1 else token2
  let token2 := if pool2.Token1 = token1 then some pool2.Token0 else token2
  token2

/-- The closing test of every search (client.go:590, 627, 674, 726, 774; the
source writes the two disjuncts in either order): the pool pairs WETH with
`token`. -/
def closesAt (pool : Pool) (token : common.Address) : Bool :=
  (pool.Token1 = WETHAddress ∧ pool.Token0 = token) ∨
  (pool.Token0 = WETHAddress ∧ pool.Token1 = token)

/-- `findDoublePathFirstEffected` (client.go:572-603). -/
def findDoublePathFirstEffected (effectedPools wethPools : List Pool) : List Path :=
  wethPools.flatMap fun pool1 =>
    let token1 := otherTokenVal pool1
    effectedPools.flatMap fun pool2 =>
      if pool2.Address = pool1.Address then []
      else if closesAt pool2 token1 then [[pool1.Address, pool2.Address]]
      else []

/-- `findDoublePathLastEffected` (client.go:605-640). -/
def findDoublePathLastEffected (effectedPools wethPools : List Pool) : List Path :=
  effectedPools.flatMap fun pool1 =>
    match otherTokenPtr pool1 with
    | none => []
    | some token1 =>
      wethPools.flatMap fun pool2 =>
        if pool2.Address = pool1.Address then []
        else if closesAt pool2 token1 then [[pool1.Address, pool2.Address]]
        else []

/-- `findTriangularPathMidEffected` (client.go:642-688). -/
def findTriangularPathMidEffected (effectedPools wethPools : List Pool) : List Path :=
  wethPools.flatMap fun pool1 =>
    let token1 := otherTokenVal pool1
    effectedPools.flatMap fun pool2 =>
      if pool2.Address = pool1.Address then []
      else
        match nextToken pool2 token1 with
        | none => []
        | some token2 =>
          wethPools.flatMap fun pool3 =>
            if pool3.Address = pool2.Address ∨ pool3.Address = pool1.Address then []
            else if closesAt pool3 token2 then
              [[pool1.Address, pool2.Address, pool3.Address]]
            else []

/-- `findTriangularPathFirstEffected` (client.go:690-740). -/
def findTriangularPathFirstEffected (effectedPools wethPools allPools : List Pool) :
    List Path :=
  effectedPools.flatMap fun pool1 =>
    match otherTokenPtr pool1 with
    | none => []
    | some token1 =>
      allPools.flatMap fun pool2 =>
        if pool2.Address = pool1.Address then []
        else
          match nextToken pool2 token1 with
          | none => []
          | some token2 =>
            wethPools.flatMap fun pool3 =>
              if pool1.Address = pool3.Address ∨ pool2.Address = pool3.Address then []
              else if closesAt pool3 token2 then
                [[pool1.Address, pool2.Address, pool3.Address]]
              else []

/-- `findTriangularPathLastEffected` (client.go:742-788). -/
def findTriangularPathLastEffected (effectedPools wethPools allPools : List Pool) :
    List Path :=
  wethPools.flatMap fun pool1 =>
    let token1 := otherTokenVal pool1
    allPools.flatMap fun pool2 =>
      if pool2.Address = pool1.Address then []
      else
        match nextToken pool2 token1 with
        | none => []
        | some token2 =>
          effectedPools.flatMap fun pool3 =>
            if pool3.Address = pool2.Address ∨ pool3.Address = pool1.Address then []
            else if closesAt pool3 token2 then
              [[pool1.Address, pool2.Address, pool3.Address]]
            else []

/-- `CalculateWethAndAllPools` (client.go:790-803): `(allPools, wethPools)`. -/
def CalculateWethAndAllPools (Pools : PoolMap) : List Pool × List Pool :=
  let enabled := (Pools.map Prod.snd).filter fun pool => pool.Enabled
  (enabled, enabled.filter fun pool => pool.Token1 = WETHAddress ∨ pool.Token0 = WETHAddress)

/-- The body of the receive loop of `FindPaths` for one path (client.go:829-833):
the state is `(paths, addedMap)`, the map given by its keys. -/
def addPath (acc : List Path × List Path) (path : Path) : List Path × List Path :=
  if path ∈ acc.2 then acc else (acc.1 ++ [path], path :: acc.2)

/-- The five searches of `FindPaths` in the order they are started
(client.go:821-825). -/
def searchResults (Pools : PoolMap) (effectedPools : List Pool) : List (List Path) :=
  let allPools := (CalculateWethAndAllPools Pools).1
  let wethPools := (CalculateWethAndAllPools Pools).2
  [ findDoublePathFirstEffected effectedPools wethPools,
    findDoublePathLastEffected effectedPools wethPools,
    findTriangularPathFirstEffected effectedPools wethPools allPools,
    findTriangularPathMidEffected effectedPools wethPools,
    findTriangularPathLastEffected effectedPools wethPools allPools ]

/-- `UniswapClient.FindPaths` (client.go:816-837). -/
def FindPaths (Pools : PoolMap) (effectedPools : List Pool) : List Path :=
  ((searchResults Pools effectedPools).foldl
    (fun acc foundPaths => foundPaths.foldl addPath acc) ([], [])).1

/-- Running a step that may fail over a list, in order, stopping at the first
failure. -/
def mapAll {α β : Type} (f : α → Option β) : List α → Option (List β)
  | [] => some []
  | a :: rest =>
    match f a with
    | none => none
    | some b => (mapAll f rest).map fun bs => b :: bs

/-! ## The profit sweep (client.go:839-912) -/

def UniswapV3Quoter : common.Address := 0x61fFE014bA17989E743c5F6cB21bF9697530B21e

/-- The struct `ArbitrageTx` (helpers.go:134-144).  `BorrowAmount` and
`AmountOut` are `*big.Int` that stay `nil` until a probe is chosen.  The field
`Ratio` is a `big.Float`, computed from `Profit` and `BorrowAmount` by rounded
arithmetic; it is left out. -/
structure ArbitrageTx where
  Path : Path
  BorrowTokenAddress : common.Address
  BorrowAmount : Option Int
  Pools : List common.Address
  Types : List Int
  AmountOut : Option Int
  Profit : Int
  Valid : Bool
deriving DecidableEq, Repr

/-- The struct `contracts.UniswapBotV2QuoteParams`. -/
structure QuoteParams where
  Pools : List common.Address
  Quoters : List common.Address
  Amount : Int
  TokenIn : common.Address
deriving DecidableEq, Repr

/-- The slice `pools` of `calculateOutcomeForPath` (client.go:847-854): the
registry entry of every address of the path, the zero value for a missing key. -/
def pathPools (Pools : PoolMap) (path : Path) : List Pool :=
  path.map fun a => (mapGet Pools a).getD zeroPool

/-- The slice `quoters` (client.go:849-853). -/
def pathQuoters (Pools : PoolMap) (path : Path) : List common.Address :=
  (pathPools Pools path).map fun pool =>
    if pool.PoolType = "v2" then AddressZero else UniswapV3Quoter

/-- The slice `types` (client.go:856-860). -/
def pathTypes (Pools : PoolMap) (path : Path) : List Int :=
  (pathPools Pools path).map fun pool => if pool.PoolType = "v2" then 0 else 1

/-- The slice `poolAddresses` (client.go:855). -/
def pathAddresses (Pools : PoolMap) (path : Path) : List common.Address :=
  (pathPools Pools path).map fun pool => pool.Address

/-- The local `reserve` of the probe loop (client.go:871-876), for the first pool
of the path. -/
def probeReserve (pool0 : Pool) : Int :=
  if pool0.Token1 = WETHAddress then pool0.Reserve1 else pool0.Reserve0

/-- The probe loop `for i := 1; i < 21; i++` (client.go:870-885).  `big.Int.Div`
is Euclidean division, which is `/` on `Int`.  The result is `none` when the loop
panics: `pools[0]` does not exist, or the first address is not a registry key, so
that `pools[0]` is the zero value whose reserves are `nil`. -/
def buildQuoteParams (Pools : PoolMap) (path : Path) : Option (List QuoteParams) :=
  match path with
  | [] => none
  | first :: _ =>
    match mapGet Pools first with
    | none => none
    | some pool0 =>
      some ((List.range' 1 20).map fun (i : Nat) =>
        { Pools := pathAddresses Pools path
          Quoters := pathQuoters Pools path
          Amount := probeReserve pool0 * (i : Int) / 100
          TokenIn := WETHAddress })

/-- The candidate before the sweep (client.go:862-869). -/
def initialTx (Pools : PoolMap) (path : Path) : ArbitrageTx :=
  { Path := path
    BorrowTokenAddress := WETHAddress
    BorrowAmount := none
    Pools := pathAddresses Pools path
    Types := pathTypes Pools path
    AmountOut := none
    Profit := 0
    Valid := false }

/-- The loop over the quotes (client.go:894-910), from position `i`.  The result
is `none` when `outcomes[i]` or `outcome[len(outcome)-1]` is out of range. -/
def sweep (outcomes : List (List Nat)) : List QuoteParams → Nat → ArbitrageTx → Option ArbitrageTx
  | [], _, tx => some tx
  | param :: rest, i, tx =>
    match outcomes.get? i with
    | none => none
    | some outcome =>
      match outcome.getLast? with
      | none => none
      | some lastOut =>
        let profit := (lastOut : Int) - param.Amount
        if profit > tx.Profit then
          sweep outcomes rest (i + 1)
            { tx with Profit := profit, AmountOut := some (lastOut : Int),
                      BorrowAmount := some param.Amount, Valid := true }
        else sweep outcomes rest (i + 1) tx

/-- `calculateOutcomeForPath`: the candidate sent on the channel, `none` when the
goroutine panics.  `multiQuote` is the call to the execution contract; its
quotes are unsigned. -/
def calculateOutcomeForPath (multiQuote : List QuoteParams → Option (List (List Nat)))
    (Pools : PoolMap) (path : Path) : Option ArbitrageTx :=
  match buildQuoteParams Pools path with
  | none => none
  | some quoteParams =>
    match multiQuote quoteParams with
    | none => some (initialTx Pools path)
    | some outcomes => sweep outcomes quoteParams 0 (initialTx Pools path)

/-- `calculateOutcomes` (client.go:914-925): one candidate per path; a panic in
any goroutine ends the process. -/
def calculateOutcomes (multiQuote : List QuoteParams → Option (List (List Nat)))
    (Pools : PoolMap) (paths : List Path) : Option (List ArbitrageTx) :=
  mapAll (calculateOutcomeForPath multiQuote Pools) paths

/-! ## Submission (client.go:1031-1060) and the malicious-pool handler
(client.go:991-1001) -/

/-- The conversion `int64(x)` of a `uint64` value. -/
def int64OfUint64 (x : Nat) : Int :=
  if x % 2 ^ 64 < 2 ^ 63 then ((x % 2 ^ 64 : Nat) : Int) else ((x % 2 ^ 64 : Nat) : Int) - 2 ^ 64

/-- The text `"Malicious Pool: "` searched for in a submission error.  A Go
string is a byte sequence; every list element stands for one byte. -/
def maliciousMarker : List Char :=
  "Malicious Pool: ".toList

/-- The handler of a submission error in `Run` (client.go:993-999).
`HexToAddress` is the library conversion of a hex string to an address.  The
result is `none` when the slice `errMsg[len(errMsg)-42:]` is out of range. -/
def handleSendError (HexToAddress : List Char → common.Address) (Pools : PoolMap)
    (errMsg : List Char) : Option PoolMap :=
  if maliciousMarker <:+: errMsg then
    if errMsg.length < 42 then none
    else
      let poolAddress := errMsg.drop (errMsg.length - 42)
      let pool := (mapGet Pools (HexToAddress poolAddress)).getD zeroPool
      let pool := { pool with Enabled := false }
      some (mapSet Pools pool.Address pool)
  else some Pools

/-! ## Bootstrap (helpers.go:17-130, client.go:178-223, 310-323) -/

/-- Addition of a constant to a `uint64`. -/
def addU64 (i k : Nat) : Nat :=
  (i + k) % 2 ^ 64

/-- The loop `for i := latestSyncBlock; i < currentBlockNumber; i += 10000` of
`GetV2Pools` and `GetV3Pools` (helpers.go:22-32, 50-60), from `i`: the inclusive
windows `(startIndex, endIndex)` handed to `getV2Pool` / `getV3Pool`.  The result
is `none` when the fuel is used up. -/
def windowLoop (currentBlockNumber : Nat) : Nat → Nat → Option (List (Nat × Nat))
  | 0, _ => none
  | fuel + 1, i =>
    if i < currentBlockNumber then
      let window :=
        if addU64 i 10000 < currentBlockNumber then (i, addU64 i 9999)
        else (i, currentBlockNumber)
      (windowLoop currentBlockNumber fuel (addU64 i 10000)).map fun rest => window :: rest
    else some []

/-- The windows of a scan from the watermark `latestSyncBlock` to the head
`currentBlockNumber`. -/
def scanWindows (currentBlockNumber latestSyncBlock : Nat) : Option (List (Nat × Nat)) :=
  windowLoop currentBlockNumber (currentBlockNumber - latestSyncBlock + 1) latestSyncBlock

/-- `getV2Pool` (helpers.go:102-128).  `FilterPairCreated startIndex endIndex`
yields the fields `(token0, token1, pair)` of the events of the inclusive block
range; `none` is an error, on which the process exits (`log.Fatal`). -/
def getV2Pool
    (FilterPairCreated : Nat → Nat → Option (List (common.Address × common.Address × common.Address)))
    (startIndex endIndex : Nat) : Option (List Pool) :=
  (FilterPairCreated startIndex endIndex).map fun events =>
    events.map fun ev =>
      { Token0 := ev.1, Token1 := ev.2.1, Address := ev.2.2, Reserve0 := 0, Reserve1 := 0,
        Fee := none, PoolType := "v2", Enabled := true }

/-- `getV3Pool` (helpers.go:71-100), with the fields `(token0, token1, fee, pool)`. -/
def getV3Pool
    (FilterPoolCreated :
      Nat → Nat → Option (List (common.Address × common.Address × Nat × common.Address)))
    (startIndex endIndex : Nat) : Option (List Pool) :=
  (FilterPoolCreated startIndex endIndex).map fun events =>
    events.map fun ev =>
      { Token0 := ev.1, Token1 := ev.2.1, Address := ev.2.2.2, Reserve0 := 0, Reserve1 := 0,
        Fee := some (ev.2.2.1 : Int), PoolType := "v3", Enabled := true }

/-- `GetV2Pools` (helpers.go:17-41): the pools of all windows; `none` when the
call does not return (a filter error ends the process, or the loop does not
end). -/
def GetV2Pools
    (FilterPairCreated : Nat → Nat → Option (List (common.Address × common.Address × common.Address)))
    (currentBlockNumber latestSyncBlock : Nat) : Option (List Pool) :=
  match scanWindows currentBlockNumber latestSyncBlock with
  | none => none
  | some windows =>
    (mapAll (fun w => getV2Pool FilterPairCreated w.1 w.2) windows).map List.flatten

/-- `GetV3Pools` (helpers.go:43-69). -/
def GetV3Pools
    (FilterPoolCreated :
      Nat → Nat → Option (List (common.Address × common.Address × Nat × common.Address)))
    (currentBlockNumber latestSyncBlock : Nat) : Option (List Pool) :=
  match scanWindows currentBlockNumber latestSyncBlock with
  | none => none
  | some windows =>
    (mapAll (fun w => getV3Pool FilterPoolCreated w.1 w.2) windows).map List.flatten

/-- The fields `Pools` and `LastSeenBlock` of `UniswapClient`. -/
structure ClientState where
  Pools : PoolMap
  LastSeenBlock : Nat
deriving DecidableEq, Repr

/-- `ReadState` (client.go:310-323).  `file` is `none` when the state file cannot
be read, `some none` when it does not parse, and otherwise its content.  The
flag is `false` for the error return. -/
def ReadState (file : Option (Option (PoolMap × Nat))) (c : ClientState) : ClientState × Bool :=
  match file with
  | none => (c, true)
  | some none => (c, false)
  | some (some (pools, lastSeenBlock)) => ({ Pools := pools, LastSeenBlock := lastSeenBlock }, true)

/-- `InitializePools` (client.go:178-223): the state the call leaves and the new
pools, `none` for an error return.  `blockNumber` is the result of
`c.client.BlockNumber`.  The outer `none` means that the call does not return.
Building the event bindings (`NewIEvents`) is taken to succeed; its error return
would leave the state as the error of `BlockNumber` does. -/
def InitializePools (file : Option (Option (PoolMap × Nat))) (blockNumber : Option Nat)
    (FilterPairCreated : Nat → Nat → Option (List (common.Address × common.Address × common.Address)))
    (FilterPoolCreated :
      Nat → Nat → Option (List (common.Address × common.Address × Nat × common.Address)))
    (c : ClientState) : Option (ClientState × Option (List Pool)) :=
  match ReadState file c with
  | (c, false) => some (c, none)
  | (c, true) =>
    match blockNumber with
    | none => some (c, none)
    | some currentBlockNumber =>
      match GetV3Pools FilterPoolCreated currentBlockNumber c.LastSeenBlock,
            GetV2Pools FilterPairCreated currentBlockNumber c.LastSeenBlock with
      | some v3, some v2 =>
        some ({ c with LastSeenBlock := currentBlockNumber }, some (v3 ++ v2))
      | _, _ => none

/-! ## The block handler (client.go:946-978) -/

/-- `CalculateActivePoolAddresses` (client.go:805-814). -/
def CalculateActivePoolAddresses (Pools : PoolMap) : List common.Address :=
  [PoolFactoryV2, PoolFactoryV3] ++
    ((Pools.map Prod.snd).filter fun pool => pool.Enabled).map fun pool => pool.Address

/-- The loop that fetches the logs in batches of 100,000 addresses
(client.go:956-971); `none` when a `FilterLogs` call returns an error. -/
def fetchLogs (FilterLogs : Int → List common.Address → Option (List Log)) (fromBlock : Int) :
    List (List common.Address) → Option (List Log)
  | [] => some []
  | addresses :: rest =>
    match FilterLogs fromBlock addresses with
    | none => none
    | some partLogs => (fetchLogs FilterLogs fromBlock rest).map fun logs => partLogs ++ logs

/-- One pass of the header case of `Run` up to the assignment of the watermark
(client.go:946-978): the state it leaves and the affected pools handed to
`FindPaths`, `none` when `Run` returns an error before that.  `FromBlock` is
`big.NewInt(int64(c.LastSeenBlock))`. -/
def handleHeader (blockNumber : Option Nat)
    (FilterLogs : Int → List common.Address → Option (List Log))
    (getReserves : ReserveParams → Option (Nat × Nat)) (c : ClientState) :
    ClientState × Option (List Pool) :=
  match blockNumber with
  | none => (c, none)
  | some blockNumber =>
    let allAddresses := CalculateActivePoolAddresses c.Pools
    match fetchLogs FilterLogs (int64OfUint64 c.LastSeenBlock) (batches 100000 allAddresses) with
    | none => (c, none)
    | some logs =>
      let resolved := ResolveLogs getReserves c.Pools logs
      ({ Pools := resolved.2, LastSeenBlock := blockNumber }, some resolved.1)

/-! ## Auxiliary definitions used to state the properties -/

/-- The reserves a recognised pool event writes into `pool`, before the guards:
the assignments that open the five event blocks (client.go:457-458, 479-480,
501-502, 523-524, 545-546). -/
def eventReserves (pool : Pool) : Event → Option Pool
  | .Swap a0 a1 => some { pool with Reserve0 := pool.Reserve0 + a0, Reserve1 := pool.Reserve1 + a1 }
  | .Mint a0 a1 =>
    some { pool with Reserve0 := pool.Reserve0 + (a0 : Int), Reserve1 := pool.Reserve1 + (a1 : Int) }
  | .Burn a0 a1 =>
    some { pool with Reserve0 := pool.Reserve0 - (a0 : Int), Reserve1 := pool.Reserve1 - (a1 : Int) }
  | .CollectProtocol a0 a1 =>
    some { pool with Reserve0 := pool.Reserve0 - (a0 : Int), Reserve1 := pool.Reserve1 - (a1 : Int) }
  | .Sync r0 r1 => some { pool with Reserve0 := (r0 : Int), Reserve1 := (r1 : Int) }
  | _ => none

/-- The index filter of `ResolveLogs`, stated on the batch: a pool log passes
after the logs `earlier` iff every earlier log of the same address has a strictly
smaller index. -/
def passesIndexFilter (earlier : List Log) (l : Log) : Bool :=
  earlier.all fun e => decide (e.Address = l.Address → e.Index < l.Index)

/-- The logs of a batch that reach the registry, in stream order, given the logs
`earlier` that precede the batch: every factory log, and every pool log that
passes the index filter. -/
def appliedLogsFrom (earlier : List Log) : List Log → List Log
  | [] => []
  | l :: rest =>
    if factoryAddressMap l.Address = true ∨ passesIndexFilter earlier l = true then
      l :: appliedLogsFrom (earlier ++ [l]) rest
    else appliedLogsFrom (earlier ++ [l]) rest

/-- The logs of a batch that reach the registry. -/
def appliedLogs (logs : List Log) : List Log :=
  appliedLogsFrom [] logs

/-- Applying a log to the registry with no index filter: the factory branch for a
factory address, the five event blocks otherwise. -/
def applyLog (getReserves : ReserveParams → Option (Nat × Nat))
    (st : ResolveState) (l : Log) : ResolveState :=
  if factoryAddressMap l.Address then
    { st with Pools := applyFactoryLog getReserves st.Pools l }
  else applyPoolLog st l

/-- The enable predicate of the specification (section 3): both reserves are
positive and every side whose token is WETH holds at least the floor. -/
def enablePredicate (p : Pool) : Prop :=
  0 < p.Reserve0 ∧ 0 < p.Reserve1 ∧
  (p.Token0 = WETHAddress → wethReserveLimit ≤ p.Reserve0) ∧
  (p.Token1 = WETHAddress → wethReserveLimit ≤ p.Reserve1)

instance (p : Pool) : Decidable (enablePredicate p) := by
  unfold enablePredicate
  infer_instance

/-- Every entry of the registry `after` is an entry of `before` or satisfies `Q`:
whatever was written satisfies `Q`. -/
def writesOnly (Q : Pool → Prop) (before after : PoolMap) : Prop :=
  ∀ a p', mapGet after a = some p' → mapGet before a = some p' ∨ Q p'

/-- Property P1 of the specification for one pool: an enabled pool has two
strictly positive reserves. -/
def positiveIfEnabled (p : Pool) : Prop :=
  p.Enabled = true → 0 < p.Reserve0 ∧ 0 < p.Reserve1

/-- Property P2 of the specification for one pool: a WETH side below the floor
of 10^19 means the pool is disabled. -/
def floorOrDisabled (p : Pool) : Prop :=
  (p.Token0 = WETHAddress ∧ p.Reserve0 < 10 ^ 19 → p.Enabled = false) ∧
  (p.Token1 = WETHAddress ∧ p.Reserve1 < 10 ^ 19 → p.Enabled = false)

/-- The pool has WETH as token0 or as token1. -/
def hasWETH (p : Pool) : Prop :=
  p.Token0 = WETHAddress ∨ p.Token1 = WETHAddress

instance (p : Pool) : Decidable (hasWETH p) := by
  unfold hasWETH
  infer_instance

/-- The pool record that a creation event describes, as the factory branch builds
it before the reserves are read (client.go:378-385, 412-418). -/
def createdPool : Event → Option Pool
  | .PairCreated token0 token1 pair =>
    some { Address := pair, Token0 := token0, Token1 := token1, Reserve0 := 0, Reserve1 := 0,
           Fee := none, PoolType := "v2", Enabled := true }
  | .PoolCreated token0 token1 fee pool =>
    some { Address := pool, Token0 := token0, Token1 := token1, Reserve0 := 0, Reserve1 := 0,
           Fee := some (fee : Int), PoolType := "v3", Enabled := true }
  | _ => none

/-- The event is a Swap, Mint, Burn, CollectProtocol or Sync. -/
def isPoolEvent : Event → Bool
  | .Swap _ _ => true
  | .Mint _ _ => true
  | .Burn _ _ => true
  | .CollectProtocol _ _ => true
  | .Sync _ _ => true
  | _ => false

/-- The record `q` differs from `p` at most in the reserves and the flag. -/
def sameStatic (p q : Pool) : Prop :=
  q.Address = p.Address ∧ q.Token0 = p.Token0 ∧ q.Token1 = p.Token1 ∧ q.Fee = p.Fee ∧
  q.PoolType = p.PoolType

/-- The slices `bs` chunk the list `xs` by `size`: put end to end, in order, they
give `xs`; each is non-empty and has at most `size` elements; each but the last
has exactly `size` elements. -/
def isChunking {α : Type} (size : Nat) (xs : List α) (bs : List (List α)) : Prop :=
  bs.flatten = xs ∧ (∀ s ∈ bs, s ≠ [] ∧ s.length ≤ size) ∧ ∀ s ∈ bs.dropLast, s.length = size

/-- The tokens of the pool are `a` and `b`, in either order: its token pair is
the unordered pair of `a` and `b`. -/
def tokenPair (p : Pool) (a b : common.Address) : Prop :=
  (p.Token0 = a ∧ p.Token1 = b) ∨ (p.Token0 = b ∧ p.Token1 = a)

/-- Every entry of the registry is stored under the address of its pool, and the
pool satisfies `R`. -/
def registryInv (R : Pool → Prop) (Pools : PoolMap) : Prop :=
  ∀ kv ∈ Pools, kv.2.Address = kv.1 ∧ R kv.2

/-- A creation event names two different tokens (any other event passes). -/
def eventTokensDistinct : Event → Prop
  | .PairCreated token0 token1 _ => token0 ≠ token1
  | .PoolCreated token0 token1 _ _ => token0 ≠ token1
  | _ => True

/-- One call of an operation that writes the registry, with the answers of the
execution contract during the call: `ResolveLogs` on a batch of logs, or
`SetReserves` on a list of new pools. -/
inductive RegistryOp where
  | resolveLogs (getReserves : ReserveParams → Option (Nat × Nat)) (logs : List Log)
  | setReserves (multiGetReserves : List ReserveParams → Option (List (Nat × Nat)))
      (getReserves : ReserveParams → Option (Nat × Nat)) (newPools : List Pool)

/-- The registry after one operation. -/
def applyOp (Pools : PoolMap) : RegistryOp → PoolMap
  | .resolveLogs getReserves logs => (ResolveLogs getReserves Pools logs).2
  | .setReserves multiGetReserves getReserves newPools =>
    (SetReserves multiGetReserves getReserves Pools newPools).1

/-- The registry after a sequence of operations. -/
def runOps (Pools : PoolMap) (ops : List RegistryOp) : PoolMap :=
  ops.foldl applyOp Pools

/-- Every creation event and every new pool that the operation receives has two
different tokens. -/
def creationsDistinct : RegistryOp → Prop
  | .resolveLogs _ logs => ∀ l ∈ logs, eventTokensDistinct l.event
  | .setReserves _ _ newPools => ∀ pool ∈ newPools, pool.Token0 ≠ pool.Token1

/-- The log `l`, met in the loop state `st`, reaches one of the five event
blocks: its address is no factory address, its index passes the test against
`logMap`, it carries a pool event, and its address is a registry key. -/
def appliesIn (st : ResolveState) (l : Log) : Prop :=
  factoryAddressMap l.Address = false ∧
  (∀ old, mapGet st.logMap l.Address = some old → old < l.Index) ∧
  isPoolEvent l.event = true ∧ (mapGet st.Pools l.Address).isSome = true

/-- The pool at address `a` is touched by the batch: some log of the batch has
the address `a`, which is no factory address, carries a Swap, Mint, Burn,
CollectProtocol or Sync event, has an index above the index of every earlier log
of `a` in the batch, and finds `a` as a key of the registry as the logs before it
have left it.  Such a log is applied to the registry. -/
def touchedBy (getReserves : ReserveParams → Option (Nat × Nat)) (Pools : PoolMap)
    (logs : List Log) (a : common.Address) : Prop :=
  ∃ (i : Nat) (l : Log), logs.get? i = some l ∧ l.Address = a ∧
    factoryAddressMap a = false ∧ isPoolEvent l.event = true ∧
    passesIndexFilter (logs.take i) l = true ∧
    (mapGet (ResolveLogs getReserves Pools (logs.take i)).2 a).isSome = true

/-! ## Concrete inputs of the scenarios -/

/-- An execution contract whose reserve reads all fail. -/
def noReserves : ReserveParams → Option (Nat × Nat) :=
  fun _ => none

/-- Pool R of scenario S3: a v3 pool of two tokens other than WETH. -/
def poolR : Pool :=
  { Token0 := 1, Token1 := 2, Address := 100, Reserve0 := 1000, Reserve1 := 1000,
    Fee := some 3000, PoolType := "v3", Enabled := true }

/-- The batch of scenario S3: Swap at index 5, then Mint at index 12. -/
def batchS3 : List Log :=
  [{ Address := 100, Index := 5, event := .Swap 10 (-20) },
   { Address := 100, Index := 12, event := .Mint 3 4 }]

/-- Pool P of scenario S1, with reserves (100, 200). -/
def poolP : Pool :=
  { Token0 := 1, Token1 := 2, Address := 200, Reserve0 := 100, Reserve1 := 200,
    Fee := none, PoolType := "v2", Enabled := true }

/-- Pool Q of scenario S2: token0 is WETH, reserve0 is exactly 10^19. -/
def poolQ : Pool :=
  { Token0 := WETHAddress, Token1 := 7, Address := 300, Reserve0 := 10000000000000000000,
    Reserve1 := 4000, Fee := some 500, PoolType := "v3", Enabled := true }

/-- Pool 1 of scenario S4: (WETH, T1) with T1 = 11. -/
def pool1S4 : Pool :=
  { Token0 := WETHAddress, Token1 := 11, Address := 1, Reserve0 := 20000000000000000000,
    Reserve1 := 5000, Fee := none, PoolType := "v2", Enabled := true }

/-- Pool 2 of scenario S4: (T1, T2) with T1 = 11 and T2 = 12. -/
def pool2S4 : Pool :=
  { Token0 := 11, Token1 := 12, Address := 2, Reserve0 := 7000, Reserve1 := 8000,
    Fee := some 3000, PoolType := "v3", Enabled := true }

/-- Pool 3 of scenario S4: (WETH, T2) with T2 = 12. -/
def pool3S4 : Pool :=
  { Token0 := WETHAddress, Token1 := 12, Address := 3, Reserve0 := 30000000000000000000,
    Reserve1 := 6000, Fee := none, PoolType := "v2", Enabled := true }

/-- The registry of scenario S4. -/
def registryS4 : PoolMap :=
  [(1, pool1S4), (2, pool2S4), (3, pool3S4)]

/-- A pool (T1, WETH) at address 4 next to pool 1 of scenario S4. -/
def pool4 : Pool :=
  { Token0 := 11, Token1 := WETHAddress, Address := 4, Reserve0 := 9000,
    Reserve1 := 20000000000000000000, Fee := none, PoolType := "v2", Enabled := true }

/-- A registry with the two WETH pools 1 and 4 over the same token T1 = 11. -/
def registryTwoWeth : PoolMap :=
  [(1, pool1S4), (4, pool4)]

/-- A batch that empties pool 4: Sync(0, 0) at index 3. -/
def batchDrain : List Log :=
  [{ Address := 4, Index := 3, event := .Sync 0 0 }]

/-- A first pool for scenario S6: (WETH, T1) with a WETH reserve of 100, so
that probe `i` borrows `i`. -/
def poolS6 : Pool :=
  { Token0 := WETHAddress, Token1 := 11, Address := 1, Reserve0 := 100, Reserve1 := 5000,
    Fee := none, PoolType := "v2", Enabled := true }

/-- The registry of scenario S6. -/
def registryS6 : PoolMap :=
  [(1, poolS6), (2, pool2S4), (3, pool3S4)]

/-- The quotes of scenario S6: the final outputs of probes 1..20 are the amount
`i` plus the profits -1, 0, 3, 7, 5, 2 and then -1 for every later probe. -/
def quotesS6 : List (List Nat) :=
  [[9, 0], [9, 2], [9, 6], [9, 11], [9, 10], [9, 8], [9, 6], [9, 7], [9, 8], [9, 9],
   [9, 10], [9, 11], [9, 12], [9, 13], [9, 14], [9, 15], [9, 16], [9, 17], [9, 18], [9, 19]]

/-- The value of a hex digit, 0 for any other byte. -/
def hexDigit (c : Char) : Nat :=
  if '0' ≤ c ∧ c ≤ '9' then c.toNat - 48
  else if 'a' ≤ c ∧ c ≤ 'f' then c.toNat - 87
  else if 'A' ≤ c ∧ c ≤ 'F' then c.toNat - 55
  else 0

/-- A reader of `0x`-prefixed hex strings, to instantiate `HexToAddress`. -/
def readHex (s : List Char) : common.Address :=
  (s.drop 2).foldl (fun acc c => 16 * acc + hexDigit c) 0

/-- A rejection message naming pool 4. -/
def rejectionPrefix : List Char :=
  "execution reverted: Malicious Pool: ".toList

/-- The 42-character form of address 4. -/
def addressFourHex : List Char :=
  "0x0000000000000000000000000000000000000004".toList

/-- A rejection message of 20 bytes that contains the marker. -/
def shortRejection : List Char :=
  "Malicious Pool: 0x09".toList

/-- The 42-character form of address 9, which the registry of pools 1 and 4 does
not contain. -/
def addressNineHex : List Char :=
  "0x0000000000000000000000000000000000000009".toList

/-- A new pool at address 50 whose two tokens are both 7, as `getV2Pool` builds
it from a PairCreated event with these fields. -/
def poolEqualTokens : Pool :=
  { Token0 := 7, Token1 := 7, Address := 50, Reserve0 := 0, Reserve1 := 0, Fee := none,
    PoolType := "v2", Enabled := true }

/-- A batch for the registry of pools 1 and 4: pool 4 logs Sync(0, 0) at index 3
and then a Swap at index 2, and address 9, which is not a key, logs a Swap. -/
def batchMixed : List Log :=
  [{ Address := 4, Index := 3, event := .Sync 0 0 },
   { Address := 4, Index := 2, event := .Swap 5 5 },
   { Address := 9, Index := 4, event := .Swap 5 5 }]

theorem mapGet_mapSet_self {β : Type} (m : List (common.Address × β)) (k : common.Address)
    (v : β) : mapGet (mapSet m k v) k = some v := by
  induction m with
  | nil => simp [mapSet, mapGet]
  | cons kv rest ih =>
    obtain ⟨k', v'⟩ := kv
    by_cases h : k' = k
    · simp [mapSet, mapGet, h]
    · simp [mapSet, mapGet, h, ih]

theorem mapGet_mapSet_ne {β : Type} (m : List (common.Address × β)) (k k' : common.Address)
    (v : β) (h : k' ≠ k) : mapGet (mapSet m k v) k' = mapGet m k' := by
  induction m with
  | nil => simp [mapSet, mapGet, Ne.symm h]
  | cons kv rest ih =>
    obtain ⟨k₀, v₀⟩ := kv
    by_cases h₀ : k₀ = k
    · subst h₀
      simp [mapSet, mapGet, Ne.symm h]
    · by_cases h₁ : k₀ = k'
      · subst h₁
        simp [mapSet, mapGet, h₀]
      · simp [mapSet, mapGet, h₀, h₁, ih]

/-! ## One loop iteration of ResolveLogs -/

/-- The five event blocks act as one: a recognised event of a registered pool
rewrites that pool, anything else leaves the loop state alone. -/
theorem applyPoolLog_eq (st : ResolveState) (l : Log) :
    applyPoolLog st l =
      match mapGet st.Pools l.Address with
      | none => st
      | some pool =>
        match eventReserves pool l.event with
        | none => st
        | some pool' => storeProcessed st l.Address (disableOnLog pool') := by
  obtain ⟨a, i, ev⟩ := l
  cases hg : mapGet st.Pools a <;> cases ev <;>
    simp [applyPoolLog, swapBlock, mintBlock, burnBlock, collectProtocolBlock, syncBlock,
      ParseSwap, ParseMint, ParseBurn, ParseCollectProtocol, ParseSync, eventReserves, hg,
      storeProcessed]

/-! ## The enable guards only clear the flag -/

theorem disableOnLog_fields (p : Pool) :
    (disableOnLog p).Token0 = p.Token0 ∧ (disableOnLog p).Token1 = p.Token1 ∧
    (disableOnLog p).Address = p.Address ∧ (disableOnLog p).Reserve0 = p.Reserve0 ∧
    (disableOnLog p).Reserve1 = p.Reserve1 ∧ (disableOnLog p).Fee = p.Fee ∧
    (disableOnLog p).PoolType = p.PoolType := by
  unfold disableOnLog
  dsimp only
  split_ifs <;> simp

theorem disableOnRead_fields (p : Pool) :
    (disableOnRead p).Token0 = p.Token0 ∧ (disableOnRead p).Token1 = p.Token1 ∧
    (disableOnRead p).Address = p.Address ∧ (disableOnRead p).Reserve0 = p.Reserve0 ∧
    (disableOnRead p).Reserve1 = p.Reserve1 ∧ (disableOnRead p).Fee = p.Fee ∧
    (disableOnRead p).PoolType = p.PoolType := by
  unfold disableOnRead
  dsimp only
  split_ifs <;> simp

/-- After the guards of a pool log the flag is set iff it was set before and the
reserves pass the three tests. -/
theorem disableOnLog_enabled (p : Pool) :
    (disableOnLog p).Enabled = true ↔
      p.Enabled = true ∧ 0 < p.Reserve0 ∧ 0 < p.Reserve1 ∧
      (p.Token0 = WETHAddress → wethReserveLimit ≤ p.Reserve0) ∧
      (p.Token1 = WETHAddress → wethReserveLimit ≤ p.Reserve1) := by
  unfold disableOnLog
  dsimp only
  split_ifs <;> simp_all
  omega

/-- After the guards of a contract read the flag is set iff it was set before,
no reserve is zero and the WETH sides reach the floor. -/
theorem disableOnRead_enabled (p : Pool) :
    (disableOnRead p).Enabled = true ↔
      p.Enabled = true ∧ p.Reserve0 ≠ 0 ∧ p.Reserve1 ≠ 0 ∧
      (p.Token0 = WETHAddress → wethReserveLimit ≤ p.Reserve0) ∧
      (p.Token1 = WETHAddress → wethReserveLimit ≤ p.Reserve1) := by
  unfold disableOnRead
  dsimp only
  split_ifs <;> simp_all
  omega

/-! ## The index filter of ResolveLogs -/

/-- The event blocks neither read nor write `logMap`. -/
theorem applyPoolLog_congr (st st' : ResolveState) (l : Log)
    (hP : st.Pools = st'.Pools) (hQ : st.processedPools = st'.processedPools) :
    (applyPoolLog st l).Pools = (applyPoolLog st' l).Pools ∧
    (applyPoolLog st l).processedPools = (applyPoolLog st' l).processedPools := by
  rw [applyPoolLog_eq, applyPoolLog_eq, ← hP]
  cases h₁ : mapGet st.Pools l.Address with
  | none => exact ⟨hP, hQ⟩
  | some pool =>
    dsimp only
    cases h₂ : eventReserves pool l.event with
    | none => exact ⟨hP, hQ⟩
    | some pool' => simp [storeProcessed, hP, hQ]

theorem passesIndexFilter_append (earlier : List Log) (x l : Log) :
    passesIndexFilter (earlier ++ [x]) l = true ↔
      passesIndexFilter earlier l = true ∧ (x.Address = l.Address → x.Index < l.Index) := by
  simp only [passesIndexFilter, List.all_append, List.all_cons, List.all_nil, Bool.and_true,
    Bool.and_eq_true, decide_eq_true_eq]

/-- The loop of `ResolveLogs` and the unfiltered application of the retained
logs agree on the registry and on `processedPools`, provided `logMap` answers
the index filter of the logs seen so far. -/
theorem resolveFrom_eq_applied (getReserves : ReserveParams → Option (Nat × Nat))
    (logs : List Log) : ∀ (earlier : List Log) (st st' : ResolveState),
    st.Pools = st'.Pools → st.processedPools = st'.processedPools →
    (∀ l : Log, factoryAddressMap l.Address = false →
      ((∀ old, mapGet st.logMap l.Address = some old → old < l.Index) ↔
        passesIndexFilter earlier l = true)) →
    (resolveFrom getReserves st logs).Pools =
        ((appliedLogsFrom earlier logs).foldl (applyLog getReserves) st').Pools ∧
    (resolveFrom getReserves st logs).processedPools =
        ((appliedLogsFrom earlier logs).foldl (applyLog getReserves) st').processedPools := by
  induction logs with
  | nil => intro earlier st st' hP hQ _; exact ⟨hP, hQ⟩
  | cons x rest ih =>
    intro earlier st st' hP hQ hInv
    simp only [resolveFrom, List.foldl_cons] at ih ⊢
    by_cases hf : factoryAddressMap x.Address = true
    · -- a factory log: always applied, `logMap` untouched
      have hstep : resolveLog getReserves st x =
          { st with Pools := applyFactoryLog getReserves st.Pools x } := by
        simp [resolveLog, hf]
      have happ : appliedLogsFrom earlier (x :: rest) = x :: appliedLogsFrom (earlier ++ [x]) rest := by
        simp [appliedLogsFrom, hf]
      rw [hstep, happ, List.foldl_cons]
      apply ih
      · simp [applyLog, hf, hP]
      · simp [applyLog, hf, hQ]
      · intro l hl
        rw [passesIndexFilter_append]
        have hne : x.Address ≠ l.Address := by
          intro h; rw [h] at hf; rw [hf] at hl; exact Bool.noConfusion hl
        constructor
        · intro h; exact ⟨(hInv l hl).1 h, fun h' => absurd h' hne⟩
        · intro h; exact (hInv l hl).2 h.1
    · have hf' : factoryAddressMap x.Address = false := by simpa using hf
      by_cases hpass : passesIndexFilter earlier x = true
      · -- the log passes the filter
        have hlt := (hInv x hf').2 hpass
        have hstep : resolveLog getReserves st x =
            applyPoolLog { st with logMap := mapSet st.logMap x.Address x.Index } x := by
          unfold resolveLog
          rw [hf']
          cases hg : mapGet st.logMap x.Address with
          | none => simp
          | some old => simp [hlt old hg]
        have happ : appliedLogsFrom earlier (x :: rest) =
            x :: appliedLogsFrom (earlier ++ [x]) rest := by
          simp [appliedLogsFrom, hpass]
        rw [hstep, happ, List.foldl_cons]
        have hc := applyPoolLog_congr { st with logMap := mapSet st.logMap x.Address x.Index } st' x hP hQ
        have hlm : (applyPoolLog { st with logMap := mapSet st.logMap x.Address x.Index } x).logMap
            = mapSet st.logMap x.Address x.Index := by
          rw [applyPoolLog_eq]
          cases h₁ : mapGet st.Pools x.Address with
          | none => rfl
          | some pool =>
            dsimp only
            cases h₂ : eventReserves pool x.event with
            | none => rfl
            | some pool' => rfl
        apply ih
        · simpa [applyLog, hf'] using hc.1
        · simpa [applyLog, hf'] using hc.2
        · intro l hl
          rw [passesIndexFilter_append, hlm]
          by_cases ha : l.Address = x.Address
          · rw [ha, mapGet_mapSet_self]
            constructor
            · intro h
              have hxl : x.Index < l.Index := h _ rfl
              refine ⟨?_, fun _ => hxl⟩
              have hx : ∀ e ∈ earlier, e.Address = x.Address → e.Index < x.Index := by
                simpa only [passesIndexFilter, List.all_eq_true, decide_eq_true_eq] using hpass
              simp only [passesIndexFilter, List.all_eq_true, decide_eq_true_eq]
              intro e he hea
              exact lt_trans (hx e he (hea.trans ha)) hxl
            · intro h old hold
              cases hold
              exact h.2 rfl
          · rw [mapGet_mapSet_ne _ _ _ _ ha]
            constructor
            · intro h; exact ⟨(hInv l hl).1 h, fun h' => absurd h'.symm ha⟩
            · intro h; exact (hInv l hl).2 h.1
      · -- the log is skipped
        have hnot : ¬ ∀ old, mapGet st.logMap x.Address = some old → old < x.Index :=
          fun h => hpass ((hInv x hf').1 h)
        obtain ⟨old, hold, hle⟩ : ∃ old, mapGet st.logMap x.Address = some old ∧ ¬ old < x.Index := by
          by_contra hcon
          apply hnot
          intro old hold
          by_contra hlt
          exact hcon ⟨old, hold, hlt⟩
        have hstep : resolveLog getReserves st x = st := by
          unfold resolveLog
          rw [hf']
          simp [hold, hle]
        have happ : appliedLogsFrom earlier (x :: rest) = appliedLogsFrom (earlier ++ [x]) rest := by
          simp [appliedLogsFrom, hf', hpass]
        rw [hstep, happ]
        apply ih _ _ _ hP hQ
        intro l hl
        rw [passesIndexFilter_append]
        constructor
        · intro h
          refine ⟨(hInv l hl).1 h, fun ha => ?_⟩
          rw [ha] at hold
          have := h old hold
          omega
        · intro h; exact (hInv l hl).2 h.1

/-! ## C1: log coalescing -/

/-- C1 (counterexample): in scenario S3 pool R, with reserves (1000, 1000), emits
Swap(10, -20) at index 5 and then Mint(3, 4) at index 12.  `ResolveLogs` applies
both logs: the reserves become (1013, 984), not the (1003, 1004) that applying
the Mint alone would give. -/
theorem C1_swap_then_mint_both_applied :
    factoryAddressMap poolR.Address = false ∧
    mapGet (ResolveLogs noReserves [(100, poolR)] batchS3).2 100 =
      some { poolR with Reserve0 := 1013, Reserve1 := 984 } ∧
    ¬ ∃ p, mapGet (ResolveLogs noReserves [(100, poolR)] batchS3).2 100 = some p ∧
        p.Reserve0 = poolR.Reserve0 + 3 ∧ p.Reserve1 = poolR.Reserve1 + 4 := by
  refine ⟨by decide, by decide, ?_⟩
  rintro ⟨p, hp, h0, -⟩
  have h : mapGet (ResolveLogs noReserves [(100, poolR)] batchS3).2 100 =
      some { poolR with Reserve0 := 1013, Reserve1 := 984 } := by decide
  rw [h] at hp
  cases hp
  revert h0
  decide

/-- C1 (amended): `ResolveLogs` applies to the registry, in stream order, every
factory log and exactly those pool logs whose index is strictly greater than
the index of every earlier log of the same address in the batch (`appliedLogs`);
all other logs are skipped.  So for a registered pool at a non-factory address,
Swap at index 5 followed by Mint at index 12 applies both (reserves are the old
ones plus the Swap amounts plus the Mint amounts), while Mint at index 12
followed by Swap at index 5 applies the Mint only. -/
theorem C1_resolveLogs_applies_index_filtered_logs
    (getReserves : ReserveParams → Option (Nat × Nat)) (Pools : PoolMap) (logs : List Log) :
    ResolveLogs getReserves Pools logs =
      ((((appliedLogs logs).foldl (applyLog getReserves) (resolveInit Pools)).processedPools).map
          Prod.snd,
        ((appliedLogs logs).foldl (applyLog getReserves) (resolveInit Pools)).Pools) ∧
    (∀ (a : common.Address) (p : Pool) (s0 s1 : Int) (m0 m1 : Nat),
      factoryAddressMap a = false → mapGet Pools a = some p →
      (∃ p', mapGet (ResolveLogs getReserves Pools
          [{ Address := a, Index := 5, event := .Swap s0 s1 },
           { Address := a, Index := 12, event := .Mint m0 m1 }]).2 a = some p' ∧
        p'.Reserve0 = p.Reserve0 + s0 + m0 ∧ p'.Reserve1 = p.Reserve1 + s1 + m1) ∧
      (∃ p', mapGet (ResolveLogs getReserves Pools
          [{ Address := a, Index := 12, event := .Mint m0 m1 },
           { Address := a, Index := 5, event := .Swap s0 s1 }]).2 a = some p' ∧
        p'.Reserve0 = p.Reserve0 + m0 ∧ p'.Reserve1 = p.Reserve1 + m1)) := by
  have hgen : ∀ ls : List Log, ResolveLogs getReserves Pools ls =
      (((appliedLogs ls).foldl (applyLog getReserves) (resolveInit Pools)).processedPools.map
          Prod.snd,
        ((appliedLogs ls).foldl (applyLog getReserves) (resolveInit Pools)).Pools) := by
    intro ls
    have h := resolveFrom_eq_applied getReserves ls [] (resolveInit Pools) (resolveInit Pools)
      rfl rfl (by intro l _; simp [resolveInit, mapGet, passesIndexFilter])
    simp only [ResolveLogs, resolveAll, appliedLogs]
    rw [h.1, h.2]
  refine ⟨hgen logs, fun a p s0 s1 m0 m1 ha hp => ⟨?_, ?_⟩⟩
  · rw [hgen]
    simp [appliedLogs, appliedLogsFrom, passesIndexFilter, ha, applyLog, applyPoolLog_eq,
      resolveInit, hp, eventReserves, storeProcessed, mapGet_mapSet_self, disableOnLog_fields]
  · rw [hgen]
    simp [appliedLogs, appliedLogsFrom, passesIndexFilter, ha, applyLog, applyPoolLog_eq,
      resolveInit, hp, eventReserves, storeProcessed, mapGet_mapSet_self, disableOnLog_fields]

/-- C1 (instance): the amended statement at pool R of scenario S3; the retained
logs of the batch are both of its logs. -/
theorem C1_resolveLogs_applies_index_filtered_logs_witness :
    factoryAddressMap 100 = false ∧ mapGet [(100, poolR)] 100 = some poolR ∧
    appliedLogs batchS3 = batchS3 ∧
    (∃ p', mapGet (ResolveLogs noReserves [(100, poolR)]
        [{ Address := 100, Index := 5, event := .Swap 10 (-20) },
         { Address := 100, Index := 12, event := .Mint 3 4 }]).2 100 = some p' ∧
      p'.Reserve0 = poolR.Reserve0 + 10 + (3 : Nat) ∧
      p'.Reserve1 = poolR.Reserve1 + (-20) + (4 : Nat)) :=
  ⟨by decide, by decide, by decide,
    ((C1_resolveLogs_applies_index_filtered_logs noReserves [(100, poolR)] batchS3).2
      100 poolR 10 (-20) 3 4 (by decide) (by decide)).1⟩

/-! ## C5, C6: what one applied log writes -/

/-- A pool log that passes the index filter and carries a recognised event of a
registered pool overwrites the registry entry of its address. -/
theorem resolveLog_applied (getReserves : ReserveParams → Option (Nat × Nat))
    (st : ResolveState) (l : Log) (p p' : Pool)
    (ha : factoryAddressMap l.Address = false)
    (hpass : ∀ old, mapGet st.logMap l.Address = some old → old < l.Index)
    (hp : mapGet st.Pools l.Address = some p) (he : eventReserves p l.event = some p') :
    (resolveLog getReserves st l).Pools = mapSet st.Pools l.Address (disableOnLog p') := by
  have hstep : resolveLog getReserves st l =
      applyPoolLog { st with logMap := mapSet st.logMap l.Address l.Index } l := by
    unfold resolveLog
    rw [ha]
    cases hg : mapGet st.logMap l.Address with
    | none => simp
    | some old => simp [hpass old hg]
  rw [hstep, applyPoolLog_eq]
  simp [hp, he, storeProcessed]

/-- The first log of a batch always passes the index filter. -/
theorem resolveLogs_single (getReserves : ReserveParams → Option (Nat × Nat))
    (Pools : PoolMap) (l : Log) (p p' : Pool)
    (ha : factoryAddressMap l.Address = false)
    (hp : mapGet Pools l.Address = some p) (he : eventReserves p l.event = some p') :
    (ResolveLogs getReserves Pools [l]).2 = mapSet Pools l.Address (disableOnLog p') := by
  have h := resolveLog_applied getReserves (resolveInit Pools) l p p' ha
    (by intro old hold; simp [resolveInit, mapGet] at hold) hp he
  simpa [ResolveLogs, resolveAll, resolveFrom] using h

/-- C5: a Sync log replaces the reserves.  For a pool registered at a non-factory
address with any reserves, one applied `Sync(s0, s1)` log (in any loop state of
`ResolveLogs` where the log passes the index filter, in particular as the only
log of a batch) leaves the pool with reserves exactly `(s0, s1)`; tokens,
address, fee and type are kept. -/
theorem C5_sync_replaces_reserves (getReserves : ReserveParams → Option (Nat × Nat))
    (st : ResolveState) (a : common.Address) (i : Nat) (p : Pool) (s0 s1 : Nat)
    (ha : factoryAddressMap a = false)
    (hpass : ∀ old, mapGet st.logMap a = some old → old < i)
    (hp : mapGet st.Pools a = some p) :
    (∃ p', mapGet (resolveLog getReserves st
          { Address := a, Index := i, event := .Sync s0 s1 }).Pools a = some p' ∧
        p'.Reserve0 = (s0 : Int) ∧ p'.Reserve1 = (s1 : Int) ∧
        p'.Token0 = p.Token0 ∧ p'.Token1 = p.Token1 ∧ p'.Address = p.Address ∧
        p'.Fee = p.Fee ∧ p'.PoolType = p.PoolType) ∧
    (∃ p', mapGet (ResolveLogs getReserves st.Pools
          [{ Address := a, Index := i, event := .Sync s0 s1 }]).2 a = some p' ∧
        p'.Reserve0 = (s0 : Int) ∧ p'.Reserve1 = (s1 : Int) ∧
        p'.Token0 = p.Token0 ∧ p'.Token1 = p.Token1 ∧ p'.Address = p.Address ∧
        p'.Fee = p.Fee ∧ p'.PoolType = p.PoolType) := by
  constructor
  · rw [resolveLog_applied getReserves st ⟨a, i, .Sync s0 s1⟩ p _ ha hpass hp rfl,
      mapGet_mapSet_self]
    exact ⟨_, rfl, by simp [disableOnLog_fields]⟩
  · rw [resolveLogs_single getReserves st.Pools ⟨a, i, .Sync s0 s1⟩ p _ ha hp rfl,
      mapGet_mapSet_self]
    exact ⟨_, rfl, by simp [disableOnLog_fields]⟩

/-- C5 (witness): scenario S1, reserves (100, 200) followed by Sync(500, 700)
give (500, 700). -/
theorem C5_sync_replaces_reserves_witness :
    factoryAddressMap 200 = false ∧ mapGet [(200, poolP)] 200 = some poolP ∧
    ∃ p', mapGet (ResolveLogs noReserves [(200, poolP)]
          [{ Address := 200, Index := 7, event := .Sync 500 700 }]).2 200 = some p' ∧
        p'.Reserve0 = 500 ∧ p'.Reserve1 = 700 ∧
        p'.Token0 = poolP.Token0 ∧ p'.Token1 = poolP.Token1 ∧ p'.Address = poolP.Address ∧
        p'.Fee = poolP.Fee ∧ p'.PoolType = poolP.PoolType :=
  ⟨by decide, by decide,
    (C5_sync_replaces_reserves noReserves (resolveInit [(200, poolP)]) 200 7 poolP 500 700
      (by decide) (by intro old hold; cases hold) (by decide)).2⟩

/-- C6: direction of the deltas.  For a pool registered at a non-factory address
with reserves `(r0, r1)`, one applied log with amounts `(a0, a1)` (in any loop
state of `ResolveLogs` where the log passes the index filter, in particular as
the only log of a batch) leaves reserves `(r0 + a0, r1 + a1)` for a Swap (signed
amounts) and for a Mint, and `(r0 - a0, r1 - a1)` for a Burn and for a
CollectProtocol. -/
theorem C6_delta_direction (getReserves : ReserveParams → Option (Nat × Nat))
    (st : ResolveState) (a : common.Address) (i : Nat) (p : Pool) (s0 s1 : Int) (a0 a1 : Nat)
    (ha : factoryAddressMap a = false)
    (hpass : ∀ old, mapGet st.logMap a = some old → old < i)
    (hp : mapGet st.Pools a = some p) :
    ((∃ p', mapGet (resolveLog getReserves st
          { Address := a, Index := i, event := .Swap s0 s1 }).Pools a = some p' ∧
        p'.Reserve0 = p.Reserve0 + s0 ∧ p'.Reserve1 = p.Reserve1 + s1) ∧
     (∃ p', mapGet (resolveLog getReserves st
          { Address := a, Index := i, event := .Mint a0 a1 }).Pools a = some p' ∧
        p'.Reserve0 = p.Reserve0 + (a0 : Int) ∧ p'.Reserve1 = p.Reserve1 + (a1 : Int)) ∧
     (∃ p', mapGet (resolveLog getReserves st
          { Address := a, Index := i, event := .Burn a0 a1 }).Pools a = some p' ∧
        p'.Reserve0 = p.Reserve0 - (a0 : Int) ∧ p'.Reserve1 = p.Reserve1 - (a1 : Int)) ∧
     (∃ p', mapGet (resolveLog getReserves st
          { Address := a, Index := i, event := .CollectProtocol a0 a1 }).Pools a = some p' ∧
        p'.Reserve0 = p.Reserve0 - (a0 : Int) ∧ p'.Reserve1 = p.Reserve1 - (a1 : Int))) ∧
    ((∃ p', mapGet (ResolveLogs getReserves st.Pools
          [{ Address := a, Index := i, event := .Swap s0 s1 }]).2 a = some p' ∧
        p'.Reserve0 = p.Reserve0 + s0 ∧ p'.Reserve1 = p.Reserve1 + s1) ∧
     (∃ p', mapGet (ResolveLogs getReserves st.Pools
          [{ Address := a, Index := i, event := .Mint a0 a1 }]).2 a = some p' ∧
        p'.Reserve0 = p.Reserve0 + (a0 : Int) ∧ p'.Reserve1 = p.Reserve1 + (a1 : Int)) ∧
     (∃ p', mapGet (ResolveLogs getReserves st.Pools
          [{ Address := a, Index := i, event := .Burn a0 a1 }]).2 a = some p' ∧
        p'.Reserve0 = p.Reserve0 - (a0 : Int) ∧ p'.Reserve1 = p.Reserve1 - (a1 : Int)) ∧
     (∃ p', mapGet (ResolveLogs getReserves st.Pools
          [{ Address := a, Index := i, event := .CollectProtocol a0 a1 }]).2 a = some p' ∧
        p'.Reserve0 = p.Reserve0 - (a0 : Int) ∧ p'.Reserve1 = p.Reserve1 - (a1 : Int))) := by
  refine ⟨⟨?_, ?_, ?_, ?_⟩, ⟨?_, ?_, ?_, ?_⟩⟩
  · rw [resolveLog_applied getReserves st ⟨a, i, .Swap s0 s1⟩ p _ ha hpass hp rfl,
      mapGet_mapSet_self]
    exact ⟨_, rfl, by simp [disableOnLog_fields]⟩
  · rw [resolveLog_applied getReserves st ⟨a, i, .Mint a0 a1⟩ p _ ha hpass hp rfl,
      mapGet_mapSet_self]
    exact ⟨_, rfl, by simp [disableOnLog_fields]⟩
  · rw [resolveLog_applied getReserves st ⟨a, i, .Burn a0 a1⟩ p _ ha hpass hp rfl,
      mapGet_mapSet_self]
    exact ⟨_, rfl, by simp [disableOnLog_fields]⟩
  · rw [resolveLog_applied getReserves st ⟨a, i, .CollectProtocol a0 a1⟩ p _ ha hpass hp rfl,
      mapGet_mapSet_self]
    exact ⟨_, rfl, by simp [disableOnLog_fields]⟩
  · rw [resolveLogs_single getReserves st.Pools ⟨a, i, .Swap s0 s1⟩ p _ ha hp rfl,
      mapGet_mapSet_self]
    exact ⟨_, rfl, by simp [disableOnLog_fields]⟩
  · rw [resolveLogs_single getReserves st.Pools ⟨a, i, .Mint a0 a1⟩ p _ ha hp rfl,
      mapGet_mapSet_self]
    exact ⟨_, rfl, by simp [disableOnLog_fields]⟩
  · rw [resolveLogs_single getReserves st.Pools ⟨a, i, .Burn a0 a1⟩ p _ ha hp rfl,
      mapGet_mapSet_self]
    exact ⟨_, rfl, by simp [disableOnLog_fields]⟩
  · rw [resolveLogs_single getReserves st.Pools ⟨a, i, .CollectProtocol a0 a1⟩ p _ ha hp rfl,
      mapGet_mapSet_self]
    exact ⟨_, rfl, by simp [disableOnLog_fields]⟩

/-- C6 (witness): pool P with reserves (100, 200): Swap(-30, 45) gives (70, 245),
Mint(5, 6) gives (105, 206), Burn(5, 6) gives (95, 194), and so does
CollectProtocol(5, 6). -/
theorem C6_delta_direction_witness :
    factoryAddressMap 200 = false ∧ mapGet [(200, poolP)] 200 = some poolP ∧
    ((∃ p', mapGet (ResolveLogs noReserves [(200, poolP)]
          [{ Address := 200, Index := 3, event := .Swap (-30) 45 }]).2 200 = some p' ∧
        p'.Reserve0 = 100 + (-30) ∧ p'.Reserve1 = 200 + 45) ∧
     (∃ p', mapGet (ResolveLogs noReserves [(200, poolP)]
          [{ Address := 200, Index := 3, event := .Mint 5 6 }]).2 200 = some p' ∧
        p'.Reserve0 = 100 + (5 : Nat) ∧ p'.Reserve1 = 200 + (6 : Nat)) ∧
     (∃ p', mapGet (ResolveLogs noReserves [(200, poolP)]
          [{ Address := 200, Index := 3, event := .Burn 5 6 }]).2 200 = some p' ∧
        p'.Reserve0 = 100 - (5 : Nat) ∧ p'.Reserve1 = 200 - (6 : Nat)) ∧
     (∃ p', mapGet (ResolveLogs noReserves [(200, poolP)]
          [{ Address := 200, Index := 3, event := .CollectProtocol 5 6 }]).2 200 = some p' ∧
        p'.Reserve0 = 100 - (5 : Nat) ∧ p'.Reserve1 = 200 - (6 : Nat))) :=
  ⟨by decide, by decide,
    (C6_delta_direction noReserves (resolveInit [(200, poolP)]) 200 3 poolP (-30) 45 5 6
      (by decide) (by intro old hold; cases hold) (by decide)).2⟩

/-! ## C2: the enable flag after a reserve write -/

theorem disableOnLog_enabled_iff (q : Pool) :
    (disableOnLog q).Enabled = true ↔ q.Enabled = true ∧ enablePredicate (disableOnLog q) := by
  obtain ⟨h0, h1, _, h3, h4, _, _⟩ := disableOnLog_fields q
  rw [disableOnLog_enabled]
  simp only [enablePredicate, h0, h1, h3, h4]

/-- For reserves the contract can return (unsigned), "not zero" is "positive". -/
theorem disableOnRead_enabled_iff (q : Pool) (h0 : 0 ≤ q.Reserve0) (h1 : 0 ≤ q.Reserve1) :
    (disableOnRead q).Enabled = true ↔ q.Enabled = true ∧ enablePredicate (disableOnRead q) := by
  obtain ⟨e0, e1, _, e3, e4, _, _⟩ := disableOnRead_fields q
  rw [disableOnRead_enabled]
  simp only [enablePredicate, e0, e1, e3, e4]
  constructor
  · rintro ⟨h, n0, n1, w0, w1⟩
    exact ⟨h, lt_of_le_of_ne h0 (Ne.symm n0), lt_of_le_of_ne h1 (Ne.symm n1), w0, w1⟩
  · rintro ⟨h, p0, p1, w0, w1⟩
    exact ⟨h, ne_of_gt p0, ne_of_gt p1, w0, w1⟩

theorem writesOnly_refl (Q : Pool → Prop) (m : PoolMap) : writesOnly Q m m :=
  fun _ _ h => Or.inl h

theorem writesOnly_trans (Q : Pool → Prop) (m₁ m₂ m₃ : PoolMap)
    (h₁ : writesOnly Q m₁ m₂) (h₂ : writesOnly Q m₂ m₃) : writesOnly Q m₁ m₃ := by
  intro a p' h
  rcases h₂ a p' h with h' | h'
  · exact h₁ a p' h'
  · exact Or.inr h'

theorem writesOnly_mapSet (Q : Pool → Prop) (m : PoolMap) (k : common.Address) (v : Pool)
    (hv : Q v) : writesOnly Q m (mapSet m k v) := by
  intro a p' h
  by_cases hk : a = k
  · subst hk
    rw [mapGet_mapSet_self] at h
    cases h
    exact Or.inr hv
  · rw [mapGet_mapSet_ne _ _ _ _ hk] at h
    exact Or.inl h

/-- The factory branch leaves the registry as it is or adds one entry, read from
the contract, at an address that had none. -/
theorem applyFactoryLog_cases (getReserves : ReserveParams → Option (Nat × Nat))
    (Pools : PoolMap) (l : Log) :
    applyFactoryLog getReserves Pools l = Pools ∨
    ∃ (k : common.Address) (q : Pool) (r0 r1 : Nat), mapGet Pools k = none ∧
      applyFactoryLog getReserves Pools l =
        mapSet Pools k (disableOnRead { q with Reserve0 := (r0 : Int), Reserve1 := (r1 : Int) }) := by
  obtain ⟨a, i, ev⟩ := l
  cases ev with
  | PairCreated t0 t1 pair =>
    simp only [applyFactoryLog, ParsePoolCreated, pairCreatedBlock, ParsePairCreated]
    cases hr : getReserves { Token0 := t0, Token1 := t1, Pool := pair } with
    | none => exact Or.inl rfl
    | some r =>
      obtain ⟨r0, r1⟩ := r
      cases hg : mapGet Pools pair with
      | some _ => exact Or.inl rfl
      | none =>
        exact Or.inr ⟨pair,
          { Address := pair, Token0 := t0, Token1 := t1, Reserve0 := 0, Reserve1 := 0,
            Fee := none, PoolType := "v2", Enabled := true }, r0, r1, hg, rfl⟩
  | PoolCreated t0 t1 fee pool =>
    simp only [applyFactoryLog, ParsePoolCreated, pairCreatedBlock, ParsePairCreated]
    cases hr : getReserves { Token0 := t0, Token1 := t1, Pool := pool } with
    | none => exact Or.inl rfl
    | some r =>
      obtain ⟨r0, r1⟩ := r
      cases hg : mapGet Pools pool with
      | some _ => exact Or.inl rfl
      | none =>
        exact Or.inr ⟨pool,
          { Address := pool, Token0 := t0, Token1 := t1, Reserve0 := 0, Reserve1 := 0,
            Fee := some (fee : Int), PoolType := "v3", Enabled := true }, r0, r1, hg, rfl⟩
  | _ => exact Or.inl rfl

/-- One loop iteration of `ResolveLogs` does one of three things to the registry
and to `processedPools`: nothing; the write of a pool event, recorded in
`processedPools` unless the address is already there; the insertion of a created
pool at a fresh address. -/
theorem resolveLog_cases (getReserves : ReserveParams → Option (Nat × Nat))
    (st : ResolveState) (l : Log) :
    ((resolveLog getReserves st l).Pools = st.Pools ∧
      (resolveLog getReserves st l).processedPools = st.processedPools) ∨
    (∃ p q, mapGet st.Pools l.Address = some p ∧ eventReserves p l.event = some q ∧
      (resolveLog getReserves st l).Pools = mapSet st.Pools l.Address (disableOnLog q) ∧
      (resolveLog getReserves st l).processedPools =
        match mapGet st.processedPools l.Address with
        | some _ => st.processedPools
        | none => mapSet st.processedPools l.Address (disableOnLog q)) ∨
    (∃ (k : common.Address) (q : Pool) (r0 r1 : Nat), mapGet st.Pools k = none ∧
      (resolveLog getReserves st l).Pools =
        mapSet st.Pools k (disableOnRead { q with Reserve0 := (r0 : Int), Reserve1 := (r1 : Int) }) ∧
      (resolveLog getReserves st l).processedPools = st.processedPools) := by
  have hpool : ∀ m, ((applyPoolLog { st with logMap := m } l).Pools = st.Pools ∧
        (applyPoolLog { st with logMap := m } l).processedPools = st.processedPools) ∨
      (∃ p q, mapGet st.Pools l.Address = some p ∧ eventReserves p l.event = some q ∧
        (applyPoolLog { st with logMap := m } l).Pools =
          mapSet st.Pools l.Address (disableOnLog q) ∧
        (applyPoolLog { st with logMap := m } l).processedPools =
          match mapGet st.processedPools l.Address with
          | some _ => st.processedPools
          | none => mapSet st.processedPools l.Address (disableOnLog q)) := by
    intro m
    rw [applyPoolLog_eq]
    cases hg : mapGet st.Pools l.Address with
    | none => exact Or.inl ⟨rfl, rfl⟩
    | some p =>
      dsimp only
      cases he : eventReserves p l.event with
      | none => exact Or.inl ⟨rfl, rfl⟩
      | some q => exact Or.inr ⟨p, q, rfl, he, rfl, rfl⟩
  unfold resolveLog
  by_cases hf : factoryAddressMap l.Address = true
  · rw [if_pos hf]
    rcases applyFactoryLog_cases getReserves st.Pools l with h | ⟨k, q, r0, r1, hk, h⟩
    · exact Or.inl ⟨h, rfl⟩
    · exact Or.inr (Or.inr ⟨k, q, r0, r1, hk, h, rfl⟩)
  · rw [if_neg hf]
    cases hg : mapGet st.logMap l.Address with
    | none =>
      rcases hpool (mapSet st.logMap l.Address l.Index) with h | h
      · exact Or.inl h
      · exact Or.inr (Or.inl h)
    | some old =>
      dsimp only
      by_cases hi : l.Index > old
      · rw [if_pos hi]
        rcases hpool (mapSet st.logMap l.Address l.Index) with h | h
        · exact Or.inl h
        · exact Or.inr (Or.inl h)
      · rw [if_neg hi]
        exact Or.inl ⟨rfl, rfl⟩

/-- Over a whole batch: every registry entry is an old entry or satisfies `Q`,
and every address recorded in `processedPools` holds a pool satisfying `Q`,
whenever the two kinds of write satisfy `Q`. -/
theorem resolveFrom_writes (Q : Pool → Prop)
    (hlog : ∀ q, Q (disableOnLog q))
    (hread : ∀ (q : Pool) (r0 r1 : Nat),
      Q (disableOnRead { q with Reserve0 := (r0 : Int), Reserve1 := (r1 : Int) }))
    (getReserves : ReserveParams → Option (Nat × Nat)) (logs : List Log) :
    ∀ st : ResolveState,
      (∀ a, (mapGet st.processedPools a).isSome = true →
        ∃ p', mapGet st.Pools a = some p' ∧ Q p') →
      writesOnly Q st.Pools (resolveFrom getReserves st logs).Pools ∧
      ∀ a, (mapGet (resolveFrom getReserves st logs).processedPools a).isSome = true →
        ∃ p', mapGet (resolveFrom getReserves st logs).Pools a = some p' ∧ Q p' := by
  induction logs with
  | nil => intro st h; exact ⟨writesOnly_refl Q _, h⟩
  | cons l rest ih =>
    intro st hst
    simp only [resolveFrom, List.foldl_cons] at ih ⊢
    have hstep : writesOnly Q st.Pools (resolveLog getReserves st l).Pools ∧
        ∀ a, (mapGet (resolveLog getReserves st l).processedPools a).isSome = true →
          ∃ p', mapGet (resolveLog getReserves st l).Pools a = some p' ∧ Q p' := by
      rcases resolveLog_cases getReserves st l with
        ⟨hP, hQ⟩ | ⟨p, q, _, _, hP, hQ⟩ | ⟨k, q, r0, r1, hk, hP, hQ⟩
      · rw [hP, hQ]; exact ⟨writesOnly_refl Q _, hst⟩
      · rw [hP, hQ]
        refine ⟨writesOnly_mapSet Q _ _ _ (hlog q), ?_⟩
        intro a ha
        by_cases hak : a = l.Address
        · subst hak
          exact ⟨_, mapGet_mapSet_self _ _ _, hlog q⟩
        · rw [mapGet_mapSet_ne _ _ _ _ hak]
          apply hst
          cases hm : mapGet st.processedPools l.Address with
          | some v => rw [hm] at ha; exact ha
          | none =>
            rw [hm] at ha
            dsimp only at ha
            rwa [mapGet_mapSet_ne _ _ _ _ hak] at ha
      · rw [hP, hQ]
        refine ⟨writesOnly_mapSet Q _ _ _ (hread q r0 r1), ?_⟩
        intro a ha
        obtain ⟨p', hp', hQ'⟩ := hst a ha
        have hak : a ≠ k := by
          intro h; rw [h, hk] at hp'; cases hp'
        exact ⟨p', by rw [mapGet_mapSet_ne _ _ _ _ hak]; exact hp', hQ'⟩
    obtain ⟨h₁, h₂⟩ := ih (resolveLog getReserves st l) hstep.2
    exact ⟨writesOnly_trans Q _ _ _ hstep.1 h₁, h₂⟩

theorem setOldBatch_writes (Q : Pool → Prop)
    (hread : ∀ (q : Pool) (r0 r1 : Nat),
      Q (disableOnRead { q with Reserve0 := (r0 : Int), Reserve1 := (r1 : Int) }))
    (res : List (Nat × Nat)) (params : List ReserveParams) :
    ∀ (Pools : PoolMap) (j : Nat), writesOnly Q Pools (setOldBatch res Pools params j).1 := by
  induction params with
  | nil => intro Pools j; exact writesOnly_refl Q _
  | cons oldParam rest ih =>
    intro Pools j
    unfold setOldBatch
    cases hr : res.get? j with
    | none => exact writesOnly_refl Q _
    | some reserves =>
      dsimp only
      refine writesOnly_trans Q _ _ _ ?_ (ih _ _)
      exact writesOnly_mapSet Q _ _ _ (hread _ reserves.1 reserves.2)

theorem setOldReserves_writes (Q : Pool → Prop)
    (hread : ∀ (q : Pool) (r0 r1 : Nat),
      Q (disableOnRead { q with Reserve0 := (r0 : Int), Reserve1 := (r1 : Int) }))
    (multiGetReserves : List ReserveParams → Option (List (Nat × Nat)))
    (slices : List (List ReserveParams)) :
    ∀ Pools : PoolMap, writesOnly Q Pools (setOldReserves multiGetReserves Pools slices).1 := by
  induction slices with
  | nil => intro Pools; exact writesOnly_refl Q _
  | cons paramSlice rest ih =>
    intro Pools
    unfold setOldReserves
    cases hm : multiGetReserves paramSlice with
    | none => exact writesOnly_refl Q _
    | some res =>
      dsimp only
      have hb := setOldBatch_writes Q hread res paramSlice Pools 0
      rcases hs : setOldBatch res Pools paramSlice 0 with ⟨Pools', flag⟩
      rw [hs] at hb
      cases flag with
      | false => exact hb
      | true => exact writesOnly_trans Q _ _ _ hb (ih _)

theorem setNewPools_writes (Q : Pool → Prop)
    (hread : ∀ (q : Pool) (r0 r1 : Nat),
      Q (disableOnRead { q with Reserve0 := (r0 : Int), Reserve1 := (r1 : Int) }))
    (getReserves : ReserveParams → Option (Nat × Nat)) (newPools : List Pool) :
    ∀ Pools : PoolMap, writesOnly Q Pools (newPools.foldl (setNewPool getReserves) Pools) := by
  induction newPools with
  | nil => intro Pools; exact writesOnly_refl Q _
  | cons pool rest ih =>
    intro Pools
    rw [List.foldl_cons]
    refine writesOnly_trans Q _ _ _ ?_ (ih _)
    unfold setNewPool
    cases hr : getReserves (reserveParamsOf pool) with
    | none => exact writesOnly_refl Q _
    | some r => exact writesOnly_mapSet Q _ _ _ (hread _ r.1 r.2)

/-- Over a whole call of `SetReserves`, however it ends: every registry entry is
an old entry or satisfies `Q`, whenever a contract read satisfies `Q`. -/
theorem SetReserves_writes (Q : Pool → Prop)
    (hread : ∀ (q : Pool) (r0 r1 : Nat),
      Q (disableOnRead { q with Reserve0 := (r0 : Int), Reserve1 := (r1 : Int) }))
    (multiGetReserves : List ReserveParams → Option (List (Nat × Nat)))
    (getReserves : ReserveParams → Option (Nat × Nat)) (Pools : PoolMap) (newPools : List Pool) :
    writesOnly Q Pools (SetReserves multiGetReserves getReserves Pools newPools).1 := by
  unfold SetReserves
  dsimp only
  have ho := setOldReserves_writes Q hread multiGetReserves
    (batches 2000 (Pools.map fun kv => reserveParamsOf kv.2)) Pools
  rcases hs : setOldReserves multiGetReserves Pools
    (batches 2000 (Pools.map fun kv => reserveParamsOf kv.2)) with ⟨Pools', status⟩
  rw [hs] at ho
  rw [hs]
  cases status with
  | done => exact writesOnly_trans Q _ _ _ ho (setNewPools_writes Q hread getReserves newPools _)
  | rpcError => exact ho
  | indexPanic => exact ho

theorem positiveIfEnabled_disableOnLog (q : Pool) : positiveIfEnabled (disableOnLog q) := by
  intro h
  exact ((disableOnLog_enabled_iff q).1 h).2.elim fun h0 h1 => ⟨h0, h1.1⟩

theorem positiveIfEnabled_disableOnRead (q : Pool) (r0 r1 : Nat) :
    positiveIfEnabled (disableOnRead { q with Reserve0 := (r0 : Int), Reserve1 := (r1 : Int) }) := by
  intro h
  have h' := ((disableOnRead_enabled_iff _ (by simp) (by simp)).1 h).2
  exact ⟨h'.1, h'.2.1⟩

theorem floorOrDisabled_disableOnLog (q : Pool) : floorOrDisabled (disableOnLog q) := by
  obtain ⟨e0, e1, _, e3, e4, _, _⟩ := disableOnLog_fields q
  have hl : wethReserveLimit = 10 ^ 19 := by norm_num [wethReserveLimit]
  have h := disableOnLog_enabled q
  constructor
  · rintro ⟨ht, hr⟩
    by_contra hen
    have hen' : (disableOnLog q).Enabled = true := by simpa using hen
    have := (h.1 hen').2.2.2.1 (e0 ▸ ht)
    rw [e3] at hr
    omega
  · rintro ⟨ht, hr⟩
    by_contra hen
    have hen' : (disableOnLog q).Enabled = true := by simpa using hen
    have := (h.1 hen').2.2.2.2 (e1 ▸ ht)
    rw [e4] at hr
    omega

theorem floorOrDisabled_disableOnRead (q : Pool) : floorOrDisabled (disableOnRead q) := by
  obtain ⟨e0, e1, _, e3, e4, _, _⟩ := disableOnRead_fields q
  have hl : wethReserveLimit = 10 ^ 19 := by norm_num [wethReserveLimit]
  have h := disableOnRead_enabled q
  constructor
  · rintro ⟨ht, hr⟩
    by_contra hen
    have hen' : (disableOnRead q).Enabled = true := by simpa using hen
    have := (h.1 hen').2.2.2.1 (e0 ▸ ht)
    rw [e3] at hr
    omega
  · rintro ⟨ht, hr⟩
    by_contra hen
    have hen' : (disableOnRead q).Enabled = true := by simpa using hen
    have := (h.1 hen').2.2.2.2 (e1 ▸ ht)
    rw [e4] at hr
    omega

/-! ## C3: P1 is kept by ResolveLogs and SetReserves -/

/-- C3: property P1 (an enabled pool has reserve0 > 0 and reserve1 > 0).  After
`ResolveLogs` on any batch and after `SetReserves` with any (unsigned) reserves
returned by the contract, however the call ends: every registry entry is either
an entry the registry already had or satisfies P1, every address recorded in
`processedPools` holds a pool satisfying P1, every single reserve read of
`SetReserves` stores a pool satisfying P1, and therefore P1 for all pools before
the call gives P1 for all pools after it. -/
theorem C3_positive_reserves_invariant
    (multiGetReserves : List ReserveParams → Option (List (Nat × Nat)))
    (getReserves : ReserveParams → Option (Nat × Nat))
    (Pools : PoolMap) (logs : List Log) (newPools : List Pool) :
    ((∀ a p', mapGet (ResolveLogs getReserves Pools logs).2 a = some p' →
        mapGet Pools a = some p' ∨ (p'.Enabled = true → 0 < p'.Reserve0 ∧ 0 < p'.Reserve1)) ∧
     (∀ a, (mapGet (resolveAll getReserves Pools logs).processedPools a).isSome = true →
        ∃ p', mapGet (ResolveLogs getReserves Pools logs).2 a = some p' ∧
          (p'.Enabled = true → 0 < p'.Reserve0 ∧ 0 < p'.Reserve1)) ∧
     (∀ a p', mapGet (SetReserves multiGetReserves getReserves Pools newPools).1 a = some p' →
        mapGet Pools a = some p' ∨ (p'.Enabled = true → 0 < p'.Reserve0 ∧ 0 < p'.Reserve1)) ∧
     (∀ (m : PoolMap) (oldParam : ReserveParams) (r0 r1 : Nat),
        ∃ p', mapGet (setOldPool m oldParam (r0, r1)) oldParam.Pool = some p' ∧
          (p'.Enabled = true → 0 < p'.Reserve0 ∧ 0 < p'.Reserve1)) ∧
     (∀ (m : PoolMap) (pool : Pool) (r0 r1 : Nat),
        getReserves (reserveParamsOf pool) = some (r0, r1) →
        ∃ p', mapGet (setNewPool getReserves m pool) pool.Address = some p' ∧
          (p'.Enabled = true → 0 < p'.Reserve0 ∧ 0 < p'.Reserve1))) ∧
    ((∀ a p, mapGet Pools a = some p → p.Enabled = true → 0 < p.Reserve0 ∧ 0 < p.Reserve1) →
      (∀ a p, mapGet (ResolveLogs getReserves Pools logs).2 a = some p →
        p.Enabled = true → 0 < p.Reserve0 ∧ 0 < p.Reserve1) ∧
      (∀ a p, mapGet (SetReserves multiGetReserves getReserves Pools newPools).1 a = some p →
        p.Enabled = true → 0 < p.Reserve0 ∧ 0 < p.Reserve1)) := by
  have hR := resolveFrom_writes positiveIfEnabled positiveIfEnabled_disableOnLog
    positiveIfEnabled_disableOnRead getReserves logs (resolveInit Pools)
    (by intro a ha; simp [resolveInit, mapGet] at ha)
  have hS := SetReserves_writes positiveIfEnabled positiveIfEnabled_disableOnRead
    multiGetReserves getReserves Pools newPools
  refine ⟨⟨hR.1, hR.2, hS, ?_, ?_⟩, fun hInv => ⟨fun a p hp => ?_, fun a p hp => ?_⟩⟩
  · intro m oldParam r0 r1
    exact ⟨_, mapGet_mapSet_self _ _ _, positiveIfEnabled_disableOnRead _ r0 r1⟩
  · intro m pool r0 r1 hr
    simp only [setNewPool, hr]
    exact ⟨_, mapGet_mapSet_self _ _ _, positiveIfEnabled_disableOnRead _ r0 r1⟩
  · rcases hR.1 a p hp with h | h
    · exact hInv a p h
    · exact h
  · rcases hS a p hp with h | h
    · exact hInv a p h
    · exact h

/-- C3 (instance): pool P is driven to reserves (0, 6) by a Burn and read as
(0, 9) by the contract; both writes leave it disabled, so P1 holds. -/
theorem C3_positive_reserves_invariant_witness :
    (∀ a p, mapGet (ResolveLogs noReserves [(200, poolP)]
        [{ Address := 200, Index := 1, event := .Burn 100 194 }]).2 a = some p →
      p.Enabled = true → 0 < p.Reserve0 ∧ 0 < p.Reserve1) ∧
    mapGet (ResolveLogs noReserves [(200, poolP)]
        [{ Address := 200, Index := 1, event := .Burn 100 194 }]).2 200 =
      some { poolP with Reserve0 := 0, Reserve1 := 6, Enabled := false } :=
  ⟨((C3_positive_reserves_invariant (fun _ => none) noReserves [(200, poolP)]
      [{ Address := 200, Index := 1, event := .Burn 100 194 }] []).2
      (by
        intro a p hp _
        have h : p = poolP := by
          simp only [mapGet] at hp
          split_ifs at hp
          · exact (Option.some.inj hp).symm
        subst h
        decide)).1, by decide⟩

/-! ## C4: the WETH liquidity floor -/

/-- C4: the WETH floor (P2, S2).  After `ResolveLogs` on any batch and after
`SetReserves`, every registry entry that is not an entry the registry already
had, every pool at an address recorded in `processedPools`, and every pool
stored by a single reserve read of `SetReserves`, is disabled when its token0 is
WETH with reserve0 below 10^19 or its token1 is WETH with reserve1 below 10^19.  Pool Q (token0 = WETH, reserve0 = 10^19) that receives
Swap(-5*10^18, 25) ends with reserve0 = 5*10^18 and Enabled = false; the same
pool receiving Swap(0, 25) keeps reserve0 = 10^19 and stays enabled, as does
every enabled pool whose WETH side is written as exactly 10^19 while the other
side is positive. -/
theorem C4_weth_floor_disables
    (multiGetReserves : List ReserveParams → Option (List (Nat × Nat)))
    (getReserves : ReserveParams → Option (Nat × Nat))
    (Pools : PoolMap) (logs : List Log) (newPools : List Pool) :
    ((∀ a p', mapGet (ResolveLogs getReserves Pools logs).2 a = some p' →
        mapGet Pools a = some p' ∨
        ((p'.Token0 = WETHAddress ∧ p'.Reserve0 < 10 ^ 19 → p'.Enabled = false) ∧
         (p'.Token1 = WETHAddress ∧ p'.Reserve1 < 10 ^ 19 → p'.Enabled = false))) ∧
     (∀ a, (mapGet (resolveAll getReserves Pools logs).processedPools a).isSome = true →
        ∃ p', mapGet (ResolveLogs getReserves Pools logs).2 a = some p' ∧
          (p'.Token0 = WETHAddress ∧ p'.Reserve0 < 10 ^ 19 → p'.Enabled = false) ∧
          (p'.Token1 = WETHAddress ∧ p'.Reserve1 < 10 ^ 19 → p'.Enabled = false)) ∧
     (∀ a p', mapGet (SetReserves multiGetReserves getReserves Pools newPools).1 a = some p' →
        mapGet Pools a = some p' ∨
        ((p'.Token0 = WETHAddress ∧ p'.Reserve0 < 10 ^ 19 → p'.Enabled = false) ∧
         (p'.Token1 = WETHAddress ∧ p'.Reserve1 < 10 ^ 19 → p'.Enabled = false))) ∧
     (∀ (m : PoolMap) (oldParam : ReserveParams) (r0 r1 : Nat),
        ∃ p', mapGet (setOldPool m oldParam (r0, r1)) oldParam.Pool = some p' ∧
          (p'.Token0 = WETHAddress ∧ p'.Reserve0 < 10 ^ 19 → p'.Enabled = false) ∧
          (p'.Token1 = WETHAddress ∧ p'.Reserve1 < 10 ^ 19 → p'.Enabled = false)) ∧
     (∀ (m : PoolMap) (pool : Pool) (r0 r1 : Nat),
        getReserves (reserveParamsOf pool) = some (r0, r1) →
        ∃ p', mapGet (setNewPool getReserves m pool) pool.Address = some p' ∧
          (p'.Token0 = WETHAddress ∧ p'.Reserve0 < 10 ^ 19 → p'.Enabled = false) ∧
          (p'.Token1 = WETHAddress ∧ p'.Reserve1 < 10 ^ 19 → p'.Enabled = false))) ∧
    (poolQ.Token0 = WETHAddress ∧ poolQ.Reserve0 = 10 ^ 19 ∧ poolQ.Enabled = true ∧
      mapGet (ResolveLogs getReserves [(300, poolQ)]
          [{ Address := 300, Index := 4, event := .Swap (-5000000000000000000) 25 }]).2 300 =
        some { poolQ with Reserve0 := 5 * 10 ^ 18, Reserve1 := 4025, Enabled := false } ∧
      mapGet (ResolveLogs getReserves [(300, poolQ)]
          [{ Address := 300, Index := 4, event := .Swap 0 25 }]).2 300 =
        some { poolQ with Reserve0 := 10 ^ 19, Reserve1 := 4025, Enabled := true }) ∧
    (∀ q : Pool, q.Enabled = true → q.Token0 = WETHAddress → q.Reserve0 = 10 ^ 19 →
      q.Token1 ≠ WETHAddress → 0 < q.Reserve1 →
      (disableOnLog q).Enabled = true ∧ (disableOnRead q).Enabled = true) := by
  have hR := resolveFrom_writes floorOrDisabled floorOrDisabled_disableOnLog
    (fun q r0 r1 => floorOrDisabled_disableOnRead _) getReserves logs (resolveInit Pools)
    (by intro a ha; simp [resolveInit, mapGet] at ha)
  have hS := SetReserves_writes floorOrDisabled (fun q r0 r1 => floorOrDisabled_disableOnRead _)
    multiGetReserves getReserves Pools newPools
  refine ⟨⟨hR.1, hR.2, hS, ?_, ?_⟩, ⟨by decide, by decide, by decide, ?_, ?_⟩, ?_⟩
  · intro m oldParam r0 r1
    exact ⟨_, mapGet_mapSet_self _ _ _, floorOrDisabled_disableOnRead _⟩
  · intro m pool r0 r1 hr
    simp only [setNewPool, hr]
    exact ⟨_, mapGet_mapSet_self _ _ _, floorOrDisabled_disableOnRead _⟩
  · rw [resolveLogs_single getReserves [(300, poolQ)]
      ⟨300, 4, .Swap (-5000000000000000000) 25⟩ poolQ _ (by decide) (by decide) rfl,
      mapGet_mapSet_self]
    decide
  · rw [resolveLogs_single getReserves [(300, poolQ)]
      ⟨300, 4, .Swap 0 25⟩ poolQ _ (by decide) (by decide) rfl, mapGet_mapSet_self]
    decide
  · intro q hen _ h0 h1 hpos
    have hl : wethReserveLimit = 10 ^ 19 := by norm_num [wethReserveLimit]
    rw [disableOnLog_enabled, disableOnRead_enabled]
    refine ⟨⟨hen, by omega, hpos, fun _ => by omega, fun h => absurd h h1⟩,
      ⟨hen, by omega, by omega, fun _ => by omega, fun h => absurd h h1⟩⟩

/-! ## Where the paths of the five searches come from -/

theorem mem_wethPools (Pools : PoolMap) (p : Pool)
    (h : p ∈ (CalculateWethAndAllPools Pools).2) :
    p ∈ (CalculateWethAndAllPools Pools).1 ∧ hasWETH p := by
  simp only [CalculateWethAndAllPools, List.mem_filter, decide_eq_true_eq] at h ⊢
  exact ⟨h.1, h.2.symm⟩

theorem mem_allPools (Pools : PoolMap) (p : Pool)
    (h : p ∈ (CalculateWethAndAllPools Pools).1) :
    p.Enabled = true ∧ ∃ k, (k, p) ∈ Pools := by
  simp only [CalculateWethAndAllPools, List.mem_filter, List.mem_map] at h
  obtain ⟨⟨⟨k, p'⟩, hkp, rfl⟩, hen⟩ := h
  exact ⟨hen, k, hkp⟩

theorem otherTokenPtr_eq_some (p : Pool) (t : common.Address) (h : otherTokenPtr p = some t) :
    hasWETH p ∧ t = otherTokenVal p := by
  unfold otherTokenPtr otherTokenVal at *
  unfold hasWETH
  dsimp only at *
  split_ifs at h ⊢ <;> simp_all

theorem mem_findDoublePathFirstEffected (eff weth : List Pool) (path : Path)
    (h : path ∈ findDoublePathFirstEffected eff weth) :
    ∃ p1 p2, path = [p1.Address, p2.Address] ∧ p1 ∈ weth ∧ p2 ∈ eff ∧
      p2.Address ≠ p1.Address ∧ closesAt p2 (otherTokenVal p1) = true := by
  simp only [findDoublePathFirstEffected, List.mem_flatMap] at h
  obtain ⟨p1, h1, p2, h2, hp⟩ := h
  split_ifs at hp with ha hc
  · simp at hp
  · simp only [List.mem_singleton] at hp
    exact ⟨p1, p2, hp, h1, h2, ha, hc⟩
  · simp at hp

theorem mem_findDoublePathLastEffected (eff weth : List Pool) (path : Path)
    (h : path ∈ findDoublePathLastEffected eff weth) :
    ∃ p1 p2, path = [p1.Address, p2.Address] ∧ p1 ∈ eff ∧ p2 ∈ weth ∧
      p2.Address ≠ p1.Address ∧ hasWETH p1 ∧ closesAt p2 (otherTokenVal p1) = true := by
  simp only [findDoublePathLastEffected, List.mem_flatMap] at h
  obtain ⟨p1, h1, hp⟩ := h
  cases ht : otherTokenPtr p1 with
  | none => simp [ht] at hp
  | some t =>
    obtain ⟨hw, rfl⟩ := otherTokenPtr_eq_some p1 t ht
    simp only [ht, List.mem_flatMap] at hp
    obtain ⟨p2, h2, hp⟩ := hp
    split_ifs at hp with ha hc
    · simp at hp
    · simp only [List.mem_singleton] at hp
      exact ⟨p1, p2, hp, h1, h2, ha, hw, hc⟩
    · simp at hp

theorem mem_findTriangularPathMidEffected (eff weth : List Pool) (path : Path)
    (h : path ∈ findTriangularPathMidEffected eff weth) :
    ∃ p1 p2 p3 t2, path = [p1.Address, p2.Address, p3.Address] ∧
      p1 ∈ weth ∧ p2 ∈ eff ∧ p3 ∈ weth ∧
      p2.Address ≠ p1.Address ∧ p3.Address ≠ p2.Address ∧ p3.Address ≠ p1.Address ∧
      nextToken p2 (otherTokenVal p1) = some t2 ∧ closesAt p3 t2 = true := by
  simp only [findTriangularPathMidEffected, List.mem_flatMap] at h
  obtain ⟨p1, h1, p2, h2, hp⟩ := h
  split_ifs at hp with ha
  · simp at hp
  · cases ht : nextToken p2 (otherTokenVal p1) with
    | none => simp [ht] at hp
    | some t2 =>
      simp only [ht, List.mem_flatMap] at hp
      obtain ⟨p3, h3, hp⟩ := hp
      split_ifs at hp with hb hc
      · simp at hp
      · simp only [List.mem_singleton] at hp
        exact ⟨p1, p2, p3, t2, hp, h1, h2, h3, ha, fun e => hb (Or.inl e),
          fun e => hb (Or.inr e), ht, hc⟩
      · simp at hp

theorem mem_findTriangularPathFirstEffected (eff weth all : List Pool) (path : Path)
    (h : path ∈ findTriangularPathFirstEffected eff weth all) :
    ∃ p1 p2 p3 t2, path = [p1.Address, p2.Address, p3.Address] ∧
      p1 ∈ eff ∧ p2 ∈ all ∧ p3 ∈ weth ∧
      p2.Address ≠ p1.Address ∧ p3.Address ≠ p2.Address ∧ p3.Address ≠ p1.Address ∧
      hasWETH p1 ∧ nextToken p2 (otherTokenVal p1) = some t2 ∧ closesAt p3 t2 = true := by
  simp only [findTriangularPathFirstEffected, List.mem_flatMap] at h
  obtain ⟨p1, h1, hp⟩ := h
  cases ht1 : otherTokenPtr p1 with
  | none => simp [ht1] at hp
  | some t =>
    obtain ⟨hw, rfl⟩ := otherTokenPtr_eq_some p1 t ht1
    simp only [ht1, List.mem_flatMap] at hp
    obtain ⟨p2, h2, hp⟩ := hp
    split_ifs at hp with ha
    · simp at hp
    · cases ht : nextToken p2 (otherTokenVal p1) with
      | none => simp [ht] at hp
      | some t2 =>
        simp only [ht, List.mem_flatMap] at hp
        obtain ⟨p3, h3, hp⟩ := hp
        split_ifs at hp with hb hc
        · simp at hp
        · simp only [List.mem_singleton] at hp
          exact ⟨p1, p2, p3, t2, hp, h1, h2, h3, ha, fun e => hb (Or.inr e.symm),
            fun e => hb (Or.inl e.symm), hw, ht, hc⟩
        · simp at hp

theorem mem_findTriangularPathLastEffected (eff weth all : List Pool) (path : Path)
    (h : path ∈ findTriangularPathLastEffected eff weth all) :
    ∃ p1 p2 p3 t2, path = [p1.Address, p2.Address, p3.Address] ∧
      p1 ∈ weth ∧ p2 ∈ all ∧ p3 ∈ eff ∧
      p2.Address ≠ p1.Address ∧ p3.Address ≠ p2.Address ∧ p3.Address ≠ p1.Address ∧
      nextToken p2 (otherTokenVal p1) = some t2 ∧ closesAt p3 t2 = true := by
  simp only [findTriangularPathLastEffected, List.mem_flatMap] at h
  obtain ⟨p1, h1, p2, h2, hp⟩ := h
  split_ifs at hp with ha
  · simp at hp
  · cases ht : nextToken p2 (otherTokenVal p1) with
    | none => simp [ht] at hp
    | some t2 =>
      simp only [ht, List.mem_flatMap] at hp
      obtain ⟨p3, h3, hp⟩ := hp
      split_ifs at hp with hb hc
      · simp at hp
      · simp only [List.mem_singleton] at hp
        exact ⟨p1, p2, p3, t2, hp, h1, h2, h3, ha, fun e => hb (Or.inl e),
          fun e => hb (Or.inr e), ht, hc⟩
      · simp at hp

/-! ## The receive loop of FindPaths -/

theorem addPath_foldl (xs : List Path) : ∀ acc : List Path × List Path,
    acc.1.Nodup → (∀ p, p ∈ acc.2 ↔ p ∈ acc.1) →
    (xs.foldl addPath acc).1.Nodup ∧
    (∀ p, p ∈ (xs.foldl addPath acc).2 ↔ p ∈ (xs.foldl addPath acc).1) ∧
    (∀ p, p ∈ (xs.foldl addPath acc).1 ↔ p ∈ acc.1 ∨ p ∈ xs) := by
  induction xs with
  | nil => intro acc hn hm; exact ⟨hn, hm, by simp⟩
  | cons x rest ih =>
    intro acc hn hm
    rw [List.foldl_cons]
    by_cases hx : x ∈ acc.2
    · have hstep : addPath acc x = acc := by simp [addPath, hx]
      rw [hstep]
      obtain ⟨h₁, h₂, h₃⟩ := ih acc hn hm
      refine ⟨h₁, h₂, fun p => ?_⟩
      rw [h₃ p, List.mem_cons]
      constructor
      · rintro (h | h)
        · exact Or.inl h
        · exact Or.inr (Or.inr h)
      · rintro (h | h | h)
        · exact Or.inl h
        · exact Or.inl (h ▸ (hm x).1 hx)
        · exact Or.inr h
    · have hstep : addPath acc x = (acc.1 ++ [x], x :: acc.2) := by simp [addPath, hx]
      rw [hstep]
      have hx' : x ∉ acc.1 := fun h => hx ((hm x).2 h)
      obtain ⟨h₁, h₂, h₃⟩ := ih (acc.1 ++ [x], x :: acc.2)
        (by
          rw [List.nodup_append]
          refine ⟨hn, List.nodup_singleton x, ?_⟩
          intro a ha hb
          rw [List.mem_singleton] at hb
          exact hx' (hb ▸ ha))
        (by
          intro p
          simp only [List.mem_cons, List.mem_append, List.not_mem_nil, or_false, hm p]
          exact or_comm)
      refine ⟨h₁, h₂, fun p => ?_⟩
      rw [h₃ p]
      simp only [List.mem_append, List.mem_cons, List.not_mem_nil, or_false]
      exact or_assoc

theorem collect_foldl (found : List (List Path)) : ∀ acc : List Path × List Path,
    acc.1.Nodup → (∀ p, p ∈ acc.2 ↔ p ∈ acc.1) →
    (found.foldl (fun acc foundPaths => foundPaths.foldl addPath acc) acc).1.Nodup ∧
    (∀ p, p ∈ (found.foldl (fun acc foundPaths => foundPaths.foldl addPath acc) acc).1 ↔
      p ∈ acc.1 ∨ ∃ fp ∈ found, p ∈ fp) := by
  induction found with
  | nil => intro acc hn _; exact ⟨hn, by simp⟩
  | cons fp rest ih =>
    intro acc hn hm
    rw [List.foldl_cons]
    obtain ⟨h₁, h₂, h₃⟩ := addPath_foldl fp acc hn hm
    obtain ⟨k₁, k₂⟩ := ih _ h₁ h₂
    refine ⟨k₁, fun p => ?_⟩
    rw [k₂ p, h₃ p]
    simp only [List.mem_cons, exists_eq_or_imp]
    exact or_assoc

/-- `FindPaths` returns each path once, and returns exactly the paths found by
one of the searches. -/
theorem FindPaths_spec (Pools : PoolMap) (eff : List Pool) :
    (FindPaths Pools eff).Nodup ∧
    ∀ p, p ∈ FindPaths Pools eff ↔ ∃ fp ∈ searchResults Pools eff, p ∈ fp := by
  obtain ⟨h₁, h₂⟩ := collect_foldl (searchResults Pools eff) ([], [])
    List.nodup_nil (fun _ => Iff.rfl)
  refine ⟨h₁, fun p => ?_⟩
  rw [FindPaths, h₂ p]
  simp

theorem hasWETH_of_closesAt (p : Pool) (t : common.Address) (h : closesAt p t = true) :
    hasWETH p := by
  simp only [closesAt, decide_eq_true_eq] at h
  rcases h with h | h
  · exact Or.inr h.1
  · exact Or.inl h.1

/-- Every path of `FindPaths` is built from two or three pool records with
pairwise different addresses.  The first contains WETH; the last pairs WETH with
the token the chain has reached; one of the records is an affected pool and the
others are enabled registry pools. -/
theorem mem_FindPaths_cases (Pools : PoolMap) (eff : List Pool) (path : Path)
    (h : path ∈ FindPaths Pools eff) :
    (∃ p1 p2, path = [p1.Address, p2.Address] ∧ p2.Address ≠ p1.Address ∧ hasWETH p1 ∧
      closesAt p2 (otherTokenVal p1) = true ∧
      ((p1 ∈ (CalculateWethAndAllPools Pools).2 ∧ p2 ∈ eff) ∨
       (p1 ∈ eff ∧ p2 ∈ (CalculateWethAndAllPools Pools).2))) ∨
    (∃ p1 p2 p3 t2, path = [p1.Address, p2.Address, p3.Address] ∧
      p2.Address ≠ p1.Address ∧ p3.Address ≠ p2.Address ∧ p3.Address ≠ p1.Address ∧
      hasWETH p1 ∧ nextToken p2 (otherTokenVal p1) = some t2 ∧ closesAt p3 t2 = true ∧
      ((p1 ∈ eff ∧ p2 ∈ (CalculateWethAndAllPools Pools).1 ∧
          p3 ∈ (CalculateWethAndAllPools Pools).2) ∨
       (p1 ∈ (CalculateWethAndAllPools Pools).2 ∧ p2 ∈ eff ∧
          p3 ∈ (CalculateWethAndAllPools Pools).2) ∨
       (p1 ∈ (CalculateWethAndAllPools Pools).2 ∧ p2 ∈ (CalculateWethAndAllPools Pools).1 ∧
          p3 ∈ eff))) := by
  obtain ⟨fp, hfp, hp⟩ := ((FindPaths_spec Pools eff).2 path).1 h
  simp only [searchResults, List.mem_cons, List.mem_singleton, List.not_mem_nil, or_false]
    at hfp
  rcases hfp with rfl | rfl | rfl | rfl | rfl
  · obtain ⟨p1, p2, e, h1, h2, ha, hc⟩ := mem_findDoublePathFirstEffected _ _ _ hp
    exact Or.inl ⟨p1, p2, e, ha, (mem_wethPools Pools p1 h1).2, hc, Or.inl ⟨h1, h2⟩⟩
  · obtain ⟨p1, p2, e, h1, h2, ha, hw, hc⟩ := mem_findDoublePathLastEffected _ _ _ hp
    exact Or.inl ⟨p1, p2, e, ha, hw, hc, Or.inr ⟨h1, h2⟩⟩
  · obtain ⟨p1, p2, p3, t2, e, h1, h2, h3, ha, hb, hc, hw, ht, hcl⟩ :=
      mem_findTriangularPathFirstEffected _ _ _ _ hp
    exact Or.inr ⟨p1, p2, p3, t2, e, ha, hb, hc, hw, ht, hcl, Or.inl ⟨h1, h2, h3⟩⟩
  · obtain ⟨p1, p2, p3, t2, e, h1, h2, h3, ha, hb, hc, ht, hcl⟩ :=
      mem_findTriangularPathMidEffected _ _ _ hp
    exact Or.inr ⟨p1, p2, p3, t2, e, ha, hb, hc, (mem_wethPools Pools p1 h1).2, ht, hcl,
      Or.inr (Or.inl ⟨h1, h2, h3⟩)⟩
  · obtain ⟨p1, p2, p3, t2, e, h1, h2, h3, ha, hb, hc, ht, hcl⟩ :=
      mem_findTriangularPathLastEffected _ _ _ _ hp
    exact Or.inr ⟨p1, p2, p3, t2, e, ha, hb, hc, (mem_wethPools Pools p1 h1).2, ht, hcl,
      Or.inr (Or.inr ⟨h1, h2, h3⟩)⟩

/-! ## C7 to C10: the laws of path enumeration -/

/-- C7 (P5): every path returned by `FindPaths` is the address tuple of the pool
records it was built from (each an affected pool or an enabled registry pool),
and the first and the last of these records have WETH as token0 or token1. -/
theorem C7_paths_begin_and_end_at_weth (Pools : PoolMap) (effectedPools : List Pool)
    (path : Path) (h : path ∈ FindPaths Pools effectedPools) :
    ∃ (pools : List Pool) (first last : Pool),
      path = pools.map (fun p => p.Address) ∧
      (∀ p ∈ pools, p ∈ effectedPools ∨ p ∈ (CalculateWethAndAllPools Pools).1) ∧
      pools.head? = some first ∧ pools.getLast? = some last ∧
      (first.Token0 = WETHAddress ∨ first.Token1 = WETHAddress) ∧
      (last.Token0 = WETHAddress ∨ last.Token1 = WETHAddress) := by
  have hall : ∀ p, p ∈ (CalculateWethAndAllPools Pools).2 →
      p ∈ effectedPools ∨ p ∈ (CalculateWethAndAllPools Pools).1 :=
    fun p hp => Or.inr (mem_wethPools Pools p hp).1
  rcases mem_FindPaths_cases Pools effectedPools path h with
    ⟨p1, p2, e, _, hw, hc, hm⟩ | ⟨p1, p2, p3, t2, e, _, _, _, hw, _, hc, hm⟩
  · refine ⟨[p1, p2], p1, p2, by simpa using e, ?_, rfl, rfl, hw, hasWETH_of_closesAt _ _ hc⟩
    intro p hp
    simp only [List.mem_cons, List.mem_singleton, List.not_mem_nil, or_false] at hp
    rcases hm with ⟨h1, h2⟩ | ⟨h1, h2⟩
    · rcases hp with rfl | rfl
      · exact hall _ h1
      · exact Or.inl h2
    · rcases hp with rfl | rfl
      · exact Or.inl h1
      · exact hall _ h2
  · refine ⟨[p1, p2, p3], p1, p3, by simpa using e, ?_, rfl, rfl, hw,
      hasWETH_of_closesAt _ _ hc⟩
    intro p hp
    simp only [List.mem_cons, List.mem_singleton, List.not_mem_nil, or_false] at hp
    rcases hm with ⟨h1, h2, h3⟩ | ⟨h1, h2, h3⟩ | ⟨h1, h2, h3⟩
    · rcases hp with rfl | rfl | rfl
      · exact Or.inl h1
      · exact Or.inr h2
      · exact hall _ h3
    · rcases hp with rfl | rfl | rfl
      · exact hall _ h1
      · exact Or.inl h2
      · exact hall _ h3
    · rcases hp with rfl | rfl | rfl
      · exact hall _ h1
      · exact Or.inr h2
      · exact Or.inl h3

/-- C7 (witness): in scenario S4 with pool 2 affected, the path of pools 1, 2, 3
is returned; pools 1 and 3 contain WETH. -/
theorem C7_paths_begin_and_end_at_weth_witness :
    [1, 2, 3] ∈ FindPaths registryS4 [pool2S4] ∧
    ∃ (pools : List Pool) (first last : Pool),
      [1, 2, 3] = pools.map (fun p => p.Address) ∧
      (∀ p ∈ pools, p ∈ [pool2S4] ∨ p ∈ (CalculateWethAndAllPools registryS4).1) ∧
      pools.head? = some first ∧ pools.getLast? = some last ∧
      (first.Token0 = WETHAddress ∨ first.Token1 = WETHAddress) ∧
      (last.Token0 = WETHAddress ∨ last.Token1 = WETHAddress) :=
  ⟨by decide, C7_paths_begin_and_end_at_weth registryS4 [pool2S4] [1, 2, 3] (by decide)⟩

/-- C8 (P6): every path returned by `FindPaths` has two or three addresses, and
they are pairwise distinct. -/
theorem C8_paths_do_not_repeat_a_pool (Pools : PoolMap) (effectedPools : List Pool)
    (path : Path) (h : path ∈ FindPaths Pools effectedPools) :
    path.Nodup ∧ (path.length = 2 ∨ path.length = 3) := by
  rcases mem_FindPaths_cases Pools effectedPools path h with
    ⟨p1, p2, e, ha, _⟩ | ⟨p1, p2, p3, t2, e, ha, hb, hc, _⟩
  · subst e
    refine ⟨?_, Or.inl rfl⟩
    simp only [List.nodup_cons, List.mem_singleton, List.not_mem_nil, not_false_eq_true,
      List.nodup_nil, and_true]
    exact fun e => ha e.symm
  · subst e
    refine ⟨?_, Or.inr rfl⟩
    simp only [List.nodup_cons, List.mem_cons, List.mem_singleton, List.not_mem_nil,
      not_false_eq_true, List.nodup_nil, and_true, or_false, not_or]
    exact ⟨⟨fun e => ha e.symm, fun e => hc e.symm⟩, fun e => hb e.symm⟩

/-- C8 (witness): the path of pools 1, 2, 3 of scenario S4. -/
theorem C8_paths_do_not_repeat_a_pool_witness :
    [1, 2, 3] ∈ FindPaths registryS4 [pool2S4] ∧
    ([1, 2, 3] : Path).Nodup ∧ (([1, 2, 3] : Path).length = 2 ∨ ([1, 2, 3] : Path).length = 3) :=
  ⟨by decide, C8_paths_do_not_repeat_a_pool registryS4 [pool2S4] [1, 2, 3] (by decide)⟩

/-- C9 (P7): every path returned by `FindPaths` contains the address of a pool of
the affected list, and an empty affected list yields no paths. -/
theorem C9_paths_contain_an_affected_pool (Pools : PoolMap) (effectedPools : List Pool) :
    (∀ path ∈ FindPaths Pools effectedPools, ∃ e ∈ effectedPools, e.Address ∈ path) ∧
    FindPaths Pools [] = [] := by
  have key : ∀ (eff : List Pool) (path : Path), path ∈ FindPaths Pools eff →
      ∃ e ∈ eff, e.Address ∈ path := by
    intro eff path h
    rcases mem_FindPaths_cases Pools eff path h with
      ⟨p1, p2, e, _, _, _, hm⟩ | ⟨p1, p2, p3, t2, e, _, _, _, _, _, _, hm⟩
    · subst e
      rcases hm with ⟨_, h2⟩ | ⟨h1, _⟩
      · exact ⟨p2, h2, by simp⟩
      · exact ⟨p1, h1, by simp⟩
    · subst e
      rcases hm with ⟨h1, _, _⟩ | ⟨_, h2, _⟩ | ⟨_, _, h3⟩
      · exact ⟨p1, h1, by simp⟩
      · exact ⟨p2, h2, by simp⟩
      · exact ⟨p3, h3, by simp⟩
  refine ⟨key effectedPools, ?_⟩
  rw [List.eq_nil_iff_forall_not_mem]
  intro path h
  obtain ⟨e, he, _⟩ := key [] path h
  exact absurd he (List.not_mem_nil e)

/-- C9 (instance): scenario S4 with pool 2 affected. -/
theorem C9_paths_contain_an_affected_pool_witness :
    [1, 2, 3] ∈ FindPaths registryS4 [pool2S4] ∧
    ∃ e ∈ [pool2S4], e.Address ∈ ([1, 2, 3] : Path) :=
  ⟨by decide,
    (C9_paths_contain_an_affected_pool registryS4 [pool2S4]).1 [1, 2, 3] (by decide)⟩

/-- C10 (P8): the list returned by `FindPaths` has no duplicate, and a path is in
it if and only if one of the five searches produced it.  In scenario S4 with pool
2 listed twice as affected the mid-effected search produces each of its two
paths twice, and `FindPaths` returns each once. -/
theorem C10_findPaths_is_deduplicated_union (Pools : PoolMap) (effectedPools : List Pool) :
    (FindPaths Pools effectedPools).Nodup ∧
    (∀ path, path ∈ FindPaths Pools effectedPools ↔
      path ∈ findDoublePathFirstEffected effectedPools (CalculateWethAndAllPools Pools).2 ∨
      path ∈ findDoublePathLastEffected effectedPools (CalculateWethAndAllPools Pools).2 ∨
      path ∈ findTriangularPathFirstEffected effectedPools (CalculateWethAndAllPools Pools).2
        (CalculateWethAndAllPools Pools).1 ∨
      path ∈ findTriangularPathMidEffected effectedPools (CalculateWethAndAllPools Pools).2 ∨
      path ∈ findTriangularPathLastEffected effectedPools (CalculateWethAndAllPools Pools).2
        (CalculateWethAndAllPools Pools).1) ∧
    (findTriangularPathMidEffected [pool2S4, pool2S4] (CalculateWethAndAllPools registryS4).2 =
        [[1, 2, 3], [1, 2, 3], [3, 2, 1], [3, 2, 1]] ∧
      FindPaths registryS4 [pool2S4, pool2S4] = [[1, 2, 3], [3, 2, 1]]) := by
  obtain ⟨h₁, h₂⟩ := FindPaths_spec Pools effectedPools
  refine ⟨h₁, fun path => ?_, by decide, by decide⟩
  rw [h₂ path]
  simp only [searchResults, List.mem_cons, List.mem_singleton, List.not_mem_nil, or_false,
    exists_eq_or_imp, exists_eq_left]

/-! ## C11: scenario S4 -/

theorem mem_wethPools_iff (Pools : PoolMap) (p : Pool) :
    p ∈ (CalculateWethAndAllPools Pools).2 ↔
      p ∈ Pools.map Prod.snd ∧ p.Enabled = true ∧ hasWETH p := by
  simp only [CalculateWethAndAllPools, List.mem_filter, decide_eq_true_eq, hasWETH]
  constructor
  · rintro ⟨⟨h1, h2⟩, h3⟩; exact ⟨h1, h2, h3.symm⟩
  · rintro ⟨h1, h2, h3⟩; exact ⟨⟨h1, h2⟩, h3.symm⟩

theorem mem_findTriangularPathMidEffected_of (eff weth : List Pool) (p1 p2 p3 : Pool)
    (t2 : common.Address) (h1 : p1 ∈ weth) (h2 : p2 ∈ eff) (h3 : p3 ∈ weth)
    (ha : p2.Address ≠ p1.Address) (hb : p3.Address ≠ p2.Address)
    (hc : p3.Address ≠ p1.Address) (ht : nextToken p2 (otherTokenVal p1) = some t2)
    (hcl : closesAt p3 t2 = true) :
    [p1.Address, p2.Address, p3.Address] ∈ findTriangularPathMidEffected eff weth := by
  simp only [findTriangularPathMidEffected, List.mem_flatMap]
  refine ⟨p1, h1, p2, h2, ?_⟩
  rw [if_neg ha]
  simp only [ht, List.mem_flatMap]
  refine ⟨p3, h3, ?_⟩
  rw [if_neg (by rintro (h | h); exact hb h; exact hc h), if_pos hcl]
  exact List.mem_singleton.2 rfl

/-- C11 (counterexample): in scenario S4 with pool 2 affected, the mid-effected
search and `FindPaths` emit two paths, the cycle in both directions, not one. -/
theorem C11_scenario_S4_emits_two_paths :
    findTriangularPathMidEffected [pool2S4] (CalculateWethAndAllPools registryS4).2 =
      [[1, 2, 3], [3, 2, 1]] ∧
    FindPaths registryS4 [pool2S4] = [[1, 2, 3], [3, 2, 1]] ∧
    (FindPaths registryS4 [pool2S4]).length = 2 := by
  refine ⟨by decide, by decide, by decide⟩

/-- C11 (amended): scenario S4.  The registry holds exactly the enabled pools
pool1 (WETH, T1), pool2 (T1, T2) and pool3 (WETH, T2), with WETH, T1, T2 pairwise
distinct and the three addresses pairwise distinct, and the affected list is
[pool2].  The triangular mid-effected search and `FindPaths` as a whole emit
exactly two paths: pool1, pool2, pool3 and pool3, pool2, pool1. -/
theorem C11_scenario_S4_two_directions (Pools : PoolMap) (pool1 pool2 pool3 : Pool)
    (T1 T2 : common.Address)
    (hreg : ∀ p, p ∈ Pools.map Prod.snd ↔ p = pool1 ∨ p = pool2 ∨ p = pool3)
    (h1 : pool1.Token0 = WETHAddress ∧ pool1.Token1 = T1)
    (h2 : pool2.Token0 = T1 ∧ pool2.Token1 = T2)
    (h3 : pool3.Token0 = WETHAddress ∧ pool3.Token1 = T2)
    (hen : pool1.Enabled = true ∧ pool2.Enabled = true ∧ pool3.Enabled = true)
    (htok : T1 ≠ WETHAddress ∧ T2 ≠ WETHAddress ∧ T1 ≠ T2)
    (hadr : pool1.Address ≠ pool2.Address ∧ pool1.Address ≠ pool3.Address ∧
      pool2.Address ≠ pool3.Address) :
    (∀ path, path ∈ findTriangularPathMidEffected [pool2] (CalculateWethAndAllPools Pools).2 ↔
      path = [pool1.Address, pool2.Address, pool3.Address] ∨
      path = [pool3.Address, pool2.Address, pool1.Address]) ∧
    (∀ path, path ∈ FindPaths Pools [pool2] ↔
      path = [pool1.Address, pool2.Address, pool3.Address] ∨
      path = [pool3.Address, pool2.Address, pool1.Address]) ∧
    (FindPaths Pools [pool2]).length = 2 := by
  obtain ⟨h10, h11⟩ := h1
  obtain ⟨h20, h21⟩ := h2
  obtain ⟨h30, h31⟩ := h3
  obtain ⟨e1, e2, e3⟩ := hen
  obtain ⟨t1, t2, t12⟩ := htok
  obtain ⟨a12, a13, a23⟩ := hadr
  have hw2 : ¬ hasWETH pool2 := by
    rintro (h | h)
    · exact t1 (h20 ▸ h)
    · exact t2 (h21 ▸ h)
  have hweth : ∀ p, p ∈ (CalculateWethAndAllPools Pools).2 ↔ p = pool1 ∨ p = pool3 := by
    intro p
    rw [mem_wethPools_iff, hreg]
    constructor
    · rintro ⟨h | h | h, _, hw⟩
      · exact Or.inl h
      · exact absurd (h ▸ hw) hw2
      · exact Or.inr h
    · rintro (h | h)
      · exact ⟨Or.inl h, h ▸ e1, h ▸ Or.inl h10⟩
      · exact ⟨Or.inr (Or.inr h), h ▸ e3, h ▸ Or.inl h30⟩
  have ho1 : otherTokenVal pool1 = T1 := by
    simp [otherTokenVal, h10, h11, t1]
  have ho3 : otherTokenVal pool3 = T2 := by
    simp [otherTokenVal, h30, h31, t2]
  have hn1 : nextToken pool2 T1 = some T2 := by
    simp [nextToken, h20, h21, Ne.symm t12]
  have hn3 : nextToken pool2 T2 = some T1 := by
    simp [nextToken, h20, h21, t12]
  have hc1 : ∀ t, closesAt pool1 t = true ↔ t = T1 := by
    intro t
    simp only [closesAt, decide_eq_true_eq, h10, h11, t1, false_and, true_and, false_or]
    exact eq_comm
  have hc3 : ∀ t, closesAt pool3 t = true ↔ t = T2 := by
    intro t
    simp only [closesAt, decide_eq_true_eq, h30, h31, t2, false_and, true_and, false_or]
    exact eq_comm
  have hfwd : [pool1.Address, pool2.Address, pool3.Address] ∈
      findTriangularPathMidEffected [pool2] (CalculateWethAndAllPools Pools).2 :=
    mem_findTriangularPathMidEffected_of _ _ pool1 pool2 pool3 T2 ((hweth _).2 (Or.inl rfl))
      (List.mem_singleton.2 rfl) ((hweth _).2 (Or.inr rfl)) (Ne.symm a12) (Ne.symm a23)
      (Ne.symm a13) (ho1 ▸ hn1) ((hc3 T2).2 rfl)
  have hbwd : [pool3.Address, pool2.Address, pool1.Address] ∈
      findTriangularPathMidEffected [pool2] (CalculateWethAndAllPools Pools).2 :=
    mem_findTriangularPathMidEffected_of _ _ pool3 pool2 pool1 T1 ((hweth _).2 (Or.inr rfl))
      (List.mem_singleton.2 rfl) ((hweth _).2 (Or.inl rfl)) a23 a12 a13 (ho3 ▸ hn3)
      ((hc1 T1).2 rfl)
  have hmidsub : ∀ path,
      path ∈ findTriangularPathMidEffected [pool2] (CalculateWethAndAllPools Pools).2 →
      path ∈ FindPaths Pools [pool2] := by
    intro path h
    rw [(FindPaths_spec Pools [pool2]).2 path]
    exact ⟨_, by simp [searchResults], h⟩
  have hall : ∀ path, path ∈ FindPaths Pools [pool2] →
      path = [pool1.Address, pool2.Address, pool3.Address] ∨
      path = [pool3.Address, pool2.Address, pool1.Address] := by
    intro path h
    rcases mem_FindPaths_cases Pools [pool2] path h with
      ⟨p1, p2, e, _, hw, hc, hm⟩ | ⟨p1, p2, p3, t, e, _, _, hne, hw, ht, hc, hm⟩
    · exfalso
      rcases hm with ⟨_, hp2⟩ | ⟨hp1, _⟩
      · rw [List.mem_singleton] at hp2
        exact hw2 (hp2 ▸ hasWETH_of_closesAt _ _ hc)
      · rw [List.mem_singleton] at hp1
        exact hw2 (hp1 ▸ hw)
    · rcases hm with ⟨hp1, _, _⟩ | ⟨hp1, hp2, hp3⟩ | ⟨_, _, hp3⟩
      · rw [List.mem_singleton] at hp1
        exact absurd (hp1 ▸ hw) hw2
      · rw [List.mem_singleton] at hp2
        subst hp2
        rcases (hweth p1).1 hp1 with rfl | rfl <;> rcases (hweth p3).1 hp3 with rfl | rfl
        · exact absurd rfl hne
        · exact Or.inl e
        · exact Or.inr e
        · exact absurd rfl hne
      · rw [List.mem_singleton] at hp3
        exact absurd (hp3 ▸ hasWETH_of_closesAt _ _ hc) hw2
  have hiff : ∀ path, path ∈ FindPaths Pools [pool2] ↔
      path = [pool1.Address, pool2.Address, pool3.Address] ∨
      path = [pool3.Address, pool2.Address, pool1.Address] := by
    intro path
    refine ⟨hall path, ?_⟩
    rintro (h | h)
    · exact h ▸ hmidsub _ hfwd
    · exact h ▸ hmidsub _ hbwd
  refine ⟨fun path => ⟨fun h => hall path (hmidsub path h), ?_⟩, hiff, ?_⟩
  · rintro (h | h)
    · exact h ▸ hfwd
    · exact h ▸ hbwd
  · have hne : [pool1.Address, pool2.Address, pool3.Address] ≠
        [pool3.Address, pool2.Address, pool1.Address] := by
      intro h
      exact a13 (List.head_eq_of_cons_eq h)
    have hperm : (FindPaths Pools [pool2]).Perm
        [[pool1.Address, pool2.Address, pool3.Address],
         [pool3.Address, pool2.Address, pool1.Address]] := by
      rw [List.perm_ext_iff_of_nodup (FindPaths_spec Pools [pool2]).1
        (by simp [hne])]
      intro path
      rw [hiff path]
      simp
    exact hperm.length_eq

/-- C11 (witness): the registry of scenario S4 with T1 = 11 and T2 = 12. -/
theorem C11_scenario_S4_two_directions_witness :
    (∀ path, path ∈ FindPaths registryS4 [pool2S4] ↔
      path = [pool1S4.Address, pool2S4.Address, pool3S4.Address] ∨
      path = [pool3S4.Address, pool2S4.Address, pool1S4.Address]) ∧
    (FindPaths registryS4 [pool2S4]).length = 2 :=
  (C11_scenario_S4_two_directions registryS4 pool1S4 pool2S4 pool3S4 11 12
    (by intro p; simp [registryS4]) ⟨rfl, rfl⟩ ⟨rfl, rfl⟩ ⟨rfl, rfl⟩ ⟨rfl, rfl, rfl⟩
    ⟨by decide, by decide, by decide⟩ ⟨by decide, by decide, by decide⟩).2

/-! ## C12: disabled pools and the path search -/

/-- C12 (failing input): pool 4 is emptied by a Sync in the batch.  `ResolveLogs`
disables it in the registry and returns its record in the affected list; the
path search run on that registry and that list, as `Run` does, still emits the
paths 1, 4 and 4, 1 through the disabled pool 4. -/
theorem C12_disabled_affected_pool_is_searched :
    factoryAddressMap 4 = false ∧
    (ResolveLogs noReserves registryTwoWeth batchDrain).1 =
      [{ pool4 with Reserve0 := 0, Reserve1 := 0, Enabled := false }] ∧
    mapGet (ResolveLogs noReserves registryTwoWeth batchDrain).2 4 =
      some { pool4 with Reserve0 := 0, Reserve1 := 0, Enabled := false } ∧
    FindPaths (ResolveLogs noReserves registryTwoWeth batchDrain).2
      (ResolveLogs noReserves registryTwoWeth batchDrain).1 = [[1, 4], [4, 1]] := by
  refine ⟨by decide, by decide, by decide, by decide⟩

/-! ## The profit sweep -/

/-- The sweep over well-formed quotes.  `amount n` and `final n` are the amount
and the final output of the probe at position `n` of the quote list.  The loop
returns; its result is the candidate it started from when no remaining probe
beats the profit held so far, and otherwise carries the first of the remaining
probes that attains their maximal profit. -/
theorem sweep_spec (outcomes : List (List Nat)) (amount : Nat → Int) (final : Nat → Nat) :
    ∀ (params : List QuoteParams) (i : Nat) (tx : ArbitrageTx),
    (∀ j, j < params.length →
      (∃ outcome, outcomes.get? (i + j) = some outcome ∧
        outcome.getLast? = some (final (i + j))) ∧
      (∃ q, params.get? j = some q ∧ q.Amount = amount (i + j))) →
    ∃ tx', sweep outcomes params i tx = some tx' ∧
      ((tx' = tx ∧ ∀ j, j < params.length → (final (i + j) : Int) - amount (i + j) ≤ tx.Profit) ∨
       (∃ k, k < params.length ∧
          tx' = { tx with Profit := (final (i + k) : Int) - amount (i + k)
                          AmountOut := some (final (i + k) : Int)
                          BorrowAmount := some (amount (i + k))
                          Valid := true } ∧
          tx.Profit < (final (i + k) : Int) - amount (i + k) ∧
          (∀ j, j < params.length →
            (final (i + j) : Int) - amount (i + j) ≤ (final (i + k) : Int) - amount (i + k)) ∧
          (∀ j, j < k →
            (final (i + j) : Int) - amount (i + j) < (final (i + k) : Int) - amount (i + k)))) := by
  intro params
  induction params with
  | nil =>
    intro i tx _
    exact ⟨tx, rfl, Or.inl ⟨rfl, fun j hj => absurd hj (Nat.not_lt_zero j)⟩⟩
  | cons param rest ih =>
    intro i tx hwf
    obtain ⟨⟨outcome, ho, hl⟩, ⟨q, hq, hqa⟩⟩ := hwf 0 (Nat.succ_pos _)
    simp only [List.get?_cons_zero, Option.some.injEq] at hq
    subst hq
    rw [Nat.add_zero] at ho hl hqa
    have hrest : ∀ j, j < rest.length →
        (∃ outcome, outcomes.get? (i + 1 + j) = some outcome ∧
          outcome.getLast? = some (final (i + 1 + j))) ∧
        (∃ q, rest.get? j = some q ∧ q.Amount = amount (i + 1 + j)) := by
      intro j hj
      have h := hwf (j + 1) (Nat.succ_lt_succ hj)
      have e : i + (j + 1) = i + 1 + j := by omega
      rw [e] at h
      simpa using h
    have hshift : ∀ j, i + (j + 1) = i + 1 + j := fun j => by omega
    unfold sweep
    simp only [ho, hl, hqa]
    by_cases hgt : (final i : Int) - amount i > tx.Profit
    · rw [if_pos hgt]
      obtain ⟨tx', hs, hcase⟩ := ih (i + 1)
        { tx with Profit := (final i : Int) - amount i, AmountOut := some (final i : Int),
                  BorrowAmount := some (amount i), Valid := true } hrest
      refine ⟨tx', hs, Or.inr ?_⟩
      rcases hcase with ⟨he, hle⟩ | ⟨k, hk, he, hlt, hmax, hfirst⟩
      · refine ⟨0, Nat.succ_pos _, by rw [Nat.add_zero]; exact he, by rw [Nat.add_zero]; exact hgt,
          ?_, fun j hj => absurd hj (Nat.not_lt_zero j)⟩
        intro j hj
        rw [Nat.add_zero]
        cases j with
        | zero => rw [Nat.add_zero]
        | succ j =>
          rw [hshift j]
          exact hle j (Nat.lt_of_succ_lt_succ hj)
      · refine ⟨k + 1, Nat.succ_lt_succ hk, by rw [hshift k]; exact he, ?_, ?_, ?_⟩
        · rw [hshift k]
          exact lt_trans hgt hlt
        · intro j hj
          rw [hshift k]
          cases j with
          | zero => rw [Nat.add_zero]; exact le_of_lt hlt
          | succ j =>
            rw [hshift j]
            exact hmax j (Nat.lt_of_succ_lt_succ hj)
        · intro j hj
          rw [hshift k]
          cases j with
          | zero => rw [Nat.add_zero]; exact hlt
          | succ j =>
            rw [hshift j]
            exact hfirst j (Nat.lt_of_succ_lt_succ hj)
    · rw [if_neg hgt]
      have hle0 : (final i : Int) - amount i ≤ tx.Profit := not_lt.1 hgt
      obtain ⟨tx', hs, hcase⟩ := ih (i + 1) tx hrest
      refine ⟨tx', hs, ?_⟩
      rcases hcase with ⟨he, hle⟩ | ⟨k, hk, he, hlt, hmax, hfirst⟩
      · refine Or.inl ⟨he, ?_⟩
        intro j hj
        cases j with
        | zero => rw [Nat.add_zero]; exact hle0
        | succ j =>
          rw [hshift j]
          exact hle j (Nat.lt_of_succ_lt_succ hj)
      · refine Or.inr ⟨k + 1, Nat.succ_lt_succ hk, by rw [hshift k]; exact he, ?_, ?_, ?_⟩
        · rw [hshift k]; exact hlt
        · intro j hj
          rw [hshift k]
          cases j with
          | zero => rw [Nat.add_zero]; exact le_of_lt (lt_of_le_of_lt hle0 hlt)
          | succ j =>
            rw [hshift j]
            exact hmax j (Nat.lt_of_succ_lt_succ hj)
        · intro j hj
          rw [hshift k]
          cases j with
          | zero => rw [Nat.add_zero]; exact lt_of_le_of_lt hle0 hlt
          | succ j =>
            rw [hshift j]
            exact hfirst j (Nat.lt_of_succ_lt_succ hj)

theorem buildQuoteParams_spec (Pools : PoolMap) (first : common.Address) (rest : Path)
    (pool0 : Pool) (h0 : mapGet Pools first = some pool0) :
    ∃ qs, buildQuoteParams Pools (first :: rest) = some qs ∧ qs.length = 20 ∧
      ∀ j : Nat, j < 20 → qs.get? j = some
        { Pools := pathAddresses Pools (first :: rest)
          Quoters := pathQuoters Pools (first :: rest)
          Amount := probeReserve pool0 * ((j : Int) + 1) / 100
          TokenIn := WETHAddress } := by
  refine ⟨(List.range' 1 20).map fun (i : Nat) =>
      { Pools := pathAddresses Pools (first :: rest)
        Quoters := pathQuoters Pools (first :: rest)
        Amount := probeReserve pool0 * (i : Int) / 100
        TokenIn := WETHAddress }, by simp only [buildQuoteParams, h0], by simp, ?_⟩
  intro j hj
  simp only [List.get?_eq_getElem?, List.getElem?_map, List.getElem?_range' _ _ hj,
    Option.map_some', Option.some.injEq, QuoteParams.mk.injEq, true_and, and_true]
  congr 2
  push_cast
  ring

/-! ## C13: the chosen probe -/

/-- C13 (counterexample): in scenario S4 every quote ends in 0, so every probe
has a negative profit.  The candidate has Profit 0 and no BorrowAmount and
AmountOut: it is not the tuple of any probe, in particular not of the probe of
maximal profit. -/
theorem C13_no_probe_is_chosen_when_none_is_profitable :
    calculateOutcomeForPath (fun _ => some (List.replicate 20 [0])) registryS4 [1, 2, 3] =
      some (initialTx registryS4 [1, 2, 3]) ∧
    (initialTx registryS4 [1, 2, 3]).Profit = 0 ∧
    (initialTx registryS4 [1, 2, 3]).BorrowAmount = none ∧
    (initialTx registryS4 [1, 2, 3]).AmountOut = none ∧
    (buildQuoteParams registryS4 [1, 2, 3]).map (fun qs => qs.map fun q => (0 : Int) - q.Amount) =
      some ((List.range' 1 20).map fun (i : Nat) => -(200000000000000000 * (i : Int))) := by
  refine ⟨by decide, rfl, rfl, rfl, by decide⟩

/-- C13 (amended): for every multiQuote result whose first 20 outcome lists are
non-empty, `calculateOutcomeForPath` returns a candidate.  Probe `k + 1`
(`k = 0..19`) has amount `reserve * (k + 1) / 100`, final output `final k` and
profit `final k - amount`.  If some probe has a profit above 0, the candidate
is valid and its BorrowAmount, AmountOut and Profit are those of the first probe
whose profit is the maximum over the 20 probes.  If no probe has a profit above
0, the candidate keeps Profit 0, is invalid, and has no BorrowAmount and
AmountOut.  For the profits -1, 0, 3, 7, 5, 2 and then -1 the chosen probe is
probe 4, with amount 4, final output 11 and profit 7. -/
theorem C13_sweep_keeps_first_positive_maximum (Pools : PoolMap) (first : common.Address)
    (rest : Path) (pool0 : Pool) (outcomes : List (List Nat)) (final : Nat → Nat)
    (h0 : mapGet Pools first = some pool0)
    (hout : ∀ k : Nat, k < 20 → ∃ outcome, outcomes.get? k = some outcome ∧
      outcome.getLast? = some (final k)) :
    (∃ tx, calculateOutcomeForPath (fun _ => some outcomes) Pools (first :: rest) = some tx ∧
      ((∃ k : Nat, k < 20 ∧ 0 < (final k : Int) - probeReserve pool0 * ((k : Int) + 1) / 100) →
        ∃ k : Nat, k < 20 ∧
          tx.BorrowAmount = some (probeReserve pool0 * ((k : Int) + 1) / 100) ∧
          tx.AmountOut = some (final k : Int) ∧
          tx.Profit = (final k : Int) - probeReserve pool0 * ((k : Int) + 1) / 100 ∧
          tx.Valid = true ∧
          (∀ j : Nat, j < 20 → (final j : Int) - probeReserve pool0 * ((j : Int) + 1) / 100 ≤
            (final k : Int) - probeReserve pool0 * ((k : Int) + 1) / 100) ∧
          (∀ j : Nat, j < k → (final j : Int) - probeReserve pool0 * ((j : Int) + 1) / 100 <
            (final k : Int) - probeReserve pool0 * ((k : Int) + 1) / 100)) ∧
      ((∀ k : Nat, k < 20 → (final k : Int) - probeReserve pool0 * ((k : Int) + 1) / 100 ≤ 0) →
        tx.Profit = 0 ∧ tx.Valid = false ∧ tx.BorrowAmount = none ∧ tx.AmountOut = none)) ∧
    (calculateOutcomeForPath (fun _ => some quotesS6) registryS6 [1, 2, 3]).map
        (fun tx => (tx.BorrowAmount, tx.AmountOut, tx.Profit, tx.Valid)) =
      some (some 4, some 11, 7, true) := by
  refine ⟨?_, by decide⟩
  obtain ⟨qs, hqs, hlen, hget⟩ := buildQuoteParams_spec Pools first rest pool0 h0
  have hwf : ∀ j, j < qs.length →
      (∃ outcome, outcomes.get? (0 + j) = some outcome ∧
        outcome.getLast? = some (final (0 + j))) ∧
      (∃ q, qs.get? j = some q ∧
        q.Amount = (fun n : Nat => probeReserve pool0 * ((n : Int) + 1) / 100) (0 + j)) := by
    intro j hj
    rw [hlen] at hj
    rw [Nat.zero_add]
    exact ⟨hout j hj, _, hget j hj, rfl⟩
  obtain ⟨tx, hs, hcase⟩ := sweep_spec outcomes
    (fun n : Nat => probeReserve pool0 * ((n : Int) + 1) / 100) final qs 0
    (initialTx Pools (first :: rest)) hwf
  simp only [Nat.zero_add, hlen] at hcase
  refine ⟨tx, by simp only [calculateOutcomeForPath, hqs, hs], ?_, ?_⟩
  · rintro ⟨k, hk, hpos⟩
    rcases hcase with ⟨_, hle⟩ | ⟨k', hk', he, _, hmax, hfirst⟩
    · exact absurd (hle k hk) (not_le.2 hpos)
    · exact ⟨k', hk', by rw [he], by rw [he], by rw [he], by rw [he], hmax, hfirst⟩
  · intro hall
    rcases hcase with ⟨he, _⟩ | ⟨k', hk', _, hlt, _, _⟩
    · rw [he]
      exact ⟨rfl, rfl, rfl, rfl⟩
    · exact absurd (hall k' hk') (not_le.2 hlt)

/-- C13 (witness): scenario S6. -/
theorem C13_sweep_keeps_first_positive_maximum_witness :
    mapGet registryS6 1 = some poolS6 ∧
    (∃ tx, calculateOutcomeForPath (fun _ => some quotesS6) registryS6 [1, 2, 3] = some tx ∧
      ((∃ k : Nat, k < 20 ∧ 0 < ((quotesS6.getD k []).getLastD 0 : Int) -
          probeReserve poolS6 * ((k : Int) + 1) / 100) →
        ∃ k : Nat, k < 20 ∧
          tx.BorrowAmount = some (probeReserve poolS6 * ((k : Int) + 1) / 100) ∧
          tx.AmountOut = some ((quotesS6.getD k []).getLastD 0 : Int) ∧
          tx.Profit = ((quotesS6.getD k []).getLastD 0 : Int) -
            probeReserve poolS6 * ((k : Int) + 1) / 100 ∧
          tx.Valid = true ∧
          (∀ j : Nat, j < 20 → ((quotesS6.getD j []).getLastD 0 : Int) -
              probeReserve poolS6 * ((j : Int) + 1) / 100 ≤
            ((quotesS6.getD k []).getLastD 0 : Int) -
              probeReserve poolS6 * ((k : Int) + 1) / 100) ∧
          (∀ j : Nat, j < k → ((quotesS6.getD j []).getLastD 0 : Int) -
              probeReserve poolS6 * ((j : Int) + 1) / 100 <
            ((quotesS6.getD k []).getLastD 0 : Int) -
              probeReserve poolS6 * ((k : Int) + 1) / 100)) ∧
      ((∀ k : Nat, k < 20 → ((quotesS6.getD k []).getLastD 0 : Int) -
          probeReserve poolS6 * ((k : Int) + 1) / 100 ≤ 0) →
        tx.Profit = 0 ∧ tx.Valid = false ∧ tx.BorrowAmount = none ∧ tx.AmountOut = none)) :=
  ⟨by decide,
    (C13_sweep_keeps_first_positive_maximum registryS6 1 [2, 3] poolS6 quotesS6
      (fun k => (quotesS6.getD k []).getLastD 0) (by decide) (by decide)).1⟩

/-! ## C14: validity of a candidate -/

/-- The sweep keeps "valid iff the profit is positive" and a profit that is not
negative. -/
theorem sweep_valid (outcomes : List (List Nat)) :
    ∀ (params : List QuoteParams) (i : Nat) (tx tx' : ArbitrageTx),
    sweep outcomes params i tx = some tx' →
    (tx.Valid = true ↔ 0 < tx.Profit) → 0 ≤ tx.Profit →
    (tx'.Valid = true ↔ 0 < tx'.Profit) ∧ 0 ≤ tx'.Profit := by
  intro params
  induction params with
  | nil =>
    intro i tx tx' h hv hp
    simp only [sweep, Option.some.injEq] at h
    subst h
    exact ⟨hv, hp⟩
  | cons param rest ih =>
    intro i tx tx' h hv hp
    unfold sweep at h
    cases ho : outcomes.get? i with
    | none => rw [ho] at h; cases h
    | some outcome =>
      cases hl : outcome.getLast? with
      | none => rw [ho] at h; dsimp only at h; rw [hl] at h; cases h
      | some lastOut =>
        rw [ho] at h
        dsimp only at h
        rw [hl] at h
        dsimp only at h
        split_ifs at h with hgt
        · refine ih (i + 1) _ tx' h ?_ ?_
          · exact ⟨fun _ => lt_of_le_of_lt hp hgt, fun _ => rfl⟩
          · exact le_of_lt (lt_of_le_of_lt hp hgt)
        · exact ih (i + 1) tx tx' h hv hp

/-- The sweep returns when every quote it reads exists and is not empty. -/
theorem sweep_returns (outcomes : List (List Nat)) :
    ∀ (params : List QuoteParams) (i : Nat) (tx : ArbitrageTx),
    (∀ j, j < params.length → ∃ outcome lastOut, outcomes.get? (i + j) = some outcome ∧
      outcome.getLast? = some lastOut) →
    ∃ tx', sweep outcomes params i tx = some tx' := by
  intro params
  induction params with
  | nil => intro i tx _; exact ⟨tx, rfl⟩
  | cons param rest ih =>
    intro i tx hwf
    obtain ⟨outcome, lastOut, ho, hl⟩ := hwf 0 (Nat.succ_pos _)
    rw [Nat.add_zero] at ho
    have hrest : ∀ j, j < rest.length → ∃ outcome lastOut,
        outcomes.get? (i + 1 + j) = some outcome ∧ outcome.getLast? = some lastOut := by
      intro j hj
      have h := hwf (j + 1) (Nat.succ_lt_succ hj)
      have e : i + (j + 1) = i + 1 + j := by omega
      rwa [e] at h
    unfold sweep
    rw [ho]
    dsimp only
    rw [hl]
    dsimp only
    split_ifs
    · exact ih (i + 1) _ hrest
    · exact ih (i + 1) tx hrest

/-- C14 (P10): whenever `calculateOutcomeForPath` produces a candidate, after a
successful or a failed multiQuote call, the candidate has Valid = true if and
only if its Profit is strictly greater than 0.  For a path whose first pool is
registered a candidate is produced when multiQuote fails, and it is invalid with
Profit 0; one is also produced when multiQuote returns at least 20 non-empty
outcome lists. -/
theorem C14_valid_iff_profit_positive
    (multiQuote : List QuoteParams → Option (List (List Nat))) (Pools : PoolMap) (path : Path) :
    (∀ tx, calculateOutcomeForPath multiQuote Pools path = some tx →
      (tx.Valid = true ↔ 0 < tx.Profit)) ∧
    (∀ (first : common.Address) (rest : Path) (pool0 : Pool),
      path = first :: rest → mapGet Pools first = some pool0 →
      ((∀ qs, buildQuoteParams Pools path = some qs → multiQuote qs = none) →
        ∃ tx, calculateOutcomeForPath multiQuote Pools path = some tx ∧
          tx.Valid = false ∧ tx.Profit = 0) ∧
      (∀ outcomes, (∀ qs, buildQuoteParams Pools path = some qs → multiQuote qs = some outcomes) →
        (∀ k : Nat, k < 20 → ∃ outcome lastOut, outcomes.get? k = some outcome ∧
          outcome.getLast? = some lastOut) →
        ∃ tx, calculateOutcomeForPath multiQuote Pools path = some tx)) := by
  refine ⟨?_, ?_⟩
  · intro tx h
    unfold calculateOutcomeForPath at h
    cases hq : buildQuoteParams Pools path with
    | none => simp [hq] at h
    | some qs =>
      cases hm : multiQuote qs with
      | none =>
        simp only [hq, hm, Option.some.injEq] at h
        subst h
        simp [initialTx]
      | some outcomes =>
        simp only [hq, hm] at h
        exact (sweep_valid outcomes qs 0 _ tx h (by simp [initialTx]) (by simp [initialTx])).1
  · intro first rest pool0 hpath h0
    subst hpath
    obtain ⟨qs, hqs, hlen, hget⟩ := buildQuoteParams_spec Pools first rest pool0 h0
    refine ⟨fun hf => ?_, fun outcomes hs hout => ?_⟩
    · refine ⟨initialTx Pools (first :: rest), ?_, rfl, rfl⟩
      simp only [calculateOutcomeForPath, hqs, hf qs hqs]
    · obtain ⟨tx, hs'⟩ := sweep_returns outcomes qs 0 (initialTx Pools (first :: rest))
        (by
          intro j hj
          rw [hlen] at hj
          rw [Nat.zero_add]
          exact hout j hj)
      exact ⟨tx, by simp only [calculateOutcomeForPath, hqs, hs qs hqs, hs']⟩

/-- C14 (instance): in scenario S4 a failing multiQuote call leaves the candidate
invalid with Profit 0, and the quotes of scenario S6 give a valid candidate. -/
theorem C14_valid_iff_profit_positive_witness :
    (∃ tx, calculateOutcomeForPath (fun _ => none) registryS4 [1, 2, 3] = some tx ∧
      tx.Valid = false ∧ tx.Profit = 0) ∧
    (∀ tx, calculateOutcomeForPath (fun _ => some quotesS6) registryS6 [1, 2, 3] = some tx →
      (tx.Valid = true ↔ 0 < tx.Profit)) :=
  ⟨((C14_valid_iff_profit_positive (fun _ => none) registryS4 [1, 2, 3]).2 1 [2, 3] pool1S4
      rfl (by decide)).1 (fun _ _ => rfl),
    (C14_valid_iff_profit_positive (fun _ => some quotesS6) registryS6 [1, 2, 3]).1⟩

/-! ## C15: the probe sizes -/

theorem pathAddresses_eq (Pools : PoolMap) (path : Path)
    (hkeys : ∀ a ∈ path, ∃ p, mapGet Pools a = some p ∧ p.Address = a) :
    pathAddresses Pools path = path := by
  simp only [pathAddresses, pathPools, List.map_map]
  conv_rhs => rw [← List.map_id path]
  apply List.map_congr_left
  intro a ha
  obtain ⟨p, hp, hpa⟩ := hkeys a ha
  simp [hp, hpa]

/-- C15: for a path of registered pools (each stored under its own address),
`calculateOutcomeForPath` builds exactly 20 quote parameters; the i-th one
(`i = k + 1`, `k = 0..19`, in increasing order) has TokenIn = WETH, Pools equal
to the addresses of the path in path order, and Amount = floor(R * i / 100),
where R is reserve1 of the first pool when its token1 is WETH and reserve0
otherwise, in particular when its token0 is WETH and its token1 is not. -/
theorem C15_probe_sizes (Pools : PoolMap) (first : common.Address) (rest : Path) (pool0 : Pool)
    (h0 : mapGet Pools first = some pool0)
    (hkeys : ∀ a ∈ first :: rest, ∃ p, mapGet Pools a = some p ∧ p.Address = a) :
    ∃ (qs : List QuoteParams) (R : Int),
      buildQuoteParams Pools (first :: rest) = some qs ∧ qs.length = 20 ∧
      (pool0.Token1 = WETHAddress → R = pool0.Reserve1) ∧
      (pool0.Token1 ≠ WETHAddress → R = pool0.Reserve0) ∧
      (pool0.Token0 = WETHAddress → pool0.Token0 ≠ pool0.Token1 → R = pool0.Reserve0) ∧
      ∀ k : Nat, k < 20 → ∃ q, qs.get? k = some q ∧
        q.TokenIn = WETHAddress ∧ q.Pools = first :: rest ∧
        q.Amount = R * ((k : Int) + 1) / 100 ∧
        100 * q.Amount ≤ R * ((k : Int) + 1) ∧ R * ((k : Int) + 1) < 100 * (q.Amount + 1) := by
  obtain ⟨qs, hqs, hlen, hget⟩ := buildQuoteParams_spec Pools first rest pool0 h0
  refine ⟨qs, probeReserve pool0, hqs, hlen, ?_, ?_, ?_, ?_⟩
  · intro h; simp [probeReserve, h]
  · intro h; simp [probeReserve, h]
  · intro h hne
    have : pool0.Token1 ≠ WETHAddress := fun h' => hne (h.trans h'.symm)
    simp [probeReserve, this]
  · intro k hk
    refine ⟨_, hget k hk, rfl, pathAddresses_eq Pools _ hkeys, rfl, ?_, ?_⟩
    · dsimp only
      generalize probeReserve pool0 * ((k : Int) + 1) = x
      omega
    · dsimp only
      generalize probeReserve pool0 * ((k : Int) + 1) = x
      omega

/-- C15 (witness): scenario S4, where the WETH reserve of pool 1 is 2 * 10^19 and
probe i borrows 2 * 10^17 * i. -/
theorem C15_probe_sizes_witness :
    mapGet registryS4 1 = some pool1S4 ∧
    (buildQuoteParams registryS4 [1, 2, 3]).map (fun qs => qs.map fun q => q.Amount) =
      some ((List.range' 1 20).map fun (i : Nat) => 200000000000000000 * (i : Int)) ∧
    ∃ (qs : List QuoteParams) (R : Int),
      buildQuoteParams registryS4 [1, 2, 3] = some qs ∧ qs.length = 20 ∧
      (pool1S4.Token1 = WETHAddress → R = pool1S4.Reserve1) ∧
      (pool1S4.Token1 ≠ WETHAddress → R = pool1S4.Reserve0) ∧
      (pool1S4.Token0 = WETHAddress → pool1S4.Token0 ≠ pool1S4.Token1 → R = pool1S4.Reserve0) ∧
      ∀ k : Nat, k < 20 → ∃ q, qs.get? k = some q ∧
        q.TokenIn = WETHAddress ∧ q.Pools = [1, 2, 3] ∧
        q.Amount = R * ((k : Int) + 1) / 100 ∧
        100 * q.Amount ≤ R * ((k : Int) + 1) ∧ R * ((k : Int) + 1) < 100 * (q.Amount + 1) :=
  ⟨by decide, by decide,
    C15_probe_sizes registryS4 1 [2, 3] pool1S4 (by decide) (by decide)⟩

/-! ## C16: the submission gate -/

/-- Overwriting the entry of an existing key keeps the keys. -/
theorem mapSet_keys_of_mem {β : Type} (m : List (common.Address × β)) (k : common.Address)
    (v w : β) (h : mapGet m k = some w) : (mapSet m k v).map Prod.fst = m.map Prod.fst := by
  induction m with
  | nil => simp [mapGet] at h
  | cons kv rest ih =>
    obtain ⟨k', v'⟩ := kv
    by_cases hk : k' = k
    · simp [mapSet, hk]
    · simp only [mapGet, hk, if_false] at h
      simp [mapSet, hk, ih h]

/-- C17 (S5): a submission error message that contains "Malicious Pool: " and
ends with the 42-character form of the address of a registered pool (stored
under its own address).  The handler in `Run` returns; afterwards the registry
entry at that address has Enabled = false and its tokens, address, reserves, fee
and type as before, every other entry is unchanged, and the keys are the same. -/
theorem C17_malicious_pool_is_disabled (HexToAddress : List Char → common.Address)
    (Pools : PoolMap) (before suffix : List Char) (a : common.Address) (p : Pool)
    (hmark : maliciousMarker <:+: before ++ suffix) (hlen : suffix.length = 42)
    (hhex : HexToAddress suffix = a) (hp : mapGet Pools a = some p) (hkey : p.Address = a) :
    ∃ Pools', handleSendError HexToAddress Pools (before ++ suffix) = some Pools' ∧
      mapGet Pools' a = some { p with Enabled := false } ∧
      (∀ b, b ≠ a → mapGet Pools' b = mapGet Pools b) ∧
      Pools'.map Prod.fst = Pools.map Prod.fst := by
  have hdrop : (before ++ suffix).drop ((before ++ suffix).length - 42) = suffix := by
    rw [List.length_append, hlen, Nat.add_sub_cancel, List.drop_left]
  have hnot : ¬ (before ++ suffix).length < 42 := by
    rw [List.length_append, hlen]; omega
  refine ⟨mapSet Pools a { p with Enabled := false }, ?_, mapGet_mapSet_self _ _ _,
    fun b hb => mapGet_mapSet_ne _ _ _ _ hb, mapSet_keys_of_mem _ _ _ _ hp⟩
  simp only [handleSendError, if_pos hmark, if_neg hnot, hdrop, hhex, hp, Option.getD_some, hkey]

/-- C17 (witness): the node rejects with a message naming pool 4 of the registry
with pools 1 and 4. -/
theorem C17_malicious_pool_is_disabled_witness :
    maliciousMarker <:+: rejectionPrefix ++ addressFourHex ∧ addressFourHex.length = 42 ∧
    readHex addressFourHex = 4 ∧ mapGet registryTwoWeth 4 = some pool4 ∧
    ∃ Pools', handleSendError readHex registryTwoWeth (rejectionPrefix ++ addressFourHex) =
        some Pools' ∧
      mapGet Pools' 4 = some { pool4 with Enabled := false } ∧
      (∀ b, b ≠ 4 → mapGet Pools' b = mapGet registryTwoWeth b) ∧
      Pools'.map Prod.fst = registryTwoWeth.map Prod.fst :=
  ⟨by decide, by decide, by decide, by decide,
    C17_malicious_pool_is_disabled readHex registryTwoWeth rejectionPrefix addressFourHex 4
      pool4 (by decide) (by decide) (by decide) (by decide) rfl⟩

/-! ## The windows of the bootstrap scan -/

theorem addU64_eq (i k : Nat) (h : i + k < 2 ^ 64) : addU64 i k = i + k :=
  Nat.mod_eq_of_lt h

/-- The window loop below the wrap-around of `uint64`: with enough fuel it
returns, and its windows tile the blocks from `i` to the head. -/
theorem windowLoop_spec (H : Nat) (hH : H + 10000 ≤ 2 ^ 64) :
    ∀ (fuel i : Nat), H - i < fuel →
    ∃ ws, windowLoop H fuel i = some ws ∧
      ws.length = (H - i + 9999) / 10000 ∧
      (∀ w ∈ ws, i ≤ w.1 ∧ w.1 ≤ w.2 ∧ w.2 ≤ H ∧ w.2 - w.1 + 1 ≤ 10001) ∧
      ws.Pairwise (fun w w' => w.2 < w'.1) ∧
      ws.Chain' (fun w w' => w'.1 = w.2 + 1) ∧
      (i < H → ws.head?.map Prod.fst = some i ∧ ws.getLast?.map Prod.snd = some H) ∧
      (∀ b, (∃ w ∈ ws, w.1 ≤ b ∧ b ≤ w.2) ↔ (i ≤ b ∧ b ≤ H ∧ i < H)) := by
  intro fuel
  induction fuel with
  | zero => intro i h; exact absurd h (Nat.not_lt_zero _)
  | succ fuel ih =>
    intro i hfuel
    by_cases hi : i < H
    · have hadd : addU64 i 10000 = i + 10000 := addU64_eq _ _ (by omega)
      have hadd' : addU64 i 9999 = i + 9999 := addU64_eq _ _ (by omega)
      obtain ⟨ws', hws', hlen, hmem, hpw, hch, hends, hun⟩ := ih (i + 10000) (by omega)
      by_cases hfull : i + 10000 < H
      · refine ⟨(i, i + 9999) :: ws', ?_, ?_, ?_, ?_, ?_, ?_, ?_⟩
        · simp only [windowLoop, if_pos hi, hadd, hadd', if_pos hfull, hws', Option.map_some']
        · rw [List.length_cons, hlen]; omega
        · intro w hw
          rcases List.mem_cons.1 hw with rfl | hw
          · dsimp only; omega
          · have := hmem w hw; omega
        · rw [List.pairwise_cons]
          refine ⟨fun w' hw' => ?_, hpw⟩
          have := hmem w' hw'
          dsimp only; omega
        · rw [List.chain'_cons']
          refine ⟨fun y hy => ?_, hch⟩
          have h1 := (hends hfull).1
          cases ws' with
          | nil => simp at hy
          | cons w0 rest =>
            simp only [List.head?_cons, Option.mem_def, Option.some.injEq] at hy
            simp only [List.head?_cons, Option.map_some', Option.some.injEq] at h1
            subst hy
            dsimp only; omega
        · intro _
          refine ⟨rfl, ?_⟩
          have h2 := (hends hfull).2
          cases ws' with
          | nil => simp at h2
          | cons w0 rest => rw [List.getLast?_cons_cons]; exact h2
        · intro b
          constructor
          · rintro ⟨w, hw, h1, h2⟩
            rcases List.mem_cons.1 hw with rfl | hw
            · dsimp only at h1 h2; omega
            · have := (hun b).1 ⟨w, hw, h1, h2⟩; omega
          · rintro ⟨h1, h2, _⟩
            by_cases hb : b < i + 10000
            · exact ⟨(i, i + 9999), List.mem_cons_self _ _, h1, by dsimp only; omega⟩
            · obtain ⟨w, hw, h3, h4⟩ := (hun b).2 ⟨by omega, h2, hfull⟩
              exact ⟨w, List.mem_cons_of_mem _ hw, h3, h4⟩
      · have hnil : ws' = [] := by
          apply List.eq_nil_of_length_eq_zero
          rw [hlen]; omega
        subst hnil
        refine ⟨[(i, H)], ?_, ?_, ?_, ?_, ?_, ?_, ?_⟩
        · simp only [windowLoop, if_pos hi, hadd, if_neg hfull, hws', Option.map_some']
        · rw [List.length_singleton]; omega
        · intro w hw
          rw [List.mem_singleton] at hw
          subst hw
          dsimp only; omega
        · exact List.pairwise_singleton _ _
        · exact List.chain'_singleton _
        · intro _; exact ⟨rfl, rfl⟩
        · intro b
          constructor
          · rintro ⟨w, hw, h1, h2⟩
            rw [List.mem_singleton] at hw
            subst hw
            dsimp only at h1 h2; omega
          · rintro ⟨h1, h2, _⟩
            exact ⟨(i, H), List.mem_singleton.2 rfl, h1, h2⟩
    · refine ⟨[], ?_, ?_, ?_, List.Pairwise.nil, List.chain'_nil, fun h => absurd h hi, ?_⟩
      · simp only [windowLoop, if_neg hi]
      · rw [List.length_nil]; omega
      · intro w hw; exact absurd hw (List.not_mem_nil w)
      · intro b
        constructor
        · rintro ⟨w, hw, _⟩; exact absurd hw (List.not_mem_nil w)
        · rintro ⟨_, _, h⟩; exact absurd h hi

/-! ## C18, C19: the bootstrap windows -/

/-- C18 (counterexample): with watermark and head both at block 21000000 the
loop hands out no window, so block 21000000 of the interval [W, H] is in none. -/
theorem C18_no_window_when_watermark_is_head :
    scanWindows 21000000 21000000 = some [] ∧
    (21000000 ≤ 21000000 ∧
      ∀ ws, scanWindows 21000000 21000000 = some ws →
        ¬ ∃ w ∈ ws, w.1 ≤ 21000000 ∧ 21000000 ≤ w.2) := by
  refine ⟨by decide, le_refl _, ?_⟩
  intro ws h
  have h' : scanWindows 21000000 21000000 = some [] := by decide
  rw [h'] at h
  cases h
  rintro ⟨w, hw, _⟩
  exact absurd hw (List.not_mem_nil w)

/-- C18 (amended): for every watermark W and head H with W < H (and H at most
2^64 - 10000, so that the `uint64` additions do not wrap), the loop of
`GetV2Pools` / `GetV3Pools` returns windows that start at W, end at H, are
contiguous (each starts at the previous end + 1), are pairwise disjoint, and
whose union is exactly the block interval [W, H].  With W = H it returns no
window. -/
theorem C18_windows_partition_scan_range (W H : Nat) (hlt : W < H)
    (hH : H + 10000 ≤ 2 ^ 64) :
    (∃ ws, scanWindows H W = some ws ∧
      ws.head?.map Prod.fst = some W ∧ ws.getLast?.map Prod.snd = some H ∧
      (∀ w ∈ ws, w.1 ≤ w.2) ∧
      ws.Chain' (fun w w' => w'.1 = w.2 + 1) ∧
      ws.Pairwise (fun w w' => w.2 < w'.1) ∧
      (∀ b, (∃ w ∈ ws, w.1 ≤ b ∧ b ≤ w.2) ↔ (W ≤ b ∧ b ≤ H))) ∧
    scanWindows H H = some [] := by
  obtain ⟨ws, hws, _, hmem, hpw, hch, hends, hun⟩ :=
    windowLoop_spec H hH (H - W + 1) W (Nat.lt_succ_self _)
  refine ⟨⟨ws, hws, (hends hlt).1, (hends hlt).2, fun w hw => (hmem w hw).2.1, hch, hpw, ?_⟩, ?_⟩
  · intro b
    rw [hun b]
    exact ⟨fun h => ⟨h.1, h.2.1⟩, fun h => ⟨h.1, h.2, hlt⟩⟩
  · simp [scanWindows, windowLoop]

/-- C18 (witness): the scan from block 3 to block 25000. -/
theorem C18_windows_partition_scan_range_witness :
    3 < 25000 ∧ scanWindows 25000 3 = some [(3, 10002), (10003, 20002), (20003, 25000)] ∧
    (∃ ws, scanWindows 25000 3 = some ws ∧
      ws.head?.map Prod.fst = some 3 ∧ ws.getLast?.map Prod.snd = some 25000 ∧
      (∀ w ∈ ws, w.1 ≤ w.2) ∧
      ws.Chain' (fun w w' => w'.1 = w.2 + 1) ∧
      ws.Pairwise (fun w w' => w.2 < w'.1) ∧
      (∀ b, (∃ w ∈ ws, w.1 ≤ b ∧ b ≤ w.2) ↔ (3 ≤ b ∧ b ≤ 25000))) :=
  ⟨by decide, by decide,
    (C18_windows_partition_scan_range 3 25000 (by decide) (by norm_num)).1⟩

/-- C19 (failing input): when the head is a whole number of 10,000-block steps
above the watermark, the last window has 10,001 blocks.  From the initial
deployment block 10000835 to head 10010835 the scan is the single window
[10000835, 10010835]; from 3 to 20003 the windows are [3, 10002] and
[10003, 20003]. -/
theorem C19_last_window_has_10001_blocks :
    scanWindows 10010835 10000835 = some [(10000835, 10010835)] ∧
    10010835 - 10000835 + 1 = 10001 ∧
    scanWindows 20003 3 = some [(3, 10002), (10003, 20003)] ∧
    20003 - 10003 + 1 = 10001 := by
  refine ⟨by decide, by decide, by decide, by decide⟩

/-! ## C20: the watermark -/

theorem mapAll_returns {α β : Type} (f : α → Option β) (l : List α)
    (h : ∀ a ∈ l, ∃ b, f a = some b) : ∃ bs, mapAll f l = some bs := by
  induction l with
  | nil => exact ⟨[], rfl⟩
  | cons a rest ih =>
    obtain ⟨b, hb⟩ := h a (List.mem_cons_self _ _)
    obtain ⟨bs, hbs⟩ := ih fun x hx => h x (List.mem_cons_of_mem _ hx)
    exact ⟨b :: bs, by simp only [mapAll, hb, hbs, Option.map_some']⟩

/-- Below the wrap-around of `uint64`, a scan whose filter calls succeed returns. -/
theorem GetV2Pools_returns
    (F : Nat → Nat → Option (List (common.Address × common.Address × common.Address)))
    (hF : ∀ s e, ∃ evs, F s e = some evs) (H W : Nat) (hH : H + 10000 ≤ 2 ^ 64) :
    ∃ pools, GetV2Pools F H W = some pools := by
  obtain ⟨ws, hws, _⟩ := windowLoop_spec H hH (H - W + 1) W (Nat.lt_succ_self _)
  obtain ⟨bs, hbs⟩ := mapAll_returns (fun w : Nat × Nat => getV2Pool F w.1 w.2) ws
    (by
      intro w _
      obtain ⟨evs, he⟩ := hF w.1 w.2
      exact ⟨_, by simp only [getV2Pool, he, Option.map_some']; rfl⟩)
  exact ⟨bs.flatten, by
    unfold GetV2Pools scanWindows
    rw [hws]
    simp only [hbs, Option.map_some']⟩

theorem GetV3Pools_returns
    (F : Nat → Nat → Option (List (common.Address × common.Address × Nat × common.Address)))
    (hF : ∀ s e, ∃ evs, F s e = some evs) (H W : Nat) (hH : H + 10000 ≤ 2 ^ 64) :
    ∃ pools, GetV3Pools F H W = some pools := by
  obtain ⟨ws, hws, _⟩ := windowLoop_spec H hH (H - W + 1) W (Nat.lt_succ_self _)
  obtain ⟨bs, hbs⟩ := mapAll_returns (fun w : Nat × Nat => getV3Pool F w.1 w.2) ws
    (by
      intro w _
      obtain ⟨evs, he⟩ := hF w.1 w.2
      exact ⟨_, by simp only [getV3Pool, he, Option.map_some']; rfl⟩)
  exact ⟨bs.flatten, by
    unfold GetV3Pools scanWindows
    rw [hws]
    simp only [hbs, Option.map_some']⟩

/-- C20 (counterexample): the watermark is 21000000 and the node answers block
20999999.  After the block handler, and after `InitializePools`, LastSeenBlock is
20999999, less than before. -/
theorem C20_watermark_follows_a_lagging_node :
    (handleHeader (some 20999999) (fun _ _ => some []) noReserves
      { Pools := [], LastSeenBlock := 21000000 }).1.LastSeenBlock = 20999999 ∧
    (InitializePools none (some 20999999) (fun _ _ => some []) (fun _ _ => some [])
      { Pools := [], LastSeenBlock := 21000000 }) =
      some ({ Pools := [], LastSeenBlock := 20999999 }, some []) ∧
    20999999 < 21000000 := by
  refine ⟨by decide, by decide, by decide⟩

/-- C20 (amended): the watermark is assigned the block number the node returned.
A block-handling pass of `Run` that fetches its logs leaves LastSeenBlock equal to
that number, and a pass that returns an error leaves it as it was.  An
`InitializePools` call that returns its pools leaves LastSeenBlock equal to that
number, and one that returns an error leaves the value `ReadState` produced (the
one of the state file when it was read, else the one before).  So the watermark
after a successful step is greater than or equal to the one before exactly when
the node's block number is.  Below the `uint64` wrap-around `InitializePools`
returns whenever the filter calls succeed. -/
theorem C20_watermark_is_the_node_block_number
    (file : Option (Option (PoolMap × Nat))) (blockNumber : Option Nat)
    (FilterPairCreated : Nat → Nat → Option (List (common.Address × common.Address × common.Address)))
    (FilterPoolCreated :
      Nat → Nat → Option (List (common.Address × common.Address × Nat × common.Address)))
    (FilterLogs : Int → List common.Address → Option (List Log))
    (getReserves : ReserveParams → Option (Nat × Nat)) (c : ClientState) :
    ((∀ eff, (handleHeader blockNumber FilterLogs getReserves c).2 = some eff →
        ∃ n, blockNumber = some n ∧
          (handleHeader blockNumber FilterLogs getReserves c).1.LastSeenBlock = n ∧
          (c.LastSeenBlock ≤
              (handleHeader blockNumber FilterLogs getReserves c).1.LastSeenBlock ↔
            c.LastSeenBlock ≤ n)) ∧
      ((handleHeader blockNumber FilterLogs getReserves c).2 = none →
        (handleHeader blockNumber FilterLogs getReserves c).1 = c)) ∧
    (∀ c' r, InitializePools file blockNumber FilterPairCreated FilterPoolCreated c =
        some (c', r) →
      (∀ newPools, r = some newPools →
        ∃ n, blockNumber = some n ∧ c'.LastSeenBlock = n ∧
          (c.LastSeenBlock ≤ c'.LastSeenBlock ↔ c.LastSeenBlock ≤ n)) ∧
      (r = none → c' = (ReadState file c).1)) ∧
    (∀ n, blockNumber = some n → n + 10000 ≤ 2 ^ 64 →
      (∀ s e, ∃ evs, FilterPairCreated s e = some evs) →
      (∀ s e, ∃ evs, FilterPoolCreated s e = some evs) →
      ∃ c' r, InitializePools file blockNumber FilterPairCreated FilterPoolCreated c =
        some (c', r)) := by
  refine ⟨⟨?_, ?_⟩, ?_, ?_⟩
  · intro eff h
    unfold handleHeader at h ⊢
    cases blockNumber with
    | none => simp at h
    | some n =>
      dsimp only at h ⊢
      cases hf : fetchLogs FilterLogs (int64OfUint64 c.LastSeenBlock)
          (batches 100000 (CalculateActivePoolAddresses c.Pools)) with
      | none => rw [hf] at h; simp at h
      | some logs => exact ⟨n, rfl, rfl, Iff.rfl⟩
  · intro h
    unfold handleHeader at h ⊢
    cases blockNumber with
    | none => rfl
    | some n =>
      dsimp only at h ⊢
      cases hf : fetchLogs FilterLogs (int64OfUint64 c.LastSeenBlock)
          (batches 100000 (CalculateActivePoolAddresses c.Pools)) with
      | none => rfl
      | some logs => rw [hf] at h; simp at h
  · intro c' r h
    unfold InitializePools at h
    rcases hrs : ReadState file c with ⟨c₁, flag⟩
    rw [hrs] at h
    cases flag with
    | false =>
      simp only [Option.some.injEq, Prod.mk.injEq] at h
      obtain ⟨rfl, rfl⟩ := h
      exact ⟨fun _ hn => (by cases hn), fun _ => rfl⟩
    | true =>
      dsimp only at h
      cases blockNumber with
      | none =>
        simp only [Option.some.injEq, Prod.mk.injEq] at h
        obtain ⟨rfl, rfl⟩ := h
        exact ⟨fun _ hn => (by cases hn), fun _ => rfl⟩
      | some n =>
        dsimp only at h
        cases h3 : GetV3Pools FilterPoolCreated n c₁.LastSeenBlock with
        | none => rw [h3] at h; simp at h
        | some v3 =>
          cases h2 : GetV2Pools FilterPairCreated n c₁.LastSeenBlock with
          | none => rw [h3, h2] at h; simp at h
          | some v2 =>
            rw [h3, h2] at h
            simp only [Option.some.injEq, Prod.mk.injEq] at h
            obtain ⟨rfl, rfl⟩ := h
            exact ⟨fun _ _ => ⟨n, rfl, rfl, Iff.rfl⟩, fun hn => by cases hn⟩
  · intro n hn hH h2 h3
    subst hn
    unfold InitializePools
    rcases hrs : ReadState file c with ⟨c₁, flag⟩
    cases flag with
    | false => exact ⟨_, _, rfl⟩
    | true =>
      dsimp only
      obtain ⟨v3, hv3⟩ := GetV3Pools_returns FilterPoolCreated h3 n c₁.LastSeenBlock hH
      obtain ⟨v2, hv2⟩ := GetV2Pools_returns FilterPairCreated h2 n c₁.LastSeenBlock hH
      rw [hv3, hv2]
      exact ⟨_, _, rfl⟩

/-- C20 (instance): the watermark is 100 and the node answers block 250. -/
theorem C20_watermark_is_the_node_block_number_witness :
    (handleHeader (some 250) (fun _ _ => some []) noReserves
      { Pools := [], LastSeenBlock := 100 }).2 = some [] ∧
    ∃ n, some 250 = some n ∧
      (handleHeader (some 250) (fun _ _ => some []) noReserves
        { Pools := [], LastSeenBlock := 100 }).1.LastSeenBlock = n ∧
      (100 ≤ (handleHeader (some 250) (fun _ _ => some []) noReserves
          { Pools := [], LastSeenBlock := 100 }).1.LastSeenBlock ↔ 100 ≤ n) :=
  ⟨by decide,
    (C20_watermark_is_the_node_block_number none (some 250) (fun _ _ => some [])
      (fun _ _ => some []) (fun _ _ => some []) noReserves
      { Pools := [], LastSeenBlock := 100 }).1.1 [] (by decide)⟩

/-! ## The factory branch and the event blocks, in closed form -/

/-- The factory branch inserts the pool a creation event describes, with the
reserves read from the contract, when the read succeeds and the address has no
entry; in every other case it leaves the registry as it is. -/
theorem applyFactoryLog_eq (getReserves : ReserveParams → Option (Nat × Nat))
    (Pools : PoolMap) (l : Log) :
    applyFactoryLog getReserves Pools l =
      match createdPool l.event with
      | none => Pools
      | some pool =>
        match getReserves (reserveParamsOf pool), mapGet Pools pool.Address with
        | some (r0, r1), none =>
          mapSet Pools pool.Address
            (disableOnRead { pool with Reserve0 := (r0 : Int), Reserve1 := (r1 : Int) })
        | _, _ => Pools := by
  obtain ⟨a, i, ev⟩ := l
  cases ev with
  | PairCreated t0 t1 pair =>
    simp only [applyFactoryLog, ParsePoolCreated, pairCreatedBlock, ParsePairCreated, createdPool,
      reserveParamsOf]
    cases hr : getReserves { Token0 := t0, Token1 := t1, Pool := pair } with
    | none => rfl
    | some r =>
      obtain ⟨r0, r1⟩ := r
      cases hg : mapGet Pools pair <;> rfl
  | PoolCreated t0 t1 fee pool =>
    simp only [applyFactoryLog, ParsePoolCreated, pairCreatedBlock, ParsePairCreated, createdPool,
      reserveParamsOf]
    cases hr : getReserves { Token0 := t0, Token1 := t1, Pool := pool } with
    | none => rfl
    | some r =>
      obtain ⟨r0, r1⟩ := r
      cases hg : mapGet Pools pool <;> rfl
  | _ => rfl

theorem eventReserves_sameStatic (p q : Pool) (ev : Event) (h : eventReserves p ev = some q) :
    sameStatic p q := by
  cases ev <;> simp only [eventReserves, Option.some.injEq] at h <;>
    first
    | (subst h; exact ⟨rfl, rfl, rfl, rfl, rfl⟩)
    | exact absurd h (by simp)

theorem eventReserves_isSome (p : Pool) (ev : Event) :
    (eventReserves p ev).isSome = isPoolEvent ev := by
  cases ev <;> rfl

theorem sameStatic_disableOnLog (p q : Pool) (h : sameStatic p q) :
    sameStatic p (disableOnLog q) := by
  obtain ⟨e0, e1, e2, _, _, e5, e6⟩ := disableOnLog_fields q
  obtain ⟨h1, h2, h3, h4, h5⟩ := h
  exact ⟨e2.trans h1, e0.trans h2, e1.trans h3, e5.trans h4, e6.trans h5⟩

/-! ## Association lists: entries and keys -/

theorem mem_of_mapGet {β : Type} (m : List (common.Address × β)) (k : common.Address) (v : β)
    (h : mapGet m k = some v) : (k, v) ∈ m := by
  induction m with
  | nil => simp [mapGet] at h
  | cons kv rest ih =>
    obtain ⟨k', v'⟩ := kv
    by_cases hk : k' = k
    · simp only [mapGet, hk, if_true, Option.some.injEq] at h
      simp [hk, h]
    · simp only [mapGet, hk, if_false] at h
      exact List.mem_cons_of_mem _ (ih h)

theorem mapGet_isSome_of_mem {β : Type} (m : List (common.Address × β)) (k : common.Address)
    (v : β) (h : (k, v) ∈ m) : (mapGet m k).isSome = true := by
  induction m with
  | nil => simp at h
  | cons kv rest ih =>
    obtain ⟨k', v'⟩ := kv
    by_cases hk : k' = k
    · simp [mapGet, hk]
    · simp only [mapGet, hk, if_false]
      apply ih
      rcases List.mem_cons.1 h with h | h
      · exact absurd (congrArg Prod.fst h).symm hk
      · exact h

theorem mem_mapSet {β : Type} (m : List (common.Address × β)) (k : common.Address) (v : β)
    (kv : common.Address × β) (h : kv ∈ mapSet m k v) : kv ∈ m ∨ kv = (k, v) := by
  induction m with
  | nil => simpa [mapSet] using h
  | cons kv' rest ih =>
    obtain ⟨k', v'⟩ := kv'
    by_cases hk : k' = k
    · simp only [mapSet, hk, if_true, List.mem_cons] at h
      rcases h with h | h
      · exact Or.inr h
      · exact Or.inl (List.mem_cons_of_mem _ h)
    · simp only [mapSet, hk, if_false, List.mem_cons] at h
      rcases h with h | h
      · exact Or.inl (h ▸ List.mem_cons_self _ _)
      · rcases ih h with h | h
        · exact Or.inl (List.mem_cons_of_mem _ h)
        · exact Or.inr h

theorem mapGet_isSome_mapSet {β : Type} (m : List (common.Address × β)) (k k' : common.Address)
    (v : β) (h : (mapGet m k').isSome = true) : (mapGet (mapSet m k v) k').isSome = true := by
  by_cases hk : k' = k
  · rw [hk, mapGet_mapSet_self]; rfl
  · rwa [mapGet_mapSet_ne _ _ _ _ hk]

/-- Assigning to a key that has no entry appends the entry. -/
theorem mapSet_of_none {β : Type} (m : List (common.Address × β)) (k : common.Address) (v : β)
    (h : mapGet m k = none) : mapSet m k v = m ++ [(k, v)] := by
  induction m with
  | nil => rfl
  | cons kv rest ih =>
    obtain ⟨k', v'⟩ := kv
    by_cases hk : k' = k
    · simp [mapGet, hk] at h
    · simp only [mapGet, hk, if_false] at h
      simp [mapSet, hk, ih h]

theorem mapGet_eq_none_iff {β : Type} (m : List (common.Address × β)) (k : common.Address) :
    mapGet m k = none ↔ k ∉ m.map Prod.fst := by
  induction m with
  | nil => simp [mapGet]
  | cons kv rest ih =>
    obtain ⟨k', v'⟩ := kv
    by_cases hk : k' = k
    · simp [mapGet, hk]
    · simp only [mapGet, hk, if_false, ih, List.map_cons, List.mem_cons, not_or]
      exact ⟨fun h => ⟨fun e => hk e.symm, h⟩, fun h => h.2⟩

/-! ## C23: creation events -/

/-- A log of a factory address takes the factory branch, which touches neither
`logMap` nor `processedPools`. -/
theorem resolveLog_factory (getReserves : ReserveParams → Option (Nat × Nat))
    (st : ResolveState) (l : Log) (hf : factoryAddressMap l.Address = true) :
    resolveLog getReserves st l =
      { st with Pools := applyFactoryLog getReserves st.Pools l } := by
  simp [resolveLog, hf]

/-- What the factory branch does with a creation event. -/
theorem applyFactoryLog_created (getReserves : ReserveParams → Option (Nat × Nat))
    (Pools : PoolMap) (l : Log) (pool : Pool) (hev : createdPool l.event = some pool) :
    (applyFactoryLog getReserves Pools l ≠ Pools ↔
      mapGet Pools pool.Address = none ∧ (getReserves (reserveParamsOf pool)).isSome = true) ∧
    (∀ r0 r1 : Nat, mapGet Pools pool.Address = none →
      getReserves (reserveParamsOf pool) = some (r0, r1) →
      applyFactoryLog getReserves Pools l = Pools ++ [(pool.Address,
        disableOnRead { pool with Reserve0 := (r0 : Int), Reserve1 := (r1 : Int) })]) := by
  rw [applyFactoryLog_eq, hev]
  dsimp only
  cases hr : getReserves (reserveParamsOf pool) with
  | none => simp
  | some r =>
    obtain ⟨r0, r1⟩ := r
    cases hg : mapGet Pools pool.Address with
    | some old => simp
    | none =>
      dsimp only
      rw [mapSet_of_none _ _ _ hg]
      refine ⟨⟨fun _ => ⟨rfl, rfl⟩, fun _ h => ?_⟩, fun a b _ hab => ?_⟩
      · have := congrArg List.length h
        simp at this
      · cases hab
        rfl

/-- C23: a PairCreated or PoolCreated log of a factory address, in any loop state
of `ResolveLogs` (`kind` is "v2" with no fee for PairCreated, "v3" with the
event's fee for PoolCreated).  The registry changes if and only if the created
address has no entry and the single-pool `getReserves` call succeeds.  In that
case exactly one entry is added, at the created address: it has the event's
tokens, that address, the kind, the fee and the reserves the call returned, and
its flag is set iff no reserve is zero and every WETH side reaches 10^19; every
other lookup is as before.  In every case `processedPools` and `logMap` are
untouched, and `ResolveLogs` on the batch of this one log leaves the same
registry and returns no affected pool. -/
theorem C23_creation_events_insert_only_new_pools
    (getReserves : ReserveParams → Option (Nat × Nat)) (st : ResolveState)
    (factory : common.Address) (i : Nat) (token0 token1 created : common.Address) (fee : Nat)
    (ev : Event) (kind : String) (feeField : Option Int)
    (hf : factoryAddressMap factory = true)
    (hev : (ev = .PairCreated token0 token1 created ∧ kind = "v2" ∧ feeField = none) ∨
      (ev = .PoolCreated token0 token1 fee created ∧ kind = "v3" ∧
        feeField = some (fee : Int))) :
    ((resolveLog getReserves st ⟨factory, i, ev⟩).Pools ≠ st.Pools ↔
      mapGet st.Pools created = none ∧
      (getReserves { Token0 := token0, Token1 := token1, Pool := created }).isSome = true) ∧
    (∀ r0 r1 : Nat, mapGet st.Pools created = none →
      getReserves { Token0 := token0, Token1 := token1, Pool := created } = some (r0, r1) →
      ∃ p : Pool,
        (resolveLog getReserves st ⟨factory, i, ev⟩).Pools = st.Pools ++ [(created, p)] ∧
        p.Address = created ∧ p.Token0 = token0 ∧ p.Token1 = token1 ∧ p.PoolType = kind ∧
        p.Fee = feeField ∧ p.Reserve0 = (r0 : Int) ∧ p.Reserve1 = (r1 : Int) ∧
        (p.Enabled = true ↔ r0 ≠ 0 ∧ r1 ≠ 0 ∧
          (token0 = WETHAddress → (10 : Int) ^ 19 ≤ r0) ∧
          (token1 = WETHAddress → (10 : Int) ^ 19 ≤ r1)) ∧
        mapGet (resolveLog getReserves st ⟨factory, i, ev⟩).Pools created = some p ∧
        ∀ b, b ≠ created →
          mapGet (resolveLog getReserves st ⟨factory, i, ev⟩).Pools b = mapGet st.Pools b) ∧
    (resolveLog getReserves st ⟨factory, i, ev⟩).processedPools = st.processedPools ∧
    (resolveLog getReserves st ⟨factory, i, ev⟩).logMap = st.logMap ∧
    ResolveLogs getReserves st.Pools [⟨factory, i, ev⟩] =
      ([], (resolveLog getReserves st ⟨factory, i, ev⟩).Pools) := by
  have hstep := resolveLog_factory getReserves st ⟨factory, i, ev⟩ hf
  have hinit := resolveLog_factory getReserves (resolveInit st.Pools) ⟨factory, i, ev⟩ hf
  obtain ⟨pool, hpool, ha, ht0, ht1, hk, hfee, hen⟩ : ∃ pool : Pool,
      createdPool ev = some pool ∧ pool.Address = created ∧ pool.Token0 = token0 ∧
      pool.Token1 = token1 ∧ pool.PoolType = kind ∧ pool.Fee = feeField ∧
      pool.Enabled = true := by
    rcases hev with ⟨rfl, rfl, rfl⟩ | ⟨rfl, rfl, rfl⟩
    · exact ⟨_, rfl, rfl, rfl, rfl, rfl, rfl, rfl⟩
    · exact ⟨_, rfl, rfl, rfl, rfl, rfl, rfl, rfl⟩
  clear hev
  subst ha
  have hparam : reserveParamsOf pool =
      { Token0 := token0, Token1 := token1, Pool := pool.Address } := by
    simp [reserveParamsOf, ht0, ht1]
  obtain ⟨hchg, hadd⟩ := applyFactoryLog_created getReserves st.Pools ⟨factory, i, ev⟩ pool hpool
  rw [hparam] at hchg hadd
  have hl : wethReserveLimit = 10 ^ 19 := by norm_num [wethReserveLimit]
  refine ⟨by rw [hstep]; exact hchg, fun r0 r1 hnone hres => ?_, by rw [hstep], by rw [hstep], ?_⟩
  · have hP := hadd r0 r1 hnone hres
    obtain ⟨e0, e1, e2, e3, e4, e5, e6⟩ :=
      disableOnRead_fields { pool with Reserve0 := (r0 : Int), Reserve1 := (r1 : Int) }
    refine ⟨disableOnRead { pool with Reserve0 := (r0 : Int), Reserve1 := (r1 : Int) },
      by rw [hstep]; exact hP, e2, e0.trans ht0, e1.trans ht1, e6.trans hk,
      e5.trans hfee, e3, e4, ?_, ?_, ?_⟩
    · rw [disableOnRead_enabled, hl]
      simp only [hen, ht0, ht1, true_and, ne_eq, Nat.cast_eq_zero]
    · rw [hstep]
      dsimp only
      rw [hP, ← mapSet_of_none _ _ _ hnone, mapGet_mapSet_self]
    · intro b hb
      rw [hstep]
      dsimp only
      rw [hP, ← mapSet_of_none _ _ _ hnone, mapGet_mapSet_ne _ _ _ _ hb]
  · have hres : ResolveLogs getReserves st.Pools [⟨factory, i, ev⟩] =
        (((resolveLog getReserves (resolveInit st.Pools) ⟨factory, i, ev⟩).processedPools).map
            Prod.snd,
          (resolveLog getReserves (resolveInit st.Pools) ⟨factory, i, ev⟩).Pools) := rfl
    rw [hres, hinit, hstep]
    rfl

/-- C23 (instance): the V2 factory announces the pair 50 of tokens 7 and 8; the
contract reports reserves (30, 40) and the registry of scenario S4 has no entry
at 50. -/
theorem C23_creation_events_insert_only_new_pools_witness :
    factoryAddressMap PoolFactoryV2 = true ∧
    mapGet registryS4 50 = none ∧
    ∃ p : Pool,
      (resolveLog (fun _ => some (30, 40)) (resolveInit registryS4)
        ⟨PoolFactoryV2, 0, .PairCreated 7 8 50⟩).Pools = registryS4 ++ [(50, p)] ∧
      p.Address = 50 ∧ p.Token0 = 7 ∧ p.Token1 = 8 ∧ p.PoolType = "v2" ∧
      p.Fee = none ∧ p.Reserve0 = ((30 : Nat) : Int) ∧ p.Reserve1 = ((40 : Nat) : Int) ∧
      (p.Enabled = true ↔ (30 : Nat) ≠ 0 ∧ (40 : Nat) ≠ 0 ∧
        ((7 : common.Address) = WETHAddress → (10 : Int) ^ 19 ≤ ((30 : Nat) : Int)) ∧
        ((8 : common.Address) = WETHAddress → (10 : Int) ^ 19 ≤ ((40 : Nat) : Int))) ∧
      mapGet (resolveLog (fun _ => some (30, 40)) (resolveInit registryS4)
        ⟨PoolFactoryV2, 0, .PairCreated 7 8 50⟩).Pools 50 = some p ∧
      ∀ b, b ≠ 50 →
        mapGet (resolveLog (fun _ => some (30, 40)) (resolveInit registryS4)
          ⟨PoolFactoryV2, 0, .PairCreated 7 8 50⟩).Pools b = mapGet (resolveInit registryS4).Pools b :=
  ⟨by decide, by decide,
    (C23_creation_events_insert_only_new_pools (fun _ => some (30, 40)) (resolveInit registryS4)
      PoolFactoryV2 0 7 8 50 0 (.PairCreated 7 8 50) "v2" none (by decide)
      (Or.inl ⟨rfl, rfl, rfl⟩)).2.1 30 40 (by decide) rfl⟩

/-! ## C29: the frame of ResolveLogs -/

theorem sameStatic_trans (p q r : Pool) (h₁ : sameStatic p q) (h₂ : sameStatic q r) :
    sameStatic p r :=
  ⟨h₂.1.trans h₁.1, h₂.2.1.trans h₁.2.1, h₂.2.2.1.trans h₁.2.2.1,
    h₂.2.2.2.1.trans h₁.2.2.2.1, h₂.2.2.2.2.trans h₁.2.2.2.2⟩

/-- One loop iteration keeps every entry of the registry, changes at most the
reserves and the flag of the entry at the address of the log, and leaves every
other entry as it is. -/
theorem resolveLog_frame (getReserves : ReserveParams → Option (Nat × Nat))
    (st : ResolveState) (l : Log) (a : common.Address) (p : Pool)
    (hp : mapGet st.Pools a = some p) :
    ∃ p', mapGet (resolveLog getReserves st l).Pools a = some p' ∧ sameStatic p p' ∧
      (l.Address ≠ a → p' = p) := by
  rcases resolveLog_cases getReserves st l with
    ⟨hP, _⟩ | ⟨p0, q, hp0, hq, hP, _⟩ | ⟨k, q, r0, r1, hk, hP, _⟩
  · rw [hP]
    exact ⟨p, hp, ⟨rfl, rfl, rfl, rfl, rfl⟩, fun _ => rfl⟩
  · rw [hP]
    by_cases ha : a = l.Address
    · subst ha
      rw [hp] at hp0
      cases hp0
      exact ⟨_, mapGet_mapSet_self _ _ _,
        sameStatic_disableOnLog _ _ (eventReserves_sameStatic _ _ _ hq),
        fun h => absurd rfl h⟩
    · rw [mapGet_mapSet_ne _ _ _ _ ha]
      exact ⟨p, hp, ⟨rfl, rfl, rfl, rfl, rfl⟩, fun _ => rfl⟩
  · rw [hP]
    have ha : a ≠ k := by
      intro h; rw [h, hk] at hp; cases hp
    rw [mapGet_mapSet_ne _ _ _ _ ha]
    exact ⟨p, hp, ⟨rfl, rfl, rfl, rfl, rfl⟩, fun _ => rfl⟩

theorem resolveFrom_frame (getReserves : ReserveParams → Option (Nat × Nat))
    (logs : List Log) (a : common.Address) : ∀ (st : ResolveState) (p : Pool),
    mapGet st.Pools a = some p →
    ∃ p', mapGet (resolveFrom getReserves st logs).Pools a = some p' ∧ sameStatic p p' ∧
      ((∀ l ∈ logs, l.Address ≠ a) → p' = p) := by
  induction logs with
  | nil => intro st p hp; exact ⟨p, hp, ⟨rfl, rfl, rfl, rfl, rfl⟩, fun _ => rfl⟩
  | cons l rest ih =>
    intro st p hp
    simp only [resolveFrom, List.foldl_cons] at ih ⊢
    obtain ⟨q, hq, hs, hne⟩ := resolveLog_frame getReserves st l a p hp
    obtain ⟨p', hp', hs', hne'⟩ := ih (resolveLog getReserves st l) q hq
    refine ⟨p', hp', sameStatic_trans _ _ _ hs hs', fun h => ?_⟩
    rw [hne' (fun l' hl' => h l' (List.mem_cons_of_mem _ hl')),
      hne (h l (List.mem_cons_self _ _))]

/-- C29: the frame of `ResolveLogs`.  Every address that is a registry key before
the call is a key after it, and the pool stored there has the same Address,
Token0, Token1, Fee and Type as before: at most Reserve0, Reserve1 and Enabled
differ.  When no log of the batch has that address, the pool is the same record
as before. -/
theorem C29_resolveLogs_frame (getReserves : ReserveParams → Option (Nat × Nat))
    (Pools : PoolMap) (logs : List Log) (a : common.Address) (p : Pool)
    (hp : mapGet Pools a = some p) :
    ∃ p', mapGet (ResolveLogs getReserves Pools logs).2 a = some p' ∧
      p'.Address = p.Address ∧ p'.Token0 = p.Token0 ∧ p'.Token1 = p.Token1 ∧
      p'.Fee = p.Fee ∧ p'.PoolType = p.PoolType ∧
      ((∀ l ∈ logs, l.Address ≠ a) → p' = p) := by
  obtain ⟨p', hp', hs, hne⟩ := resolveFrom_frame getReserves logs a (resolveInit Pools) p hp
  exact ⟨p', hp', hs.1, hs.2.1, hs.2.2.1, hs.2.2.2.1, hs.2.2.2.2, hne⟩

/-- C29 (instance): the registry of pools 1 and 4 and the batch that empties pool
4.  Pool 1 has no log and is unchanged; pool 4 keeps its tokens, fee and type. -/
theorem C29_resolveLogs_frame_witness :
    mapGet registryTwoWeth 4 = some pool4 ∧
    (∃ p', mapGet (ResolveLogs noReserves registryTwoWeth batchDrain).2 4 = some p' ∧
      p'.Address = pool4.Address ∧ p'.Token0 = pool4.Token0 ∧ p'.Token1 = pool4.Token1 ∧
      p'.Fee = pool4.Fee ∧ p'.PoolType = pool4.PoolType ∧
      ((∀ l ∈ batchDrain, l.Address ≠ 4) → p' = pool4)) ∧
    mapGet (ResolveLogs noReserves registryTwoWeth batchDrain).2 4 =
      some { pool4 with Reserve0 := 0, Reserve1 := 0, Enabled := false } ∧
    mapGet (ResolveLogs noReserves registryTwoWeth batchDrain).2 1 = some pool1S4 :=
  ⟨by decide,
    C29_resolveLogs_frame noReserves registryTwoWeth batchDrain 4 pool4 (by decide),
    by decide, by decide⟩

/-! ## C24: the batching loops -/

theorem batchLoop_of_le {α : Type} (batchSize : Nat) (xs : List α) (fuel i : Nat)
    (h : xs.length ≤ i) : batchLoop batchSize xs fuel i = [] := by
  cases fuel with
  | zero => rfl
  | succ fuel => simp [batchLoop, Nat.not_lt.2 h]

theorem mem_dropLast_cons {α : Type} (x s : α) (l : List α) (h : s ∈ (x :: l).dropLast) :
    s = x ∨ s ∈ l.dropLast := by
  cases l with
  | nil => simp at h
  | cons y l =>
    rw [List.dropLast_cons₂, List.mem_cons] at h
    exact h

/-- The batching loop with a positive batch size and fuel for every remaining
element: it ends by its own test, and its slices chunk the rest of the list. -/
theorem batchLoop_spec {α : Type} (batchSize : Nat) (hb : 0 < batchSize) (xs : List α) :
    ∀ fuel i : Nat, xs.length - i ≤ fuel →
      (batchLoop batchSize xs fuel i).flatten = xs.drop i ∧
      (∀ s ∈ batchLoop batchSize xs fuel i, s ≠ [] ∧ s.length ≤ batchSize) ∧
      ∀ s ∈ (batchLoop batchSize xs fuel i).dropLast, s.length = batchSize := by
  intro fuel
  induction fuel with
  | zero =>
    intro i hi
    have : xs.length ≤ i := by omega
    simp [batchLoop, List.drop_eq_nil_of_le this]
  | succ fuel ih =>
    intro i hi
    by_cases hlt : i < xs.length
    · by_cases hfull : i + batchSize < xs.length
      · obtain ⟨h₁, h₂, h₃⟩ := ih (i + batchSize) (by omega)
        have hlen : ((xs.drop i).take batchSize).length = batchSize := by
          rw [List.length_take, List.length_drop]; omega
        simp only [batchLoop, if_pos hlt, if_pos hfull]
        refine ⟨?_, ?_, ?_⟩
        · rw [List.flatten_cons, h₁, ← List.drop_drop, List.take_append_drop]
        · intro s hs
          rcases List.mem_cons.1 hs with rfl | hs
          · refine ⟨fun h => ?_, le_of_eq hlen⟩
            rw [h] at hlen
            simp at hlen
            omega
          · exact h₂ s hs
        · intro s hs
          rcases mem_dropLast_cons _ _ _ hs with rfl | hs
          · exact hlen
          · exact h₃ s hs
      · have hrest : batchLoop batchSize xs fuel (i + batchSize) = [] :=
          batchLoop_of_le batchSize xs fuel _ (by omega)
        simp only [batchLoop, if_pos hlt, if_neg hfull, hrest]
        refine ⟨by simp, ?_, by simp⟩
        intro s hs
        rw [List.mem_singleton] at hs
        subst hs
        refine ⟨fun h => ?_, by rw [List.length_drop]; omega⟩
        have := congrArg List.length h
        rw [List.length_drop] at this
        simp at this
        omega
    · have : xs.length ≤ i := by omega
      simp [batchLoop, hlt, List.drop_eq_nil_of_le this]

/-- More fuel than the number of remaining elements changes nothing. -/
theorem batchLoop_fuel {α : Type} (batchSize : Nat) (hb : 0 < batchSize) (xs : List α) :
    ∀ fuel fuel' i : Nat, xs.length - i ≤ fuel → xs.length - i ≤ fuel' →
      batchLoop batchSize xs fuel i = batchLoop batchSize xs fuel' i := by
  intro fuel
  induction fuel with
  | zero =>
    intro fuel' i hi _
    rw [batchLoop_of_le batchSize xs 0 i (by omega),
      batchLoop_of_le batchSize xs fuel' i (by omega)]
  | succ fuel ih =>
    intro fuel' i hi hi'
    by_cases hlt : i < xs.length
    · cases fuel' with
      | zero => omega
      | succ fuel' =>
        simp only [batchLoop, if_pos hlt]
        rw [ih fuel' (i + batchSize) (by omega) (by omega)]
    · rw [batchLoop_of_le batchSize xs _ i (by omega),
        batchLoop_of_le batchSize xs fuel' i (by omega)]

theorem batches_isChunking {α : Type} (batchSize : Nat) (hb : 0 < batchSize) (xs : List α) :
    isChunking batchSize xs (batches batchSize xs) := by
  have h := batchLoop_spec batchSize hb xs xs.length 0 (by omega)
  rw [List.drop_zero] at h
  exact h

/-- C24: the batching loop `for i := 0; i < len(xs); i += batchSize` with the
slices `xs[i:i+batchSize]` / `xs[i:]`, for the batch size 2,000 of `SetReserves`
and the batch size 100,000 of `Run` (and for every positive batch size).  The
loop ends (any fuel of at least `len(xs)` iterations gives the same slices), and
the slices are a chunking of the input: their concatenation in order is the
input list, every slice is non-empty and has at most `batchSize` elements, and
every slice but the last has exactly `batchSize` elements.  The empty list gives
no slice.  For instance five elements in batches of 2 give slices of 2, 2 and 1
elements, and four elements give two slices of 2. -/
theorem C24_batches_are_a_faithful_chunking {α : Type} (xs : List α) :
    (isChunking 2000 xs (batches 2000 xs) ∧ isChunking 100000 xs (batches 100000 xs)) ∧
    (batches 2000 ([] : List α) = [] ∧ batches 100000 ([] : List α) = []) ∧
    (∀ fuel : Nat, xs.length ≤ fuel →
      batchLoop 2000 xs fuel 0 = batches 2000 xs ∧
      batchLoop 100000 xs fuel 0 = batches 100000 xs) ∧
    (∀ size : Nat, isChunking (size + 1) xs (batches (size + 1) xs)) ∧
    (batches 2 [10, 11, 12, 13, 14] = [[10, 11], [12, 13], [14]] ∧
      batches 2 [10, 11, 12, 13] = [[10, 11], [12, 13]]) := by
  refine ⟨⟨batches_isChunking 2000 (by norm_num) xs, batches_isChunking 100000 (by norm_num) xs⟩,
    ⟨rfl, rfl⟩, fun fuel hf => ⟨?_, ?_⟩, fun size => batches_isChunking _ (Nat.succ_pos _) xs,
    ⟨by decide, by decide⟩⟩
  · exact batchLoop_fuel 2000 (by norm_num) xs fuel xs.length 0 (by omega) (by omega)
  · exact batchLoop_fuel 100000 (by norm_num) xs fuel xs.length 0 (by omega) (by omega)

/-! ## C25: the token chain of a path -/

theorem tokenPair_otherTokenVal (p : Pool) (h : hasWETH p) :
    tokenPair p WETHAddress (otherTokenVal p) ∧
    (p.Token0 ≠ p.Token1 → otherTokenVal p ≠ WETHAddress) := by
  unfold hasWETH at h
  unfold tokenPair otherTokenVal
  dsimp only
  by_cases h1 : p.Token1 = WETHAddress
  · rw [if_pos h1]
    exact ⟨Or.inr ⟨rfl, h1⟩, fun hne e => hne (e.trans h1.symm)⟩
  · have h0 : p.Token0 = WETHAddress := h.resolve_right h1
    rw [if_neg h1, if_pos h0]
    exact ⟨Or.inl ⟨h0, rfl⟩, fun _ => h1⟩

theorem tokenPair_closesAt (p : Pool) (t : common.Address) (h : closesAt p t = true) :
    tokenPair p t WETHAddress ∧ (p.Token0 ≠ p.Token1 → t ≠ WETHAddress) := by
  simp only [closesAt, decide_eq_true_eq] at h
  rcases h with ⟨h1, h0⟩ | ⟨h0, h1⟩
  · exact ⟨Or.inl ⟨h0, h1⟩, fun hne e => hne ((h0.trans e).trans h1.symm)⟩
  · exact ⟨Or.inr ⟨h0, h1⟩, fun hne e => hne (h0.trans (h1.trans e).symm)⟩

theorem tokenPair_nextToken (p : Pool) (t1 t2 : common.Address)
    (h : nextToken p t1 = some t2) : tokenPair p t1 t2 := by
  unfold nextToken at h
  dsimp only at h
  by_cases h1 : p.Token1 = t1
  · rw [if_pos h1] at h
    exact Or.inr ⟨Option.some.inj h, h1⟩
  · rw [if_neg h1] at h
    by_cases h0 : p.Token0 = t1
    · rw [if_pos h0] at h
      exact Or.inl ⟨h0, Option.some.inj h⟩
    · rw [if_neg h0] at h
      cases h

/-- C25: every path returned by `FindPaths` is a token-connected WETH cycle.  The
path is the address tuple of two or three pool records, each an affected pool or
an enabled registry pool.  For two records (p1, p2) there is a token T such that
the token pair of p1 is WETH and T and the token pair of p2 is T and WETH.  For
three records (p1, p2, p3) there are tokens T1 and T2 such that the pairs are
WETH and T1, then T1 and T2, then T2 and WETH.  T (or T1) differs from WETH when
p1 has token0 different from token1, and T2 differs from WETH when p3 has; so
all of them differ from WETH when every pool has two different tokens. -/
theorem C25_paths_are_token_connected_weth_cycles (Pools : PoolMap)
    (effectedPools : List Pool) (path : Path) (h : path ∈ FindPaths Pools effectedPools) :
    (∃ (p1 p2 : Pool) (T : common.Address), path = [p1.Address, p2.Address] ∧
      (∀ p ∈ [p1, p2], p ∈ effectedPools ∨ p ∈ (CalculateWethAndAllPools Pools).1) ∧
      tokenPair p1 WETHAddress T ∧ tokenPair p2 T WETHAddress ∧
      (p1.Token0 ≠ p1.Token1 → T ≠ WETHAddress)) ∨
    (∃ (p1 p2 p3 : Pool) (T1 T2 : common.Address),
      path = [p1.Address, p2.Address, p3.Address] ∧
      (∀ p ∈ [p1, p2, p3], p ∈ effectedPools ∨ p ∈ (CalculateWethAndAllPools Pools).1) ∧
      tokenPair p1 WETHAddress T1 ∧ tokenPair p2 T1 T2 ∧ tokenPair p3 T2 WETHAddress ∧
      (p1.Token0 ≠ p1.Token1 → T1 ≠ WETHAddress) ∧
      (p3.Token0 ≠ p3.Token1 → T2 ≠ WETHAddress)) := by
  have hall : ∀ p, p ∈ (CalculateWethAndAllPools Pools).2 →
      p ∈ effectedPools ∨ p ∈ (CalculateWethAndAllPools Pools).1 :=
    fun p hp => Or.inr (mem_wethPools Pools p hp).1
  rcases mem_FindPaths_cases Pools effectedPools path h with
    ⟨p1, p2, e, _, hw, hc, hm⟩ | ⟨p1, p2, p3, t2, e, _, _, _, hw, ht, hc, hm⟩
  · refine Or.inl ⟨p1, p2, otherTokenVal p1, e, ?_, (tokenPair_otherTokenVal p1 hw).1,
      (tokenPair_closesAt p2 _ hc).1, (tokenPair_otherTokenVal p1 hw).2⟩
    intro p hp
    simp only [List.mem_cons, List.mem_singleton, List.not_mem_nil, or_false] at hp
    rcases hm with ⟨h1, h2⟩ | ⟨h1, h2⟩
    · rcases hp with rfl | rfl
      · exact hall _ h1
      · exact Or.inl h2
    · rcases hp with rfl | rfl
      · exact Or.inl h1
      · exact hall _ h2
  · refine Or.inr ⟨p1, p2, p3, otherTokenVal p1, t2, e, ?_, (tokenPair_otherTokenVal p1 hw).1,
      tokenPair_nextToken p2 _ _ ht, (tokenPair_closesAt p3 _ hc).1,
      (tokenPair_otherTokenVal p1 hw).2, (tokenPair_closesAt p3 _ hc).2⟩
    intro p hp
    simp only [List.mem_cons, List.mem_singleton, List.not_mem_nil, or_false] at hp
    rcases hm with ⟨h1, h2, h3⟩ | ⟨h1, h2, h3⟩ | ⟨h1, h2, h3⟩
    · rcases hp with rfl | rfl | rfl
      · exact Or.inl h1
      · exact Or.inr h2
      · exact hall _ h3
    · rcases hp with rfl | rfl | rfl
      · exact hall _ h1
      · exact Or.inl h2
      · exact hall _ h3
    · rcases hp with rfl | rfl | rfl
      · exact hall _ h1
      · exact Or.inr h2
      · exact Or.inl h3

/-- C25 (instance): scenario S4 with pool 2 affected; the path of pools 1, 2, 3
runs WETH, T1 = 11, T2 = 12, WETH. -/
theorem C25_paths_are_token_connected_weth_cycles_witness :
    [1, 2, 3] ∈ FindPaths registryS4 [pool2S4] ∧
    (tokenPair pool1S4 WETHAddress 11 ∧ tokenPair pool2S4 11 12 ∧
      tokenPair pool3S4 12 WETHAddress) ∧
    ((∃ (p1 p2 : Pool) (T : common.Address), [1, 2, 3] = [p1.Address, p2.Address] ∧
      (∀ p ∈ [p1, p2], p ∈ [pool2S4] ∨ p ∈ (CalculateWethAndAllPools registryS4).1) ∧
      tokenPair p1 WETHAddress T ∧ tokenPair p2 T WETHAddress ∧
      (p1.Token0 ≠ p1.Token1 → T ≠ WETHAddress)) ∨
    (∃ (p1 p2 p3 : Pool) (T1 T2 : common.Address),
      [1, 2, 3] = [p1.Address, p2.Address, p3.Address] ∧
      (∀ p ∈ [p1, p2, p3], p ∈ [pool2S4] ∨ p ∈ (CalculateWethAndAllPools registryS4).1) ∧
      tokenPair p1 WETHAddress T1 ∧ tokenPair p2 T1 T2 ∧ tokenPair p3 T2 WETHAddress ∧
      (p1.Token0 ≠ p1.Token1 → T1 ≠ WETHAddress) ∧
      (p3.Token0 ≠ p3.Token1 → T2 ≠ WETHAddress))) :=
  ⟨by decide, ⟨Or.inl ⟨rfl, rfl⟩, Or.inl ⟨rfl, rfl⟩, Or.inr ⟨rfl, rfl⟩⟩,
    C25_paths_are_token_connected_weth_cycles registryS4 [pool2S4] [1, 2, 3] (by decide)⟩

/-! ## C26: the quoter and type tags -/

/-- The sweep writes the amounts, the profit and the validity flag only. -/
theorem sweep_types (outcomes : List (List Nat)) (params : List QuoteParams) :
    ∀ (i : Nat) (tx tx' : ArbitrageTx), sweep outcomes params i tx = some tx' →
      tx'.Types = tx.Types ∧ tx'.Pools = tx.Pools ∧ tx'.Path = tx.Path := by
  induction params with
  | nil =>
    intro i tx tx' h
    simp only [sweep, Option.some.injEq] at h
    subst h
    exact ⟨rfl, rfl, rfl⟩
  | cons param rest ih =>
    intro i tx tx' h
    unfold sweep at h
    cases ho : outcomes.get? i with
    | none => rw [ho] at h; cases h
    | some outcome =>
      rw [ho] at h
      dsimp only at h
      cases hl : outcome.getLast? with
      | none => rw [hl] at h; cases h
      | some lastOut =>
        rw [hl] at h
        dsimp only at h
        split_ifs at h
        · have h' := ih _ _ _ h
          exact h'
        · exact ih _ _ _ h

theorem pathTags_get (Pools : PoolMap) (path : Path) (k : Nat) (a : common.Address)
    (h : path.get? k = some a) :
    (pathQuoters Pools path).get? k =
      some (if ((mapGet Pools a).getD zeroPool).PoolType = "v2" then AddressZero
        else UniswapV3Quoter) ∧
    (pathTypes Pools path).get? k =
      some (if ((mapGet Pools a).getD zeroPool).PoolType = "v2" then 0 else 1) := by
  simp only [List.get?_eq_getElem?] at h
  simp [pathQuoters, pathTypes, pathPools, h]

/-- C26 (counterexample): in the registry of scenario S4 the path 1, 9, 3 has no
entry at address 9.  The record read there is the zero value of `Pool`, whose
kind is "" and not "v3", and yet quoters[1] is the V3 quoter address, not the
zero address, and types[1] is 1, not 0.  The same happens for a registered pool
whose kind is neither "v2" nor "v3": the zero pool at key 0 that the handler of
a rejected submission adds to the registry of pools 1 and 4. -/
theorem C26_pool_that_is_not_v3_gets_the_v3_tags :
    (mapGet registryS4 9 = none ∧ zeroPool.PoolType ≠ "v3" ∧
      pathQuoters registryS4 [1, 9, 3] = [AddressZero, UniswapV3Quoter, AddressZero] ∧
      pathTypes registryS4 [1, 9, 3] = [0, 1, 0] ∧ UniswapV3Quoter ≠ AddressZero) ∧
    (handleSendError readHex registryTwoWeth (rejectionPrefix ++ addressNineHex) =
        some (registryTwoWeth ++ [(0, zeroPool)]) ∧
      mapGet (registryTwoWeth ++ [(0, zeroPool)]) 0 = some zeroPool ∧
      pathQuoters (registryTwoWeth ++ [(0, zeroPool)]) [1, 0] =
        [AddressZero, UniswapV3Quoter] ∧
      pathTypes (registryTwoWeth ++ [(0, zeroPool)]) [1, 0] = [0, 1]) :=
  ⟨⟨by decide, by decide, by decide, by decide, by decide⟩,
    ⟨by decide, by decide, by decide, by decide⟩⟩

/-- C26 (amended): the slices `quoters` and `types` that
`calculateOutcomeForPath` builds have the length of the path, and at every
position `k` they follow the test `pool.Type == "v2"` on the record read at
`path[k]` (the zero value of `Pool` when the address has no registry entry):
quoters[k] is the zero address and types[k] is 0 if the kind is "v2"; otherwise
quoters[k] is the V3 quoter address and types[k] is 1.  So a registered pool of
kind "v3" gets the V3 quoter and 1, a registered pool of kind "v2" gets the zero
address and 0, and any other kind and any address without an entry get the tags
of "v3".  These slices are the `Quoters` of every quote request and the `Types`
of the candidate the function produces.  In scenario S4 the path of pools 1, 2,
3 (kinds v2, v3, v2) has the quoters zero, V3 quoter, zero in each of its 20
requests, and the candidate has the types 0, 1, 0, whether `multiQuote` fails or
answers. -/
theorem C26_tags_are_zero_for_v2_and_v3_otherwise
    (multiQuote : List QuoteParams → Option (List (List Nat))) (Pools : PoolMap) (path : Path) :
    ((pathQuoters Pools path).length = path.length ∧
      (pathTypes Pools path).length = path.length) ∧
    (∀ (k : Nat) (a : common.Address), path.get? k = some a →
      (pathQuoters Pools path).get? k =
        some (if ((mapGet Pools a).getD zeroPool).PoolType = "v2" then AddressZero
          else UniswapV3Quoter) ∧
      (pathTypes Pools path).get? k =
        some (if ((mapGet Pools a).getD zeroPool).PoolType = "v2" then 0 else 1)) ∧
    (∀ (k : Nat) (a : common.Address) (pool : Pool),
      path.get? k = some a → mapGet Pools a = some pool →
      (pool.PoolType = "v3" → (pathQuoters Pools path).get? k = some UniswapV3Quoter ∧
        (pathTypes Pools path).get? k = some 1) ∧
      (pool.PoolType = "v2" → (pathQuoters Pools path).get? k = some AddressZero ∧
        (pathTypes Pools path).get? k = some 0) ∧
      (pool.PoolType ≠ "v2" → (pathQuoters Pools path).get? k = some UniswapV3Quoter ∧
        (pathTypes Pools path).get? k = some 1)) ∧
    (∀ (k : Nat) (a : common.Address), path.get? k = some a → mapGet Pools a = none →
      (pathQuoters Pools path).get? k = some UniswapV3Quoter ∧
      (pathTypes Pools path).get? k = some 1) ∧
    (∀ qs, buildQuoteParams Pools path = some qs →
      ∀ q ∈ qs, q.Quoters = pathQuoters Pools path) ∧
    (∀ tx, calculateOutcomeForPath multiQuote Pools path = some tx →
      tx.Types = pathTypes Pools path) ∧
    (pathQuoters registryS4 [1, 2, 3] = [AddressZero, UniswapV3Quoter, AddressZero] ∧
      pathTypes registryS4 [1, 2, 3] = [0, 1, 0] ∧
      (buildQuoteParams registryS4 [1, 2, 3]).map (fun qs => qs.map fun q => q.Quoters) =
        some (List.replicate 20 [AddressZero, UniswapV3Quoter, AddressZero]) ∧
      (calculateOutcomeForPath (fun _ => none) registryS4 [1, 2, 3]).map (fun tx => tx.Types) =
        some [0, 1, 0] ∧
      (calculateOutcomeForPath (fun _ => some quotesS6) registryS6 [1, 2, 3]).map
        (fun tx => tx.Types) = some [0, 1, 0]) := by
  refine ⟨⟨by simp [pathQuoters, pathPools], by simp [pathTypes, pathPools]⟩,
    fun k a hk => pathTags_get Pools path k a hk,
    fun k a pool hk hp => ?_, fun k a hk hp => ?_, fun qs hqs q hq => ?_, fun tx htx => ?_,
    ⟨by decide, by decide, by decide, by decide, by decide⟩⟩
  · obtain ⟨hq, ht⟩ := pathTags_get Pools path k a hk
    rw [hp, Option.getD_some] at hq ht
    have hne : ∀ h : pool.PoolType ≠ "v2",
        (pathQuoters Pools path).get? k = some UniswapV3Quoter ∧
        (pathTypes Pools path).get? k = some 1 := by
      intro h
      rw [hq, ht, if_neg h, if_neg h]
      exact ⟨rfl, rfl⟩
    refine ⟨fun h => hne (by rw [h]; decide), fun h => ?_, hne⟩
    rw [hq, ht, if_pos h, if_pos h]
    exact ⟨rfl, rfl⟩
  · obtain ⟨hq, ht⟩ := pathTags_get Pools path k a hk
    rw [hp] at hq ht
    exact ⟨hq, ht⟩
  · cases path with
    | nil => simp [buildQuoteParams] at hqs
    | cons first rest =>
      cases h0 : mapGet Pools first with
      | none => simp [buildQuoteParams, h0] at hqs
      | some pool0 =>
        simp only [buildQuoteParams, h0, Option.some.injEq] at hqs
        subst hqs
        simp only [List.mem_map] at hq
        obtain ⟨i, _, rfl⟩ := hq
        rfl
  · unfold calculateOutcomeForPath at htx
    cases hb : buildQuoteParams Pools path with
    | none => rw [hb] at htx; cases htx
    | some quoteParams =>
      rw [hb] at htx
      dsimp only at htx
      cases hm : multiQuote quoteParams with
      | none =>
        rw [hm] at htx
        cases htx
        rfl
      | some outcomes =>
        rw [hm] at htx
        exact (sweep_types outcomes quoteParams 0 _ tx htx).1

/-! ## C28, C30: the handler on messages it does not expect -/

/-- C28 (failing input): the handler of a rejected submission in `Run` slices
`errMsg[len(errMsg)-42:]` after testing only that the message contains
"Malicious Pool: ".  The message "Malicious Pool: 0x09" contains the marker and
has 20 bytes, so the slice starts at -22 and the handler does not return (a
run-time panic); likewise for the 16-byte message that is the marker alone.  For
a message that contains the marker the handler returns exactly when the message
has at least 42 bytes. -/
theorem C28_short_malicious_message_is_out_of_range :
    (maliciousMarker <:+: shortRejection ∧ shortRejection.length = 20 ∧
      handleSendError readHex registryTwoWeth shortRejection = none) ∧
    (maliciousMarker <:+: maliciousMarker ∧ maliciousMarker.length = 16 ∧
      handleSendError readHex registryTwoWeth maliciousMarker = none) ∧
    (∀ (HexToAddress : List Char → common.Address) (Pools : PoolMap) (errMsg : List Char),
      maliciousMarker <:+: errMsg →
      ((handleSendError HexToAddress Pools errMsg).isSome = true ↔ 42 ≤ errMsg.length)) := by
  refine ⟨⟨by decide, by decide, by decide⟩, ⟨by decide, by decide, by decide⟩, ?_⟩
  intro HexToAddress Pools errMsg hm
  unfold handleSendError
  rw [if_pos hm]
  by_cases hlen : errMsg.length < 42
  · rw [if_pos hlen]
    simp only [Option.isSome_none, Bool.false_eq_true, false_iff, not_le]
    exact hlen
  · rw [if_neg hlen]
    simp only [Option.isSome_some, true_iff]
    omega

/-- C30 (failing input): the node rejects with a message that names address 9,
which is not a key of the registry of pools 1 and 4.  The handler reads the zero
value of `Pool` for the missing key, clears its flag and stores it under its own
address, the zero address: the registry has a new entry at key 0, the zero pool.
In general, with an extracted address that is not a key, the handler stores the
zero pool at key 0, which adds an entry whenever 0 is not yet a key. -/
theorem C30_unknown_pool_adds_a_zero_entry :
    (maliciousMarker <:+: rejectionPrefix ++ addressNineHex ∧
      readHex ((rejectionPrefix ++ addressNineHex).drop
        ((rejectionPrefix ++ addressNineHex).length - 42)) = 9 ∧
      mapGet registryTwoWeth 9 = none ∧ mapGet registryTwoWeth 0 = none ∧
      handleSendError readHex registryTwoWeth (rejectionPrefix ++ addressNineHex) =
        some (registryTwoWeth ++ [(0, zeroPool)]) ∧
      (registryTwoWeth ++ [(0, zeroPool)]).map Prod.fst ≠ registryTwoWeth.map Prod.fst) ∧
    (∀ (HexToAddress : List Char → common.Address) (Pools : PoolMap) (errMsg : List Char),
      maliciousMarker <:+: errMsg → 42 ≤ errMsg.length →
      mapGet Pools (HexToAddress (errMsg.drop (errMsg.length - 42))) = none →
      handleSendError HexToAddress Pools errMsg = some (mapSet Pools 0 zeroPool) ∧
      (mapGet Pools 0 = none → mapSet Pools 0 zeroPool = Pools ++ [(0, zeroPool)])) := by
  refine ⟨⟨by decide, by decide, by decide, by decide, by decide, by decide⟩, ?_⟩
  intro HexToAddress Pools errMsg hm hlen hnone
  refine ⟨?_, fun h0 => mapSet_of_none _ _ _ h0⟩
  unfold handleSendError
  rw [if_pos hm, if_neg (by omega)]
  dsimp only
  rw [hnone]
  rfl

/-! ## C22: the sign and size of the reserves -/

/-- C22 (counterexample): pool P has reserves (100, 200), both in [0, 2^256).
A Burn(150, 0) log leaves reserve0 = -50, which is negative.  A
Mint(2^256 - 1, 1) log leaves reserve0 = 2^256 + 99, which is not below 2^256,
and the pool stays enabled. -/
theorem C22_burn_beyond_the_reserve_goes_negative :
    (0 ≤ poolP.Reserve0 ∧ poolP.Reserve0 < 2 ^ 256 ∧ 0 ≤ poolP.Reserve1 ∧
      poolP.Reserve1 < 2 ^ 256) ∧
    (mapGet (ResolveLogs noReserves [(200, poolP)]
        [{ Address := 200, Index := 1, event := .Burn 150 0 }]).2 200 =
      some { poolP with Reserve0 := -50, Reserve1 := 200, Enabled := false } ∧
      (-50 : Int) < 0) ∧
    (mapGet (ResolveLogs noReserves [(200, poolP)]
        [{ Address := 200, Index := 1,
           event := .Mint 115792089237316195423570985008687907853269984665640564039457584007913129639935 1 }]).2 200 =
      some { poolP with
             Reserve0 := 115792089237316195423570985008687907853269984665640564039457584007913129640035
             Reserve1 := 201, Enabled := true } ∧
      (115792089237316195423570985008687907853269984665640564039457584007913129639935 : Nat) = 2 ^ 256 - 1 ∧
      ¬ ((115792089237316195423570985008687907853269984665640564039457584007913129640035 : Int) < 2 ^ 256)) := by
  refine ⟨by norm_num [poolP], ⟨by decide, by decide⟩, ⟨by decide, by norm_num, by norm_num⟩⟩

/-- C22 (amended): the registry keeps reserves as signed integers with no bound,
and `ResolveLogs` adds and subtracts the amounts of the logs with no clamp.  For
every registry whose pools all have reserves of at least 0 (in particular
reserves in [0, 2^256)) and every batch of logs: every pool that has a negative
reserve after `ResolveLogs` is disabled, and every pool that the call changed
and that has a reserve that is not strictly positive is disabled. -/
theorem C22_negative_reserves_only_in_disabled_pools
    (getReserves : ReserveParams → Option (Nat × Nat)) (Pools : PoolMap) (logs : List Log)
    (hpre : ∀ a p, mapGet Pools a = some p → 0 ≤ p.Reserve0 ∧ 0 ≤ p.Reserve1) :
    ∀ a p', mapGet (ResolveLogs getReserves Pools logs).2 a = some p' →
      (p'.Reserve0 < 0 ∨ p'.Reserve1 < 0 → p'.Enabled = false) ∧
      (mapGet Pools a ≠ some p' → p'.Reserve0 ≤ 0 ∨ p'.Reserve1 ≤ 0 → p'.Enabled = false) := by
  intro a p' hp'
  have hR := (resolveFrom_writes positiveIfEnabled positiveIfEnabled_disableOnLog
    positiveIfEnabled_disableOnRead getReserves logs (resolveInit Pools)
    (by intro a ha; simp [resolveInit, mapGet] at ha)).1 a p' hp'
  rcases hR with hold | hpos
  · obtain ⟨h0, h1⟩ := hpre a p' hold
    exact ⟨fun h => by omega, fun h => absurd hold h⟩
  · have key : p'.Reserve0 ≤ 0 ∨ p'.Reserve1 ≤ 0 → p'.Enabled = false := by
      intro h
      cases hen : p'.Enabled with
      | false => rfl
      | true =>
        obtain ⟨h0, h1⟩ := hpos hen
        omega
    exact ⟨fun h => key (by omega), fun _ h => key h⟩

/-- C22 (instance): pool P after Burn(150, 0) has reserve0 = -50 and is
disabled. -/
theorem C22_negative_reserves_only_in_disabled_pools_witness :
    (∀ a p, mapGet [(200, poolP)] a = some p → 0 ≤ p.Reserve0 ∧ 0 ≤ p.Reserve1) ∧
    ∃ p', mapGet (ResolveLogs noReserves [(200, poolP)]
        [{ Address := 200, Index := 1, event := .Burn 150 0 }]).2 200 = some p' ∧
      p'.Reserve0 = -50 ∧ p'.Enabled = false :=
  have hpre : ∀ a p, mapGet [(200, poolP)] a = some p → 0 ≤ p.Reserve0 ∧ 0 ≤ p.Reserve1 := by
    intro a p hp
    have h : p = poolP := by
      simp only [mapGet] at hp
      split_ifs at hp
      · exact (Option.some.inj hp).symm
    subst h
    decide
  ⟨hpre, { poolP with Reserve0 := -50, Reserve1 := 200, Enabled := false }, by decide, rfl,
    ((C22_negative_reserves_only_in_disabled_pools noReserves [(200, poolP)]
      [{ Address := 200, Index := 1, event := .Burn 150 0 }] hpre) 200
      { poolP with Reserve0 := -50, Reserve1 := 200, Enabled := false } (by decide)).1
      (Or.inl (by decide))⟩

/-! ## Invariants of the entries that depend on the address and the tokens only -/

theorem sameStatic_disableOnRead (p q : Pool) (h : sameStatic p q) :
    sameStatic p (disableOnRead q) := by
  obtain ⟨e0, e1, e2, _, _, e5, e6⟩ := disableOnRead_fields q
  obtain ⟨h1, h2, h3, h4, h5⟩ := h
  exact ⟨e2.trans h1, e0.trans h2, e1.trans h3, e5.trans h4, e6.trans h5⟩

theorem registryInv_mapSet (R : Pool → Prop) (m : PoolMap) (k : common.Address) (v : Pool)
    (hm : registryInv R m) (hk : v.Address = k) (hv : R v) : registryInv R (mapSet m k v) := by
  intro kv hkv
  rcases mem_mapSet m k v kv hkv with h | h
  · exact hm kv h
  · subst h
    exact ⟨hk, hv⟩

theorem applyPoolLog_pools (st : ResolveState) (l : Log) :
    (applyPoolLog st l).Pools = st.Pools ∨
    ∃ p q, mapGet st.Pools l.Address = some p ∧ eventReserves p l.event = some q ∧
      (applyPoolLog st l).Pools = mapSet st.Pools l.Address (disableOnLog q) := by
  rw [applyPoolLog_eq]
  cases hg : mapGet st.Pools l.Address with
  | none => exact Or.inl rfl
  | some p =>
    dsimp only
    cases he : eventReserves p l.event with
    | none => exact Or.inl rfl
    | some q => exact Or.inr ⟨p, q, rfl, he, rfl⟩

/-- What one loop iteration of `ResolveLogs` does to the registry: nothing, the
write of a pool event at the address of the log, or the insertion of the pool a
creation event describes at an address that had no entry. -/
theorem resolveLog_pools_cases (getReserves : ReserveParams → Option (Nat × Nat))
    (st : ResolveState) (l : Log) :
    (resolveLog getReserves st l).Pools = st.Pools ∨
    (∃ p q, mapGet st.Pools l.Address = some p ∧ eventReserves p l.event = some q ∧
      (resolveLog getReserves st l).Pools = mapSet st.Pools l.Address (disableOnLog q)) ∨
    (∃ (pool : Pool) (r0 r1 : Nat), createdPool l.event = some pool ∧
      mapGet st.Pools pool.Address = none ∧
      (resolveLog getReserves st l).Pools = mapSet st.Pools pool.Address
        (disableOnRead { pool with Reserve0 := (r0 : Int), Reserve1 := (r1 : Int) })) := by
  by_cases hf : factoryAddressMap l.Address = true
  · rw [resolveLog_factory getReserves st l hf]
    dsimp only
    rw [applyFactoryLog_eq]
    cases hc : createdPool l.event with
    | none => exact Or.inl rfl
    | some pool =>
      dsimp only
      cases hr : getReserves (reserveParamsOf pool) with
      | none => exact Or.inl rfl
      | some r =>
        obtain ⟨r0, r1⟩ := r
        cases hg : mapGet st.Pools pool.Address with
        | some old => exact Or.inl rfl
        | none => exact Or.inr (Or.inr ⟨pool, r0, r1, rfl, hg, rfl⟩)
  · unfold resolveLog
    rw [if_neg hf]
    cases hg : mapGet st.logMap l.Address with
    | none =>
      rcases applyPoolLog_pools { st with logMap := mapSet st.logMap l.Address l.Index } l with
        h | h
      · exact Or.inl h
      · exact Or.inr (Or.inl h)
    | some old =>
      dsimp only
      split_ifs with hi
      · rcases applyPoolLog_pools { st with logMap := mapSet st.logMap l.Address l.Index } l
          with h | h
        · exact Or.inl h
        · exact Or.inr (Or.inl h)
      · exact Or.inl rfl

theorem createdPool_tokens (ev : Event) (pool : Pool) (h : createdPool ev = some pool)
    (hd : eventTokensDistinct ev) : pool.Token0 ≠ pool.Token1 := by
  cases ev <;> simp only [createdPool, Option.some.injEq] at h <;>
    first
    | (subst h; exact hd)
    | exact absurd h (by simp)

/-- One loop iteration of `ResolveLogs` keeps an invariant of the entries that
depends on the address and the tokens only, when the pool of a creation event
satisfies it. -/
theorem resolveLog_registryInv (R : Pool → Prop) (hR : ∀ p q, sameStatic p q → R p → R q)
    (getReserves : ReserveParams → Option (Nat × Nat)) (st : ResolveState) (l : Log)
    (hnew : ∀ pool, createdPool l.event = some pool → R pool)
    (hst : registryInv R st.Pools) : registryInv R (resolveLog getReserves st l).Pools := by
  rcases resolveLog_pools_cases getReserves st l with
    hP | ⟨p, q, hp, hq, hP⟩ | ⟨pool, r0, r1, hc, _, hP⟩
  · rw [hP]; exact hst
  · rw [hP]
    obtain ⟨hk, hRp⟩ := hst _ (mem_of_mapGet _ _ _ hp)
    have hs := sameStatic_disableOnLog p q (eventReserves_sameStatic p q _ hq)
    exact registryInv_mapSet R _ _ _ hst (hs.1.trans hk) (hR _ _ hs hRp)
  · rw [hP]
    have hs : sameStatic pool
        (disableOnRead { pool with Reserve0 := (r0 : Int), Reserve1 := (r1 : Int) }) :=
      sameStatic_disableOnRead _ _ ⟨rfl, rfl, rfl, rfl, rfl⟩
    exact registryInv_mapSet R _ _ _ hst hs.1 (hR _ _ hs (hnew pool hc))

theorem resolveFrom_registryInv (R : Pool → Prop) (hR : ∀ p q, sameStatic p q → R p → R q)
    (getReserves : ReserveParams → Option (Nat × Nat)) (logs : List Log) :
    ∀ st : ResolveState, (∀ l ∈ logs, ∀ pool, createdPool l.event = some pool → R pool) →
      registryInv R st.Pools → registryInv R (resolveFrom getReserves st logs).Pools := by
  induction logs with
  | nil => intro st _ h; exact h
  | cons l rest ih =>
    intro st hnew hst
    simp only [resolveFrom, List.foldl_cons] at ih ⊢
    exact ih _ (fun l' hl' => hnew l' (List.mem_cons_of_mem _ hl'))
      (resolveLog_registryInv R hR getReserves st l (hnew l (List.mem_cons_self _ _)) hst)

theorem setOldPool_registryInv (R : Pool → Prop) (hR : ∀ p q, sameStatic p q → R p → R q)
    (Pools : PoolMap) (oldParam : ReserveParams) (reserves : Nat × Nat)
    (hkey : (mapGet Pools oldParam.Pool).isSome = true) (hst : registryInv R Pools) :
    registryInv R (setOldPool Pools oldParam reserves) ∧
    ∀ k, (mapGet Pools k).isSome = true →
      (mapGet (setOldPool Pools oldParam reserves) k).isSome = true := by
  obtain ⟨p, hp⟩ := Option.isSome_iff_exists.1 hkey
  obtain ⟨hk, hRp⟩ := hst _ (mem_of_mapGet _ _ _ hp)
  have hs : sameStatic p (disableOnRead
      { p with Reserve1 := (reserves.2 : Int), Reserve0 := (reserves.1 : Int) }) :=
    sameStatic_disableOnRead _ _ ⟨rfl, rfl, rfl, rfl, rfl⟩
  simp only [setOldPool, hp, Option.getD_some]
  exact ⟨registryInv_mapSet R _ _ _ hst (hs.1.trans hk) (hR _ _ hs hRp),
    fun k hk' => mapGet_isSome_mapSet _ _ _ _ hk'⟩

theorem setOldBatch_registryInv (R : Pool → Prop) (hR : ∀ p q, sameStatic p q → R p → R q)
    (res : List (Nat × Nat)) (params : List ReserveParams) :
    ∀ (Pools : PoolMap) (j : Nat),
      (∀ prm ∈ params, (mapGet Pools prm.Pool).isSome = true) → registryInv R Pools →
      registryInv R (setOldBatch res Pools params j).1 ∧
      ∀ k, (mapGet Pools k).isSome = true →
        (mapGet (setOldBatch res Pools params j).1 k).isSome = true := by
  induction params with
  | nil => intro Pools j _ hst; exact ⟨hst, fun _ h => h⟩
  | cons oldParam rest ih =>
    intro Pools j hkeys hst
    unfold setOldBatch
    cases hr : res.get? j with
    | none => exact ⟨hst, fun _ h => h⟩
    | some reserves =>
      dsimp only
      obtain ⟨h₁, h₂⟩ := setOldPool_registryInv R hR Pools oldParam reserves
        (hkeys oldParam (List.mem_cons_self _ _)) hst
      obtain ⟨h₃, h₄⟩ := ih (setOldPool Pools oldParam reserves) (j + 1)
        (fun prm hprm => h₂ _ (hkeys prm (List.mem_cons_of_mem _ hprm))) h₁
      exact ⟨h₃, fun k hk => h₄ k (h₂ k hk)⟩

theorem setOldReserves_registryInv (R : Pool → Prop)
    (hR : ∀ p q, sameStatic p q → R p → R q)
    (multiGetReserves : List ReserveParams → Option (List (Nat × Nat)))
    (slices : List (List ReserveParams)) :
    ∀ Pools : PoolMap,
      (∀ slice ∈ slices, ∀ prm ∈ slice, (mapGet Pools prm.Pool).isSome = true) →
      registryInv R Pools →
      registryInv R (setOldReserves multiGetReserves Pools slices).1 := by
  induction slices with
  | nil => intro Pools _ hst; exact hst
  | cons paramSlice rest ih =>
    intro Pools hkeys hst
    unfold setOldReserves
    cases hm : multiGetReserves paramSlice with
    | none => exact hst
    | some res =>
      dsimp only
      obtain ⟨h₁, h₂⟩ := setOldBatch_registryInv R hR res paramSlice Pools 0
        (hkeys paramSlice (List.mem_cons_self _ _)) hst
      rcases hs : setOldBatch res Pools paramSlice 0 with ⟨Pools', flag⟩
      rw [hs] at h₁ h₂
      cases flag with
      | false => exact h₁
      | true =>
        exact ih Pools'
          (fun slice hslice prm hprm =>
            h₂ _ (hkeys slice (List.mem_cons_of_mem _ hslice) prm hprm)) h₁

theorem setNewPools_registryInv (R : Pool → Prop) (hR : ∀ p q, sameStatic p q → R p → R q)
    (getReserves : ReserveParams → Option (Nat × Nat)) (newPools : List Pool) :
    ∀ Pools : PoolMap, (∀ pool ∈ newPools, R pool) → registryInv R Pools →
      registryInv R (newPools.foldl (setNewPool getReserves) Pools) := by
  induction newPools with
  | nil => intro Pools _ hst; exact hst
  | cons pool rest ih =>
    intro Pools hnew hst
    rw [List.foldl_cons]
    apply ih _ (fun p hp => hnew p (List.mem_cons_of_mem _ hp))
    unfold setNewPool
    cases hr : getReserves (reserveParamsOf pool) with
    | none => exact hst
    | some r =>
      have hs : sameStatic pool
          (disableOnRead { pool with Reserve0 := (r.1 : Int), Reserve1 := (r.2 : Int) }) :=
        sameStatic_disableOnRead _ _ ⟨rfl, rfl, rfl, rfl, rfl⟩
      exact registryInv_mapSet R _ _ _ hst hs.1
        (hR _ _ hs (hnew pool (List.mem_cons_self _ _)))

/-- `SetReserves`, however it ends, keeps an invariant of the entries that
depends on the address and the tokens only, when the new pools satisfy it. -/
theorem SetReserves_registryInv (R : Pool → Prop) (hR : ∀ p q, sameStatic p q → R p → R q)
    (multiGetReserves : List ReserveParams → Option (List (Nat × Nat)))
    (getReserves : ReserveParams → Option (Nat × Nat)) (Pools : PoolMap) (newPools : List Pool)
    (hnew : ∀ pool ∈ newPools, R pool) (hst : registryInv R Pools) :
    registryInv R (SetReserves multiGetReserves getReserves Pools newPools).1 := by
  have hkeys : ∀ slice ∈ batches 2000 (Pools.map fun kv => reserveParamsOf kv.2),
      ∀ prm ∈ slice, (mapGet Pools prm.Pool).isSome = true := by
    intro slice hslice prm hprm
    have hmem : prm ∈ (batches 2000 (Pools.map fun kv => reserveParamsOf kv.2)).flatten :=
      List.mem_flatten.2 ⟨slice, hslice, hprm⟩
    rw [(batches_isChunking 2000 (by norm_num) _).1, List.mem_map] at hmem
    obtain ⟨kv, hkv, rfl⟩ := hmem
    have hk : (reserveParamsOf kv.2).Pool = kv.1 := (hst kv hkv).1
    rw [hk]
    exact mapGet_isSome_of_mem Pools kv.1 kv.2 hkv
  have ho := setOldReserves_registryInv R hR multiGetReserves _ Pools hkeys hst
  unfold SetReserves
  dsimp only
  rcases hs : setOldReserves multiGetReserves Pools
    (batches 2000 (Pools.map fun kv => reserveParamsOf kv.2)) with ⟨Pools', status⟩
  rw [hs] at ho
  rw [hs]
  cases status with
  | done => exact setNewPools_registryInv R hR getReserves newPools Pools' hnew ho
  | rpcError => exact ho
  | indexPanic => exact ho

/-! ## C21: the tokens of a pool -/

/-- C21 (counterexample): the V2 factory announces the pair 50 with token0 =
token1 = 7 and the contract reports reserves (30, 40).  `ResolveLogs` on the
empty registry stores the pool, whose two tokens are equal; so does
`SetReserves` on the empty registry for a new pool with these tokens. -/
theorem C21_creation_event_with_equal_tokens_is_stored :
    factoryAddressMap PoolFactoryV2 = true ∧
    (∃ p, mapGet (ResolveLogs (fun _ => some (30, 40)) []
        [{ Address := PoolFactoryV2, Index := 0, event := .PairCreated 7 7 50 }]).2 50 = some p ∧
      p.Token0 = p.Token1) ∧
    (∃ p, mapGet (SetReserves (fun _ => some []) (fun _ => some (30, 40)) []
        [poolEqualTokens]).1 50 = some p ∧
      p.Token0 = p.Token1) :=
  ⟨by decide, ⟨{ poolEqualTokens with Reserve0 := 30, Reserve1 := 40 }, by decide, rfl⟩,
    ⟨{ poolEqualTokens with Reserve0 := 30, Reserve1 := 40 }, by decide, rfl⟩⟩

/-- C21 (amended): neither operation tests the tokens; `ResolveLogs` and
`SetReserves` keep the tokens of the pools they rewrite and store a created or
new pool with the tokens it comes with.  Hence, for every registry in which
every pool is stored under its own address and has token0 different from
token1, and every sequence of `ResolveLogs` and `SetReserves` operations in which
every PairCreated / PoolCreated event and every new pool has token0 different
from token1 (as the factories guarantee): after the sequence every pool of the
registry is stored under its own address and has token0 different from token1.
This holds for any answers of the execution contract and however a `SetReserves`
call ends. -/
theorem C21_distinct_tokens_are_preserved (Pools : PoolMap) (ops : List RegistryOp)
    (hinit : ∀ kv ∈ Pools, kv.2.Address = kv.1 ∧ kv.2.Token0 ≠ kv.2.Token1)
    (hops : ∀ op ∈ ops, creationsDistinct op) :
    (∀ kv ∈ runOps Pools ops, kv.2.Address = kv.1 ∧ kv.2.Token0 ≠ kv.2.Token1) ∧
    ∀ a p, mapGet (runOps Pools ops) a = some p → p.Token0 ≠ p.Token1 := by
  have hR : ∀ p q : Pool, sameStatic p q → p.Token0 ≠ p.Token1 → q.Token0 ≠ q.Token1 := by
    intro p q hs hne
    rw [hs.2.1, hs.2.2.1]
    exact hne
  have key : ∀ (ops : List RegistryOp) (Pools : PoolMap),
      (∀ op ∈ ops, creationsDistinct op) →
      registryInv (fun p => p.Token0 ≠ p.Token1) Pools →
      registryInv (fun p => p.Token0 ≠ p.Token1) (runOps Pools ops) := by
    intro ops
    induction ops with
    | nil => intro Pools _ h; exact h
    | cons op rest ih =>
      intro Pools hops hst
      simp only [runOps, List.foldl_cons] at ih ⊢
      apply ih _ (fun op' hop' => hops op' (List.mem_cons_of_mem _ hop'))
      have hop := hops op (List.mem_cons_self _ _)
      cases op with
      | resolveLogs getReserves logs =>
        exact resolveFrom_registryInv _ hR getReserves logs (resolveInit Pools)
          (fun l hl pool hc => createdPool_tokens l.event pool hc (hop l hl)) hst
      | setReserves multiGetReserves getReserves newPools =>
        exact SetReserves_registryInv _ hR multiGetReserves getReserves Pools newPools hop hst
  have h := key ops Pools hops hinit
  exact ⟨h, fun a p hp => (h _ (mem_of_mapGet _ _ _ hp)).2⟩

/-- C21 (instance): from the empty registry, a `SetReserves` call that stores
pool 1 of scenario S4 and then a `ResolveLogs` call on a batch in which the V2
factory announces the pair 50 of tokens 7 and 8. -/
theorem C21_distinct_tokens_are_preserved_witness :
    (∀ op ∈ [RegistryOp.setReserves (fun _ => some []) (fun _ => some (30, 40)) [pool1S4],
        RegistryOp.resolveLogs (fun _ => some (30, 40))
          [{ Address := PoolFactoryV2, Index := 0, event := .PairCreated 7 8 50 }]],
      creationsDistinct op) ∧
    (runOps [] [RegistryOp.setReserves (fun _ => some []) (fun _ => some (30, 40)) [pool1S4],
        RegistryOp.resolveLogs (fun _ => some (30, 40))
          [{ Address := PoolFactoryV2, Index := 0, event := .PairCreated 7 8 50 }]]).map
      Prod.fst = [1, 50] ∧
    ∀ a p, mapGet (runOps []
        [RegistryOp.setReserves (fun _ => some []) (fun _ => some (30, 40)) [pool1S4],
         RegistryOp.resolveLogs (fun _ => some (30, 40))
          [{ Address := PoolFactoryV2, Index := 0, event := .PairCreated 7 8 50 }]]) a = some p →
      p.Token0 ≠ p.Token1 :=
  have hops : ∀ op ∈ [RegistryOp.setReserves (fun _ => some []) (fun _ => some (30, 40)) [pool1S4],
        RegistryOp.resolveLogs (fun _ => some (30, 40))
          [{ Address := PoolFactoryV2, Index := 0, event := .PairCreated 7 8 50 }]],
      creationsDistinct op := by
    intro op hop
    simp only [List.mem_cons, List.mem_singleton, List.not_mem_nil, or_false] at hop
    rcases hop with rfl | rfl
    · intro pool hpool
      simp only [List.mem_singleton] at hpool
      subst hpool
      decide
    · intro l hl
      simp only [List.mem_singleton] at hl
      subst hl
      show (7 : common.Address) ≠ 8
      decide
  ⟨hops, by decide,
    (C21_distinct_tokens_are_preserved [] _ (fun kv hkv => absurd hkv (List.not_mem_nil kv))
      hops).2⟩

/-! ## C27: the affected list -/

theorem resolveAll_snoc (getReserves : ReserveParams → Option (Nat × Nat)) (Pools : PoolMap)
    (done : List Log) (x : Log) :
    resolveAll getReserves Pools (done ++ [x]) =
      resolveLog getReserves (resolveAll getReserves Pools done) x := by
  simp [resolveAll, resolveFrom, List.foldl_append]

theorem applyPoolLog_logMap (st : ResolveState) (l : Log) :
    (applyPoolLog st l).logMap = st.logMap := by
  rw [applyPoolLog_eq]
  cases h₁ : mapGet st.Pools l.Address with
  | none => rfl
  | some pool =>
    dsimp only
    cases h₂ : eventReserves pool l.event with
    | none => rfl
    | some pool' => rfl

/-- A pool log that passes the index test is handed to the event blocks. -/
theorem resolveLog_passed (getReserves : ReserveParams → Option (Nat × Nat))
    (st : ResolveState) (l : Log) (hf : factoryAddressMap l.Address = false)
    (hpass : ∀ old, mapGet st.logMap l.Address = some old → old < l.Index) :
    resolveLog getReserves st l =
      applyPoolLog { st with logMap := mapSet st.logMap l.Address l.Index } l := by
  unfold resolveLog
  rw [hf]
  cases hg : mapGet st.logMap l.Address with
  | none => simp
  | some old => simp [hpass old hg]

/-- A pool log that fails the index test changes nothing. -/
theorem resolveLog_skipped (getReserves : ReserveParams → Option (Nat × Nat))
    (st : ResolveState) (l : Log) (hf : factoryAddressMap l.Address = false)
    (hfail : ¬ ∀ old, mapGet st.logMap l.Address = some old → old < l.Index) :
    resolveLog getReserves st l = st := by
  obtain ⟨old, hold, hle⟩ : ∃ old, mapGet st.logMap l.Address = some old ∧ ¬ old < l.Index := by
    by_contra hcon
    apply hfail
    intro old hold
    by_contra hlt
    exact hcon ⟨old, hold, hlt⟩
  unfold resolveLog
  rw [hf]
  simp [hold, hle]

/-- After any batch, `logMap` answers the index filter of the batch. -/
theorem logMap_filter (getReserves : ReserveParams → Option (Nat × Nat)) (Pools : PoolMap)
    (logs : List Log) : ∀ l : Log, factoryAddressMap l.Address = false →
    ((∀ old, mapGet (resolveAll getReserves Pools logs).logMap l.Address = some old →
        old < l.Index) ↔ passesIndexFilter logs l = true) := by
  induction logs using List.reverseRecOn with
  | nil =>
    intro l _
    simp [resolveAll, resolveFrom, resolveInit, mapGet, passesIndexFilter]
  | append_singleton done x ih =>
    intro l hl
    rw [resolveAll_snoc, passesIndexFilter_append]
    by_cases hf : factoryAddressMap x.Address = true
    · rw [resolveLog_factory getReserves _ x hf]
      have hne : x.Address ≠ l.Address := by
        intro h; rw [h] at hf; rw [hf] at hl; exact Bool.noConfusion hl
      constructor
      · intro h; exact ⟨(ih l hl).1 h, fun h' => absurd h' hne⟩
      · intro h; exact (ih l hl).2 h.1
    · have hf' : factoryAddressMap x.Address = false := by simpa using hf
      by_cases hpass : ∀ old, mapGet (resolveAll getReserves Pools done).logMap x.Address =
          some old → old < x.Index
      · rw [resolveLog_passed getReserves _ x hf' hpass, applyPoolLog_logMap]
        have hpx := (ih x hf').1 hpass
        by_cases ha : l.Address = x.Address
        · rw [ha, mapGet_mapSet_self]
          constructor
          · intro h
            have hxl : x.Index < l.Index := h _ rfl
            refine ⟨?_, fun _ => hxl⟩
            have hx : ∀ e ∈ done, e.Address = x.Address → e.Index < x.Index := by
              simpa only [passesIndexFilter, List.all_eq_true, decide_eq_true_eq] using hpx
            simp only [passesIndexFilter, List.all_eq_true, decide_eq_true_eq]
            intro e he hea
            exact lt_trans (hx e he (hea.trans ha)) hxl
          · intro h old hold
            cases hold
            exact h.2 rfl
        · rw [mapGet_mapSet_ne _ _ _ _ ha]
          constructor
          · intro h; exact ⟨(ih l hl).1 h, fun h' => absurd h'.symm ha⟩
          · intro h; exact (ih l hl).2 h.1
      · rw [resolveLog_skipped getReserves _ x hf' hpass]
        obtain ⟨old, hold, hle⟩ : ∃ old,
            mapGet (resolveAll getReserves Pools done).logMap x.Address = some old ∧
            ¬ old < x.Index := by
          by_contra hcon
          apply hpass
          intro old hold
          by_contra hlt
          exact hcon ⟨old, hold, hlt⟩
        constructor
        · intro h
          refine ⟨(ih l hl).1 h, fun ha => ?_⟩
          rw [ha] at hold
          have := h old hold
          omega
        · intro h; exact (ih l hl).2 h.1

/-- A log that reaches the event blocks is recorded in `processedPools`, unless
its address is recorded already. -/
theorem resolveLog_processed_applied (getReserves : ReserveParams → Option (Nat × Nat))
    (st : ResolveState) (l : Log) (h : appliesIn st l) :
    ∃ p q, mapGet st.Pools l.Address = some p ∧ eventReserves p l.event = some q ∧
      (resolveLog getReserves st l).processedPools =
        match mapGet st.processedPools l.Address with
        | some _ => st.processedPools
        | none => mapSet st.processedPools l.Address (disableOnLog q) := by
  obtain ⟨hf, hpass, hev, hkey⟩ := h
  obtain ⟨p, hp⟩ := Option.isSome_iff_exists.1 hkey
  have hq : (eventReserves p l.event).isSome = true := by rw [eventReserves_isSome]; exact hev
  obtain ⟨q, hq⟩ := Option.isSome_iff_exists.1 hq
  refine ⟨p, q, hp, hq, ?_⟩
  rw [resolveLog_passed getReserves st l hf hpass, applyPoolLog_eq]
  simp only [hp, hq, storeProcessed]

/-- Any other log leaves `processedPools` as it is. -/
theorem resolveLog_processed_skipped (getReserves : ReserveParams → Option (Nat × Nat))
    (st : ResolveState) (l : Log) (h : ¬ appliesIn st l) :
    (resolveLog getReserves st l).processedPools = st.processedPools := by
  by_cases hf : factoryAddressMap l.Address = true
  · rw [resolveLog_factory getReserves st l hf]
  · have hf' : factoryAddressMap l.Address = false := by simpa using hf
    by_cases hpass : ∀ old, mapGet st.logMap l.Address = some old → old < l.Index
    · rw [resolveLog_passed getReserves st l hf' hpass, applyPoolLog_eq]
      dsimp only
      cases hp : mapGet st.Pools l.Address with
      | none => rfl
      | some p =>
        dsimp only
        cases hq : eventReserves p l.event with
        | none => rfl
        | some q =>
          exfalso
          apply h
          refine ⟨hf', hpass, ?_, by rw [hp]; rfl⟩
          rw [← eventReserves_isSome p, hq]
          rfl
    · rw [resolveLog_skipped getReserves st l hf' hpass]

theorem touchedBy_snoc (getReserves : ReserveParams → Option (Nat × Nat)) (Pools : PoolMap)
    (done : List Log) (x : Log) (a : common.Address) :
    touchedBy getReserves Pools (done ++ [x]) a ↔
      touchedBy getReserves Pools done a ∨
      (x.Address = a ∧ factoryAddressMap a = false ∧ isPoolEvent x.event = true ∧
        passesIndexFilter done x = true ∧
        (mapGet (ResolveLogs getReserves Pools done).2 a).isSome = true) := by
  constructor
  · rintro ⟨i, l, hget, ha, hf, hev, hpass, hkey⟩
    rw [List.get?_eq_getElem?] at hget
    by_cases hi : i < done.length
    · rw [List.getElem?_append_left hi] at hget
      rw [List.take_append_of_le_length (le_of_lt hi)] at hpass hkey
      exact Or.inl ⟨i, l, by rw [List.get?_eq_getElem?]; exact hget, ha, hf, hev, hpass, hkey⟩
    · have hi' : i = done.length := by
        have hlt : i < (done ++ [x]).length := by
          by_contra hge
          rw [List.getElem?_eq_none (by omega)] at hget
          cases hget
        rw [List.length_append, List.length_singleton] at hlt
        omega
      subst hi'
      rw [List.getElem?_append_right (le_refl _)] at hget
      simp only [Nat.sub_self, List.getElem?_cons_zero, Option.some.injEq] at hget
      subst hget
      rw [List.take_left'] at hpass hkey
      · exact Or.inr ⟨ha, hf, hev, hpass, hkey⟩
      · rfl
      · rfl
  · rintro (⟨i, l, hget, ha, hf, hev, hpass, hkey⟩ | ⟨ha, hf, hev, hpass, hkey⟩)
    · rw [List.get?_eq_getElem?] at hget
      have hi : i < done.length := by
        by_contra hge
        rw [List.getElem?_eq_none (by omega)] at hget
        cases hget
      refine ⟨i, l, ?_, ha, hf, hev, ?_, ?_⟩
      · rw [List.get?_eq_getElem?, List.getElem?_append_left hi]; exact hget
      · rw [List.take_append_of_le_length (le_of_lt hi)]; exact hpass
      · rw [List.take_append_of_le_length (le_of_lt hi)]; exact hkey
    · refine ⟨done.length, x, ?_, ha, hf, hev, ?_, ?_⟩
      · rw [List.get?_eq_getElem?, List.getElem?_append_right (le_refl _)]
        simp
      · rw [List.take_left' rfl]; exact hpass
      · rw [List.take_left' rfl]; exact hkey

/-- The bookkeeping of `ResolveLogs`: `processedPools` has one entry per touched
address, and the pool of each entry has the address of its key. -/
theorem processedPools_spec (getReserves : ReserveParams → Option (Nat × Nat))
    (Pools : PoolMap) (hkey : ∀ kv ∈ Pools, kv.2.Address = kv.1) (logs : List Log) :
    ((resolveAll getReserves Pools logs).processedPools.map Prod.fst).Nodup ∧
    (∀ kv ∈ (resolveAll getReserves Pools logs).processedPools, kv.2.Address = kv.1) ∧
    ∀ a, (mapGet (resolveAll getReserves Pools logs).processedPools a).isSome = true ↔
      touchedBy getReserves Pools logs a := by
  induction logs using List.reverseRecOn with
  | nil =>
    refine ⟨List.nodup_nil, fun kv hkv => absurd hkv (List.not_mem_nil kv), fun a => ?_⟩
    constructor
    · intro h
      simp [resolveAll, resolveFrom, resolveInit, mapGet] at h
    · rintro ⟨i, l, hget, _⟩
      simp at hget
  | append_singleton done x ih =>
    obtain ⟨ihn, ihv, ihk⟩ := ih
    have hinv : registryInv (fun _ => True) (resolveAll getReserves Pools done).Pools :=
      resolveFrom_registryInv (fun _ => True) (fun _ _ _ _ => trivial) getReserves done
        (resolveInit Pools) (fun _ _ _ _ => trivial) (fun kv hkv => ⟨hkey kv hkv, trivial⟩)
    have hcond : ∀ a, (x.Address = a ∧ appliesIn (resolveAll getReserves Pools done) x) ↔
        (x.Address = a ∧ factoryAddressMap a = false ∧ isPoolEvent x.event = true ∧
          passesIndexFilter done x = true ∧
          (mapGet (ResolveLogs getReserves Pools done).2 a).isSome = true) := by
      intro a
      constructor
      · rintro ⟨rfl, hf, hpass, hev, hk⟩
        exact ⟨rfl, hf, hev, (logMap_filter getReserves Pools done x hf).1 hpass, hk⟩
      · rintro ⟨rfl, hf, hev, hpass, hk⟩
        exact ⟨rfl, hf, (logMap_filter getReserves Pools done x hf).2 hpass, hev, hk⟩
    rw [resolveAll_snoc]
    by_cases happ : appliesIn (resolveAll getReserves Pools done) x
    · obtain ⟨p, q, hp, hq, hproc⟩ :=
        resolveLog_processed_applied getReserves _ x happ
      rw [hproc]
      cases hm : mapGet (resolveAll getReserves Pools done).processedPools x.Address with
      | some v =>
        refine ⟨ihn, ihv, fun a => ?_⟩
        rw [touchedBy_snoc, ihk a, ← hcond a]
        constructor
        · exact Or.inl
        · rintro (h | ⟨rfl, _⟩)
          · exact h
          · rw [← ihk, hm]; rfl
      | none =>
        dsimp only
        have hv : (disableOnLog q).Address = x.Address :=
          (sameStatic_disableOnLog p q (eventReserves_sameStatic p q _ hq)).1.trans
            (hinv _ (mem_of_mapGet _ _ _ hp)).1
        refine ⟨?_, ?_, fun a => ?_⟩
        · rw [mapSet_of_none _ _ _ hm, List.map_append, List.nodup_append]
          refine ⟨ihn, List.nodup_singleton _, ?_⟩
          intro k hk hk'
          simp only [List.map_cons, List.map_nil, List.mem_singleton] at hk'
          subst hk'
          exact (mapGet_eq_none_iff _ _).1 hm hk
        · intro kv hkv
          rcases mem_mapSet _ _ _ kv hkv with h | h
          · exact ihv kv h
          · subst h
            exact hv
        · rw [touchedBy_snoc, ← hcond a, ← ihk a]
          by_cases ha : a = x.Address
          · subst ha
            rw [mapGet_mapSet_self]
            exact ⟨fun _ => Or.inr ⟨rfl, happ⟩, fun _ => rfl⟩
          · rw [mapGet_mapSet_ne _ _ _ _ ha]
            constructor
            · exact Or.inl
            · rintro (h | ⟨h, _⟩)
              · exact h
              · exact absurd h.symm ha
    · rw [resolveLog_processed_skipped getReserves _ x happ]
      refine ⟨ihn, ihv, fun a => ?_⟩
      rw [touchedBy_snoc, ihk a, ← hcond a]
      constructor
      · exact Or.inl
      · rintro (h | ⟨_, h⟩)
        · exact h
        · exact absurd h happ

/-- C27: the list that `ResolveLogs` returns, for a registry in which every pool
is stored under its own address and any batch of logs.  The addresses of the
returned pools are pairwise distinct, and an address occurs among them if and
only if the batch touches it: some Swap, Mint, Burn, CollectProtocol or Sync log
of that (non-factory) address passes the index filter and finds the address as a
registry key, so that the log is applied to the registry.  Every such address is
a key of the registry after the call. -/
theorem C27_affected_list_is_the_touched_pools
    (getReserves : ReserveParams → Option (Nat × Nat)) (Pools : PoolMap) (logs : List Log)
    (hkey : ∀ kv ∈ Pools, kv.2.Address = kv.1) :
    ((ResolveLogs getReserves Pools logs).1.map fun p => p.Address).Nodup ∧
    (∀ a, a ∈ ((ResolveLogs getReserves Pools logs).1.map fun p => p.Address) ↔
      touchedBy getReserves Pools logs a) ∧
    (∀ a, touchedBy getReserves Pools logs a →
      (mapGet (ResolveLogs getReserves Pools logs).2 a).isSome = true) := by
  obtain ⟨hn, hv, hk⟩ := processedPools_spec getReserves Pools hkey logs
  have hmap : ((ResolveLogs getReserves Pools logs).1.map fun p => p.Address) =
      (resolveAll getReserves Pools logs).processedPools.map Prod.fst := by
    simp only [ResolveLogs, List.map_map]
    apply List.map_congr_left
    intro kv hkv
    exact hv kv hkv
  have hmem : ∀ a, a ∈ (resolveAll getReserves Pools logs).processedPools.map Prod.fst ↔
      (mapGet (resolveAll getReserves Pools logs).processedPools a).isSome = true := by
    intro a
    constructor
    · intro h
      cases hg : mapGet (resolveAll getReserves Pools logs).processedPools a with
      | some v => rfl
      | none => exact absurd h ((mapGet_eq_none_iff _ _).1 hg)
    · intro h
      by_contra hcon
      rw [(mapGet_eq_none_iff _ _).2 hcon] at h
      cases h
  refine ⟨by rw [hmap]; exact hn, fun a => by rw [hmap, hmem, hk], fun a ha => ?_⟩
  have hR := (resolveFrom_writes (fun _ => True) (fun _ => trivial) (fun _ _ _ => trivial)
    getReserves logs (resolveInit Pools)
    (by intro a ha; simp [resolveInit, mapGet] at ha)).2 a ((hk a).2 ha)
  obtain ⟨p', hp', _⟩ := hR
  show (mapGet (resolveFrom getReserves (resolveInit Pools) logs).Pools a).isSome = true
  rw [hp']
  rfl

/-- C27 (instance): the registry of pools 1 and 4 and a batch in which pool 4
logs Sync(0, 0) at index 3 and then a Swap at index 2, and an address that is not
a key logs a Swap.  The returned list is the one record of pool 4. -/
theorem C27_affected_list_is_the_touched_pools_witness :
    (∀ kv ∈ registryTwoWeth, kv.2.Address = kv.1) ∧
    ((ResolveLogs noReserves registryTwoWeth batchMixed).1.map fun p => p.Address) = [4] ∧
    (((ResolveLogs noReserves registryTwoWeth batchMixed).1.map fun p => p.Address).Nodup ∧
      (∀ a, a ∈ ((ResolveLogs noReserves registryTwoWeth batchMixed).1.map fun p => p.Address) ↔
        touchedBy noReserves registryTwoWeth batchMixed a) ∧
      (∀ a, touchedBy noReserves registryTwoWeth batchMixed a →
        (mapGet (ResolveLogs noReserves registryTwoWeth batchMixed).2 a).isSome = true)) :=
  ⟨by decide, by decide,
    C27_affected_list_is_the_touched_pools noReserves registryTwoWeth batchMixed (by decide)⟩

end clients
